import Mathlib

set_option maxHeartbeats 1000000

/-!
# Verification of the segregated-list dynamic memory allocator (mm.c)

Shallow embedding of `src/mm.c`.  Machine words are `Nat` taken modulo
`W = 2^64`; header words are kept raw (bit-packed, as in the C source) and
decoded with the same mask operations mm.c uses.  The heap is modelled as the
address-ordered list of blocks between the prologue and the epilogue, each
block carrying its raw header word and its payload bytes; the twelve
segregated free lists are kept as lists of payload addresses in link order
(head of the list = bucket root, successive elements = the chain of
`next` links threaded through free-block payloads).  The epilogue header word
is kept explicitly, since `extend_heap` reads its prev-alloc bit.

Addresses are byte offsets from the start of the managed region:
the 12-word segregated index occupies bytes 0..95, then the alignment pad,
prologue header and prologue footer bring the first payload address to 128
(`heapBase`).  Block payload addresses are `heapBase` plus the sizes of all
earlier blocks, exactly as `NEXT_BLKP` walks the implicit list.
-/

namespace MM

/-- The 64-bit machine-word modulus; all `size_t` arithmetic in mm.c is mod `W`. -/
def W : Nat := 2 ^ 64

/-- mm.c `PACK`: pack a size and allocated bit into a word (`size | alloc`). -/
def PACK (size alloc : Nat) : Nat := size ||| alloc

/-- mm.c `GET_SIZE` applied to a header word: `w & ~0x7` at 64 bits. -/
def GET_SIZE (w : Nat) : Nat := w &&& (W - 8)

/-- mm.c `GET_ALLOC` applied to a header word: `w & 0x1`. -/
def GET_ALLOC (w : Nat) : Nat := w &&& 1

/-- mm.c `PREV_ALLOC` applied to a header word: `w & 0x2`. -/
def PREV_ALLOC (w : Nat) : Nat := w &&& 2

/-- mm.c `get_segclass_ind`: the index of the freelist class a size belongs to. -/
def get_segclass_ind (size : Nat) : Nat :=
  if size ≤ 32 then 0
  else if size ≤ 64 then 1
  else if size ≤ 128 then 2
  else if size ≤ 256 then 3
  else if size ≤ 512 then 4
  else if size ≤ 1024 then 5
  else if size ≤ 2048 then 6
  else if size ≤ 4096 then 7
  else if size ≤ 8192 then 8
  else if size ≤ 16384 then 9
  else if size ≤ 32768 then 10
  else 11

/-- mm.c `align`: `ALIGNMENT * ((x+ALIGNMENT-1)/ALIGNMENT)` in `size_t`
    arithmetic (the increment wraps mod `W`; the quotient times 16 is < `W`). -/
def align (x : Nat) : Nat := 16 * (((x + 16 - 1) % W) / 16)

/-- Unsigned 64-bit subtraction `a - b` (wraps below zero), for `a b < W`. -/
def csub (a b : Nat) : Nat := (a + W - b) % W

/-- One heap block: its raw header word and its payload bytes
    (`data j` = the byte at offset `j` from the block payload address). -/
structure Blk where
  hdr : Nat
  data : Nat → Nat

/-- The allocator state: the address-ordered blocks strictly between prologue
    and epilogue, the twelve bucket lists (payload addresses in link order),
    and the raw epilogue header word. -/
structure Heap where
  blocks : List Blk
  buckets : Nat → List Nat
  epiHdr : Nat

/-- Size field of a block, as mm.c reads it from the header. -/
def blkSize (b : Blk) : Nat := GET_SIZE b.hdr

def sumSizes (bs : List Blk) : Nat := (bs.map blkSize).sum

/-- Payload address of the first real block: 12 seg-list words (96 bytes),
    the alignment pad, the prologue header and the prologue footer (32 bytes). -/
def heapBase : Nat := 128

/-- Payload address of block `i` (prefix sum of sizes, as `NEXT_BLKP` walks). -/
def addrAt (h : Heap) (i : Nat) : Nat := heapBase + sumSizes (h.blocks.take i)

/-- One past the last block: the payload address the epilogue header fronts. -/
def heapEnd (h : Heap) : Nat := heapBase + sumSizes h.blocks

def idxOfAux (a : Nat) : List Blk → Nat → Option Nat
  | [], _ => none
  | b :: bs, base =>
    if base = a then some 0 else (idxOfAux a bs (base + blkSize b)).map (· + 1)

/-- Index of the block whose payload address is `a` (first match). -/
def idxOf (h : Heap) (a : Nat) : Option Nat := idxOfAux a h.blocks heapBase

/-- The header word a read of `GET(HDRP(a))` returns, when `a` is a block
    payload address; `none` models an invalid read (e.g. through null). -/
def hdrAt? (h : Heap) (a : Nat) : Option Nat :=
  (idxOf h a).bind fun i => (h.blocks[i]?).map Blk.hdr

/-- `GET_SIZE(HDRP(a))` for a block payload address `a`. -/
def sizeAt (h : Heap) (a : Nat) : Nat := (hdrAt? h a).elim 0 GET_SIZE

/-- mm.c `seglist_add`: both branches link `bp` in at the head of its class
    (the root becomes bp, bp.next the old root, bp.prev null, and the old
    head's prev becomes bp). -/
def seglist_add (h : Heap) (bp size : Nat) : Heap :=
  let ind := get_segclass_ind size
  { h with buckets := Function.update h.buckets ind (bp :: h.buckets ind) }

/-- The `next` free-list link of `bp`: the element after the first occurrence
    of `bp` in its bucket list. -/
def linkNext : List Nat → Nat → Option Nat
  | [], _ => none
  | x :: rest, bp => if x = bp then rest.head? else linkNext rest bp

/-- The `prev` free-list link of `bp`: the element before the first occurrence
    of `bp` in its bucket list (none when `bp` heads the list). -/
def linkPrev : List Nat → Nat → Option Nat
  | [], _ => none
  | x :: rest, bp =>
    if x = bp then none
    else
      match rest with
      | [] => none
      | y :: _ => if y = bp then some x else linkPrev rest bp

def removeFirst : List Nat → Nat → List Nat
  | [], _ => []
  | x :: rest, bp => if x = bp then rest else x :: removeFirst rest bp

/-- mm.c `seglist_delete`: branches on the nullity of `bp`'s next and prev
    links, exactly as the source does.
    next ∧ ¬prev: bp heads the class, root := bp.next;
    ¬next ∧ prev: bp is last, prev.next := null;
    next ∧ prev: middle, rewire both neighbours;
    otherwise: root := null. -/
def seglist_delete (h : Heap) (bp size : Nat) : Heap :=
  let ind := get_segclass_ind size
  let l := h.buckets ind
  let l2 :=
    match linkNext l bp, linkPrev l bp with
    | some _, none => l.tail
    | none, some _ => l.dropLast
    | some _, some _ => removeFirst l bp
    | none, none => []
  { h with buckets := Function.update h.buckets ind l2 }

/-- Replace blocks `i .. i+k-1` by the blocks `nw` (in-place list surgery;
    the byte image is unchanged outside the rewritten headers). -/
def splice (bs : List Blk) (i k : Nat) (nw : List Blk) : List Blk :=
  bs.take i ++ nw ++ bs.drop (i + k)

/-- mm.c `coalesce`: merge the just-freed block at `bp` with its free
    neighbours.  Case split on the prev-alloc bit of bp's header and the
    alloc bit of the following block's header (the epilogue counts as
    allocated).  Returns the merged block's payload address.
    The fall-through `(h, bp)` arms are unreachable for the maintained heaps
    this is called on (C would read garbage there). -/
def coalesce (h : Heap) (bp : Nat) : Heap × Nat :=
  match idxOf h bp with
  | none => (h, bp)
  | some i =>
    match h.blocks[i]? with
    | none => (h, bp)
    | some b =>
      let prev_alloc := PREV_ALLOC b.hdr
      let size := GET_SIZE b.hdr
      let next_alloc :=
        match h.blocks[i + 1]? with
        | some nb => GET_ALLOC nb.hdr
        | none => GET_ALLOC h.epiHdr
      if prev_alloc ≠ 0 ∧ next_alloc ≠ 0 then
        (h, bp)
      else if prev_alloc ≠ 0 ∧ next_alloc = 0 then
        match h.blocks[i + 1]? with
        | none => (h, bp)
        | some nb =>
          let h1 := seglist_delete h bp size
          let h2 := seglist_delete h1 (bp + size) (GET_SIZE nb.hdr)
          let size2 := (size + GET_SIZE nb.hdr) % W
          let b2 : Blk :=
            { hdr := PACK size2 prev_alloc,
              data := fun j => if j < size then b.data j else nb.data (j - size) }
          (seglist_add { h2 with blocks := splice h2.blocks i 2 [b2] } bp size2, bp)
      else if prev_alloc = 0 ∧ next_alloc ≠ 0 then
        if i = 0 then (h, bp)
        else
          match h.blocks[i - 1]? with
          | none => (h, bp)
          | some pb =>
            let psize := GET_SIZE pb.hdr
            let pbp := csub bp psize
            let h1 := seglist_delete h bp size
            let h2 := seglist_delete h1 pbp psize
            let size2 := (size + psize) % W
            let b2 : Blk :=
              { hdr := PACK size2 (PREV_ALLOC pb.hdr),
                data := fun j => if j < psize then pb.data j else b.data (j - psize) }
            (seglist_add { h2 with blocks := splice h2.blocks (i - 1) 2 [b2] } pbp size2, pbp)
      else
        if i = 0 then (h, bp)
        else
          match h.blocks[i - 1]?, h.blocks[i + 1]? with
          | some pb, some nb =>
            let psize := GET_SIZE pb.hdr
            let nsize := GET_SIZE nb.hdr
            let pbp := csub bp psize
            let h1 := seglist_delete h bp size
            let h2 := seglist_delete h1 pbp psize
            let h3 := seglist_delete h2 (bp + size) nsize
            let size2 := (size + psize + nsize) % W
            let b2 : Blk :=
              { hdr := PACK size2 (PREV_ALLOC pb.hdr),
                data := fun j =>
                  if j < psize then pb.data j
                  else if j < psize + size then b.data (j - psize)
                  else nb.data (j - psize - size) }
            (seglist_add { h3 with blocks := splice h3.blocks (i - 1) 3 [b2] } pbp size2, pbp)
          | _, _ => (h, bp)

/-- Modelled from the spec: the heap provider `mem_sbrk` (memlib is not part
    of src/).  "grow(n): advance the managed region by n bytes; return the
    start of the new bytes.  Failure is a sentinel distinct from any valid
    address."  `ok` is the provider's success oracle; a growth whose end
    would not fit in the 64-bit address space fails. -/
def mem_sbrk (h : Heap) (n : Nat) (ok : Bool) : Option Nat :=
  if ok ∧ heapEnd h + n < W then some (heapEnd h) else none

/-- mm.c `extend_heap`: align the byte count, grow, write the new free
    block's header (prev-alloc preserved from the old epilogue) and footer,
    insert it, write a fresh epilogue header `PACK(0,1)`, coalesce. -/
def extend_heap (h : Heap) (words : Nat) (ok : Bool) : Option (Heap × Nat) :=
  let size := align (words % W)
  match mem_sbrk h size ok with
  | none => none
  | some bp =>
    let nb : Blk := { hdr := PACK size (PREV_ALLOC h.epiHdr), data := fun _ => 0 }
    let h1 := seglist_add { h with blocks := h.blocks ++ [nb] } bp size
    some (coalesce { h1 with epiHdr := PACK 0 1 } bp)

/-- mm.c `seglist_search` loop body: best-fit scan with early exit on an
    exact fit, carrying the current best block and its slack `diff`. -/
def seglist_search_go (h : Heap) (size : Nat) :
    List Nat → Option Nat → Nat → Option Nat
  | [], best, _ => best
  | curr :: rest, best, diff =>
    if size ≤ sizeAt h curr then
      if best = none ∨ diff > sizeAt h curr - size then
        if sizeAt h curr - size = 0 then some curr
        else seglist_search_go h size rest (some curr) (sizeAt h curr - size)
      else seglist_search_go h size rest best diff
    else seglist_search_go h size rest best diff

/-- mm.c `seglist_search`: best-fit search of one freelist. -/
def seglist_search (h : Heap) (list size : Nat) : Option Nat :=
  seglist_search_go h size (h.buckets list) none 0

def find_fit_go (h : Heap) (asize : Nat) : List Nat → Option Nat
  | [] => none
  | i :: rest =>
    match seglist_search h i asize with
    | some bp => some bp
    | none => find_fit_go h asize rest

/-- mm.c `find_fit`: scan the classes from `get_segclass_ind asize` up to 11,
    returning the first class's best fit. -/
def find_fit (h : Heap) (asize : Nat) : Option Nat :=
  find_fit_go h asize (List.range' (get_segclass_ind asize) (12 - get_segclass_ind asize))

/-- mm.c `place`: commit the free block at `bp` to an allocation of `asize`
    bytes, splitting when the remainder is at least `2*DSIZE`.  The no-split
    arm ORs the prev-alloc bit into the raw following header word
    (`PACK(GET(HDRP(NEXT_BLKP(bp))), 2)`), exactly as the source does. -/
def place (h : Heap) (bp asize : Nat) : Heap :=
  match idxOf h bp with
  | none => h
  | some i =>
    match h.blocks[i]? with
    | none => h
    | some b =>
      let csize := GET_SIZE b.hdr
      if 2 * 16 ≤ csub csize asize then
        let h1 := seglist_delete h bp csize
        let hd : Blk := { hdr := PACK asize (PACK (PREV_ALLOC b.hdr) 1), data := b.data }
        let tl : Blk := { hdr := PACK (csub csize asize) 2, data := fun j => b.data (asize + j) }
        seglist_add { h1 with blocks := splice h1.blocks i 1 [hd, tl] }
          (bp + asize) (csub csize asize)
      else
        let h1 := seglist_delete h bp csize
        let b2 : Blk := { b with hdr := PACK csize (PACK (PREV_ALLOC b.hdr) 1) }
        let h2 := { h1 with blocks := h1.blocks.set i b2 }
        match h2.blocks[i + 1]? with
        | some nb => { h2 with blocks := h2.blocks.set (i + 1) { nb with hdr := PACK nb.hdr 2 } }
        | none => { h2 with epiHdr := PACK h2.epiHdr 2 }

/-- mm.c `malloc`: null on size 0, else `asize := align(size + DSIZE)`,
    find-fit / place, extending the heap by exactly `asize` on a miss. -/
def mm_malloc (h : Heap) (size0 : Nat) (ok : Bool) : Heap × Option Nat :=
  let size := size0 % W
  if size = 0 then (h, none)
  else
    let asize := align ((size + 16) % W)
    match find_fit h asize with
    | some bp => (place h bp asize, some bp)
    | none =>
      match extend_heap h asize ok with
      | none => (h, none)
      | some z => (place z.1 z.2 asize, some z.2)

/-- mm.c `free`: clear the alloc bit (prev-alloc preserved), mirror into the
    footer, clear the following header's prev-alloc bit
    (`PACK(GET_SIZE(..), GET_ALLOC(..))` rebuilds it without bit 1),
    insert into the bucket, coalesce. -/
def mm_free (h : Heap) (ptr : Nat) : Heap :=
  if ptr = 0 then h
  else
    match idxOf h ptr with
    | none => h
    | some i =>
      match h.blocks[i]? with
      | none => h
      | some b =>
        let size := GET_SIZE b.hdr
        let b2 : Blk := { b with hdr := PACK size (PREV_ALLOC b.hdr) }
        let h1 := { h with blocks := h.blocks.set i b2 }
        let h2 :=
          match h1.blocks[i + 1]? with
          | some nb =>
            let nb2 : Blk := { nb with hdr := PACK (GET_SIZE nb.hdr) (GET_ALLOC nb.hdr) }
            { h1 with blocks := h1.blocks.set (i + 1) nb2 }
          | none =>
            { h1 with epiHdr := PACK (GET_SIZE h1.epiHdr) (GET_ALLOC h1.epiHdr) }
        (coalesce (seglist_add h2 ptr size) ptr).1

/-- Modelled from the spec: the byte-moving primitive (`mm_memcpy` /
    `memcpy`, not part of src/): copy `n` bytes from the payload at `src`
    to the payload at `dst`.  mm.c only calls it payload-to-payload between
    two distinct live blocks (realloc), which is what is modelled. -/
def mm_memcpy (h : Heap) (dst src n : Nat) : Heap :=
  match idxOf h dst, idxOf h src with
  | some di, some si =>
    match h.blocks[di]?, h.blocks[si]? with
    | some db, some sb =>
      let db2 : Blk := { db with data := fun j => if j < n then sb.data j else db.data j }
      { h with blocks := h.blocks.set di db2 }
    | _, _ => h
  | _, _ => h

/-- Modelled from the spec: the byte-filling primitive (`mm_memset` /
    `memset` with value 0, not part of src/): zero `n` payload bytes at `p`. -/
def mm_memset0 (h : Heap) (p n : Nat) : Heap :=
  match idxOf h p with
  | some i =>
    match h.blocks[i]? with
    | some b =>
      let b2 : Blk := { b with data := fun j => if j < n then 0 else b.data j }
      { h with blocks := h.blocks.set i b2 }
    | none => h
  | none => h

/-- mm.c `realloc`.  Note the source reads `GET_SIZE(HDRP(oldptr))` *before*
    testing `oldptr` for null (mm.c line 415); the outer `Option` is `none`
    when that read is invalid — in particular when `oldptr` is null. -/
def mm_realloc (h : Heap) (oldptr size0 : Nat) (ok : Bool) : Option (Heap × Option Nat) :=
  let size := size0 % W
  match hdrAt? h oldptr with
  | none => none
  | some w =>
    let size_old := GET_SIZE w
    if oldptr = 0 then some (mm_malloc h size ok)
    else if size = 0 then some (mm_free h oldptr, none)
    else
      let r := mm_malloc h (align size) ok
      match r.2 with
      | none => some (r.1, none)
      | some ptr =>
        let n := if size < size_old then size else size_old
        some (mm_free (mm_memcpy r.1 ptr oldptr n) oldptr, some ptr)

/-- mm.c `calloc`: `size *= nmemb` in `size_t` arithmetic (wraps mod `W`),
    malloc, and zero-fill that many bytes on success. -/
def mm_calloc (h : Heap) (nmemb size0 : Nat) (ok : Bool) : Heap × Option Nat :=
  let size := ((size0 % W) * (nmemb % W)) % W
  let r := mm_malloc h size ok
  match r.2 with
  | none => (r.1, none)
  | some p => (mm_memset0 r.1 p size, some p)

/-- mm.c `mm_checkheap` as compiled without `DEBUG` (the production build):
    the preprocessor removes the entire body, leaving `return true`.
    The heap state and the line hint are ignored. -/
def mm_checkheap (_Hp : Heap) (_lineno : Int) : Bool := true

def CHUNKSIZE : Nat := 4096

def WSIZE : Nat := 8

/-- The empty initial heap mm_init lays out before its extend call: no real
    blocks, all twelve roots null, epilogue header `PACK(0, PACK(2,1))`. -/
def initHeap : Heap :=
  { blocks := [], buckets := fun _ => [], epiHdr := PACK 0 (PACK 2 1) }

/-- mm.c `mm_init`: the 12 zeroed roots, pad, prologue and epilogue are the
    fixed region prefix encoded by `heapBase` and `initHeap`; then the heap
    is extended by `extend_heap(CHUNKSIZE/WSIZE)`.  `ok` is the provider
    oracle; any provider failure makes init return false (`none`). -/
def mm_init (ok : Bool) : Option Heap :=
  match extend_heap initHeap (CHUNKSIZE / WSIZE) ok with
  | none => none
  | some z => some z.1

/-- The heap a successful `mm_init` produces. -/
def h0 : Heap := (mm_init true).getD initHeap

/-- A tiny two-block heap (a 48-byte free block followed by a 16-byte
    allocated block) used as a concrete evaluation point. -/
def hSmall : Heap :=
  { blocks := [⟨50, fun _ => 0⟩, ⟨17, fun _ => 0⟩], buckets := fun _ => [], epiHdr := 1 }

/-- Canonical well-formed header word: a size of at least one minimum block
    (32 bytes), 16-byte aligned, packed with a prev-alloc flag bit and an
    alloc bit. -/
def WfHdr (w : Nat) : Prop :=
  ∃ s p a, 32 ≤ s ∧ s % 16 = 0 ∧ s < W ∧ (p = 0 ∨ p = 2) ∧ (a = 0 ∨ a = 1) ∧
    w = s ||| p ||| a

/-- Spec invariant 3: no two free blocks are adjacent in address order. -/
def NoAdjFree (h : Heap) : Prop :=
  ∀ i b c, h.blocks[i]? = some b → h.blocks[i + 1]? = some c →
    GET_ALLOC b.hdr = 0 → GET_ALLOC c.hdr = 1

/-- The heap well-formedness invariant maintained between public operations. -/
structure Wf (h : Heap) : Prop where
  hdrs : ∀ b ∈ h.blocks, WfHdr b.hdr
  extent : heapEnd h < W
  episz : GET_SIZE h.epiHdr = 0
  epial : GET_ALLOC h.epiHdr = 1
  prev0 : ∀ b, h.blocks[0]? = some b → PREV_ALLOC b.hdr = 2
  prevS : ∀ i b c, h.blocks[i]? = some b → h.blocks[i + 1]? = some c →
    PREV_ALLOC c.hdr = 2 * GET_ALLOC b.hdr
  prevE : ∀ i b, i + 1 = h.blocks.length → h.blocks[i]? = some b →
    PREV_ALLOC h.epiHdr = 2 * GET_ALLOC b.hdr
  prevE0 : h.blocks = [] → PREV_ALLOC h.epiHdr = 2
  bmem : ∀ j a, a ∈ h.buckets j → ∃ i b, idxOf h a = some i ∧ h.blocks[i]? = some b ∧
    GET_ALLOC b.hdr = 0 ∧ get_segclass_ind (GET_SIZE b.hdr) = j
  bfree : ∀ i b, h.blocks[i]? = some b → GET_ALLOC b.hdr = 0 →
    addrAt h i ∈ h.buckets (get_segclass_ind (GET_SIZE b.hdr))
  bnodup : ∀ j, (h.buckets j).Nodup
  noadj : NoAdjFree h

/-- All of `Wf` except that the adjacency invariant may fail at the pairs
    touching block `i` — the state `free` and `extend_heap` hand to
    `coalesce`. -/
structure WfX (h : Heap) (i : Nat) : Prop where
  hdrs : ∀ b ∈ h.blocks, WfHdr b.hdr
  extent : heapEnd h < W
  episz : GET_SIZE h.epiHdr = 0
  epial : GET_ALLOC h.epiHdr = 1
  prev0 : ∀ b, h.blocks[0]? = some b → PREV_ALLOC b.hdr = 2
  prevS : ∀ j b c, h.blocks[j]? = some b → h.blocks[j + 1]? = some c →
    PREV_ALLOC c.hdr = 2 * GET_ALLOC b.hdr
  prevE : ∀ j b, j + 1 = h.blocks.length → h.blocks[j]? = some b →
    PREV_ALLOC h.epiHdr = 2 * GET_ALLOC b.hdr
  prevE0 : h.blocks = [] → PREV_ALLOC h.epiHdr = 2
  bmem : ∀ j a, a ∈ h.buckets j → ∃ k b, idxOf h a = some k ∧ h.blocks[k]? = some b ∧
    GET_ALLOC b.hdr = 0 ∧ get_segclass_ind (GET_SIZE b.hdr) = j
  bfree : ∀ k b, h.blocks[k]? = some b → GET_ALLOC b.hdr = 0 →
    addrAt h k ∈ h.buckets (get_segclass_ind (GET_SIZE b.hdr))
  bnodup : ∀ j, (h.buckets j).Nodup
  noadjx : ∀ j b c, h.blocks[j]? = some b → h.blocks[j + 1]? = some c →
    GET_ALLOC b.hdr = 0 → GET_ALLOC c.hdr = 1 ∨ j = i ∨ j + 1 = i

/-- Legal argument to `free` (spec §6): null, or the payload address of a
    currently allocated block. -/
def ValidFreeArg (h : Heap) (p : Nat) : Prop :=
  p = 0 ∨ ∃ i b, idxOf h p = some i ∧ h.blocks[i]? = some b ∧ GET_ALLOC b.hdr = 1

/-- Heap states reachable by legal use of the public surface, starting from a
    successful init.  Request sizes are bounded by 2^63 (the model is exact
    below the 64-bit wrap of the size arithmetic). -/
inductive Reachable : Heap → Prop
  | init (ok : Bool) (h : Heap) : mm_init ok = some h → Reachable h
  | malloc (h : Heap) (size : Nat) (ok : Bool) : Reachable h → size ≤ 2 ^ 63 →
      Reachable (mm_malloc h size ok).1
  | free (h : Heap) (p : Nat) : Reachable h → ValidFreeArg h p → Reachable (mm_free h p)
  | realloc (h : Heap) (old size : Nat) (ok : Bool) (z : Heap × Option Nat) :
      Reachable h → ValidFreeArg h old → size ≤ 2 ^ 63 →
      mm_realloc h old size ok = some z → Reachable z.1
  | calloc (h : Heap) (nmemb size : Nat) (ok : Bool) : Reachable h →
      ((size % W) * (nmemb % W)) % W ≤ 2 ^ 63 → Reachable (mm_calloc h nmemb size ok).1

/-- Spec-side definition (for the refinement claim C4, following the spec's
    words): bucket `i` contains a block of size at least `asize`. -/
def BucketHasFit (h : Heap) (i asize : Nat) : Prop :=
  ∃ a ∈ h.buckets i, asize ≤ sizeAt h a

/-- Spec-side definition (for the refinement claim C4, following the spec's
    words): what `find_fit(asize) = bp` must mean — `bp` is a fit of minimal
    slack taken from the lowest-indexed bucket `i ≥ class(asize)` containing
    any fit, with no bucket below `i` (from the start class on) containing one. -/
def SpecFindFit (h : Heap) (asize bp : Nat) : Prop :=
  ∃ i, get_segclass_ind asize ≤ i ∧ i < 12 ∧
    bp ∈ h.buckets i ∧ asize ≤ sizeAt h bp ∧
    (∀ a ∈ h.buckets i, asize ≤ sizeAt h a → sizeAt h bp - asize ≤ sizeAt h a - asize) ∧
    (∀ j, get_segclass_ind asize ≤ j → j < i → ¬ BucketHasFit h j asize)

/-- Frame relation between two heap states: every allocated block of the
    first survives in the second at the same payload address, with the same
    size, still allocated, and with its payload bytes unchanged (only its
    prev-alloc header bit may differ). -/
def AllocPreserved (h h2 : Heap) : Prop :=
  ∀ m c, h.blocks[m]? = some c → GET_ALLOC c.hdr = 1 →
    ∃ m2 c2, idxOf h2 (addrAt h m) = some m2 ∧ h2.blocks[m2]? = some c2 ∧
      GET_SIZE c2.hdr = GET_SIZE c.hdr ∧ GET_ALLOC c2.hdr = 1 ∧ c2.data = c.data

/-!
## Bit-codec lemmas

mm.c packs `size | prev_alloc | alloc` into one word and decodes with masks;
these lemmas relate the raw operations.
-/

theorem and_two_cases (w : Nat) : w &&& 2 = 0 ∨ w &&& 2 = 2 := by
  have h2 : (2 : Nat) = 2 ^ 1 := rfl
  rw [h2, Nat.and_two_pow]
  cases w.testBit 1 <;> simp

theorem GET_SIZE_lor_two (w : Nat) : GET_SIZE (w ||| 2) = GET_SIZE w := by
  unfold GET_SIZE
  rw [Nat.and_distrib_right]
  norm_num [show (2 : Nat) &&& (W - 8) = 0 by decide]

theorem GET_ALLOC_lor_two (w : Nat) : GET_ALLOC (w ||| 2) = GET_ALLOC w := by
  unfold GET_ALLOC
  rw [Nat.and_distrib_right]
  norm_num [show (2 : Nat) &&& 1 = 0 by decide]

theorem PREV_ALLOC_lor_two (w : Nat) : PREV_ALLOC (w ||| 2) = 2 := by
  unfold PREV_ALLOC
  rw [Nat.and_distrib_right]
  rcases and_two_cases w with h | h <;> rw [h] <;> decide

/-!
## Frame facts about the seg-list operations
-/

theorem seglist_add_blocks (h : Heap) (bp s : Nat) : (seglist_add h bp s).blocks = h.blocks := rfl

theorem seglist_add_epi (h : Heap) (bp s : Nat) : (seglist_add h bp s).epiHdr = h.epiHdr := rfl

theorem seglist_delete_blocks (h : Heap) (bp s : Nat) :
    (seglist_delete h bp s).blocks = h.blocks := rfl

theorem seglist_delete_epi (h : Heap) (bp s : Nat) :
    (seglist_delete h bp s).epiHdr = h.epiHdr := rfl

/-!
## Claims
-/

/-- C10: compiled without DEBUG, `mm_checkheap` returns true for every heap
    state and every line hint — including states violating the invariants. -/
theorem C10_checkheap_always_true : ∀ (h : Heap) (lineno : Int), mm_checkheap h lineno = true :=
  fun _ _ => rfl

/-- C1 counterexample: a successful `init` yields exactly one free block, but
    its size is 512 bytes, not 4096 — `extend_heap` is called with
    `CHUNKSIZE/WSIZE = 512` and treats it as a byte count. -/
theorem C1_counterexample :
    (mm_init true).map (fun h => h.blocks.map fun b => (GET_SIZE b.hdr, GET_ALLOC b.hdr)) =
      some [(512, 0)] ∧ (512 : Nat) ≠ 4096 := by
  exact ⟨by decide, by decide⟩

/-- C1 (amended): after a successful `init()`, the managed region contains
    exactly one free block and its size is 512 bytes
    (= `align(CHUNKSIZE/WSIZE)`, the byte count `extend` receives at init). -/
theorem C1_one_free_block_512 (ok : Bool) (h : Heap) (hh : mm_init ok = some h) :
    h.blocks.map (fun b => (GET_SIZE b.hdr, GET_ALLOC b.hdr)) = [(512, 0)] := by
  cases ok with
  | false =>
    rw [show mm_init false = none from rfl] at hh
    cases hh
  | true =>
    have hmap := congrArg
      (Option.map fun hp => hp.blocks.map fun b => (GET_SIZE b.hdr, GET_ALLOC b.hdr)) hh
    rw [show ((mm_init true).map fun hp =>
        hp.blocks.map fun b => (GET_SIZE b.hdr, GET_ALLOC b.hdr)) = some [(512, 0)]
      from by decide] at hmap
    simpa using hmap.symm

/-- Witness for C1: the concrete successful init. -/
theorem C1_one_free_block_512_witness :
    mm_init true = some h0 ∧
      h0.blocks.map (fun b => (GET_SIZE b.hdr, GET_ALLOC b.hdr)) = [(512, 0)] := by
  have hh : mm_init true = some h0 := rfl
  exact ⟨hh, C1_one_free_block_512 true h0 hh⟩

/-- C2: the code reads the header word at `oldptr - 8` *before* the null
    test, so `resize(null, n)` performs an invalid memory access (modelled as
    `none`), while `allocate(n)` on the same heap succeeds: the two are not
    equivalent on the code as written, though the spec requires them to be. -/
theorem C2_realloc_null_reads_header :
    mm_realloc h0 0 24 true = none ∧ (mm_malloc h0 24 true).2 = some 128 := by
  exact ⟨rfl, by decide⟩

/-- C6: deleting the sole element of its bucket sets that bucket's root to
    null and leaves everything else (all other roots, all blocks, the
    epilogue) unchanged. -/
theorem C6_delete_singleton (h : Heap) (bp size : Nat)
    (hb : h.buckets (get_segclass_ind size) = [bp]) :
    seglist_delete h bp size =
      { h with buckets := Function.update h.buckets (get_segclass_ind size) [] } := by
  unfold seglist_delete
  simp only [hb, linkNext, linkPrev]
  simp

/-- Witness for C6: on the freshly initialized heap the single free block is
    the sole element of bucket 4. -/
theorem C6_delete_singleton_witness :
    h0.buckets (get_segclass_ind 512) = [128] ∧
      seglist_delete h0 128 512 =
        { h0 with buckets := Function.update h0.buckets (get_segclass_ind 512) [] } := by
  have hb : h0.buckets (get_segclass_ind 512) = [128] := by decide
  exact ⟨hb, C6_delete_singleton h0 128 512 hb⟩

/-- C7: when `place` commits without splitting, the following block's header
    word ends with prev-alloc bit 1 while its size field and alloc bit are
    unchanged (the raw OR of 2 into the word leaves bits 0 and 3.. alone). -/
theorem C7_place_nosplit_next_header (h : Heap) (bp asize i : Nat) (b nb : Blk)
    (hidx : idxOf h bp = some i) (hb : h.blocks[i]? = some b)
    (hnb : h.blocks[i + 1]? = some nb)
    (hns : csub (GET_SIZE b.hdr) asize < 2 * 16) :
    ∃ nb2, (place h bp asize).blocks[i + 1]? = some nb2 ∧
      GET_SIZE nb2.hdr = GET_SIZE nb.hdr ∧ GET_ALLOC nb2.hdr = GET_ALLOC nb.hdr ∧
      PREV_ALLOC nb2.hdr = 2 := by
  have hlen : i + 1 < h.blocks.length := by
    rcases List.getElem?_eq_some_iff.mp hnb with ⟨hlt, _⟩
    exact hlt
  unfold place
  rw [hidx]
  simp only [hb]
  rw [if_neg (by omega)]
  have hset : ((seglist_delete h bp (GET_SIZE b.hdr)).blocks.set i
      { b with hdr := PACK (GET_SIZE b.hdr) (PACK (PREV_ALLOC b.hdr) 1) })[i + 1]? = some nb := by
    rw [seglist_delete_blocks, List.getElem?_set_ne (by omega), hnb]
  simp only [hset]
  refine ⟨{ nb with hdr := PACK nb.hdr 2 }, ?_, ?_, ?_, ?_⟩
  · rw [List.getElem?_set_self]
    rw [List.length_set, seglist_delete_blocks]
    exact hlen
  · exact GET_SIZE_lor_two nb.hdr
  · exact GET_ALLOC_lor_two nb.hdr
  · exact PREV_ALLOC_lor_two nb.hdr

/-!
## The best-fit search (C4)
-/

theorem get_segclass_ind_le (s : Nat) : get_segclass_ind s ≤ 11 := by
  unfold get_segclass_ind
  split_ifs <;> omega

theorem seglist_search_go_none_iff (h : Heap) (s : Nat) (l : List Nat) :
    ∀ (best : Option Nat) (diff : Nat),
      seglist_search_go h s l best diff = none ↔
        (best = none ∧ ∀ a ∈ l, sizeAt h a < s) := by
  induction l with
  | nil =>
    intro best diff
    simp [seglist_search_go]
  | cons curr rest ih =>
    intro best diff
    simp only [seglist_search_go]
    by_cases h1 : s ≤ sizeAt h curr
    · rw [if_pos h1]
      by_cases h2 : best = none ∨ diff > sizeAt h curr - s
      · rw [if_pos h2]
        by_cases h3 : sizeAt h curr - s = 0
        · rw [if_pos h3]
          constructor
          · intro hc; exact absurd hc (by simp)
          · rintro ⟨-, hall⟩
            have := hall curr (List.mem_cons_self curr rest)
            omega
        · rw [if_neg h3, ih]
          constructor
          · rintro ⟨hc, -⟩; exact absurd hc (by simp)
          · rintro ⟨-, hall⟩
            have := hall curr (List.mem_cons_self curr rest)
            omega
      · rw [if_neg h2, ih]
        push_neg at h2
        constructor
        · rintro ⟨hb, -⟩; exact absurd hb h2.1
        · rintro ⟨hb, -⟩; exact absurd hb h2.1
    · rw [if_neg h1, ih]
      constructor
      · rintro ⟨hb, hall⟩
        refine ⟨hb, ?_⟩
        intro a ha
        rcases List.mem_cons.mp ha with rfl | ha2
        · omega
        · exact hall a ha2
      · rintro ⟨hb, hall⟩
        exact ⟨hb, fun a ha => hall a (List.mem_cons_of_mem _ ha)⟩

theorem seglist_search_go_some (h : Heap) (s : Nat) (l : List Nat) :
    ∀ (best : Option Nat) (diff : Nat) (bp : Nat),
      (∀ b, best = some b → s ≤ sizeAt h b ∧ diff = sizeAt h b - s ∧ 0 < diff) →
      seglist_search_go h s l best diff = some bp →
      s ≤ sizeAt h bp ∧ (best = some bp ∨ bp ∈ l) ∧
        (∀ b, best = some b → sizeAt h bp - s ≤ sizeAt h b - s) ∧
        (∀ a ∈ l, s ≤ sizeAt h a → sizeAt h bp - s ≤ sizeAt h a - s) := by
  induction l with
  | nil =>
    intro best diff bp hacc hgo
    simp only [seglist_search_go] at hgo
    rcases hacc bp hgo with ⟨hf, -, -⟩
    refine ⟨hf, Or.inl hgo, ?_, ?_⟩
    · intro b hb
      rw [hgo] at hb
      cases hb
      omega
    · intro a ha
      exact absurd ha (List.not_mem_nil a)
  | cons curr rest ih =>
    intro best diff bp hacc hgo
    simp only [seglist_search_go] at hgo
    by_cases h1 : s ≤ sizeAt h curr
    · rw [if_pos h1] at hgo
      by_cases h2 : best = none ∨ diff > sizeAt h curr - s
      · rw [if_pos h2] at hgo
        by_cases h3 : sizeAt h curr - s = 0
        · rw [if_pos h3] at hgo
          cases hgo
          refine ⟨h1, Or.inr (List.mem_cons_self curr rest), ?_, ?_⟩
          · intro b hb; omega
          · intro a ha hfa; omega
        · rw [if_neg h3] at hgo
          have hacc2 : ∀ b, (some curr : Option Nat) = some b →
              s ≤ sizeAt h b ∧ sizeAt h curr - s = sizeAt h b - s ∧ 0 < sizeAt h curr - s := by
            rintro b hb
            cases hb
            exact ⟨h1, rfl, by omega⟩
          rcases ih (some curr) (sizeAt h curr - s) bp hacc2 hgo with ⟨hf, hmem, hminb, hminl⟩
          have hslack : sizeAt h bp - s ≤ sizeAt h curr - s := hminb curr rfl
          refine ⟨hf, ?_, ?_, ?_⟩
          · rcases hmem with hh | hh
            · cases hh
              exact Or.inr (List.mem_cons_self curr rest)
            · exact Or.inr (List.mem_cons_of_mem _ hh)
          · intro b hb
            rcases h2 with h2 | h2
            · rw [hb] at h2; cases h2
            · rcases hacc b hb with ⟨-, hdiff, -⟩
              omega
          · intro a ha hfa
            rcases List.mem_cons.mp ha with rfl | ha2
            · exact hslack
            · exact hminl a ha2 hfa
      · rw [if_neg h2] at hgo
        push_neg at h2
        rcases ih best diff bp hacc hgo with ⟨hf, hmem, hminb, hminl⟩
        refine ⟨hf, ?_, hminb, ?_⟩
        · rcases hmem with hh | hh
          · exact Or.inl hh
          · exact Or.inr (List.mem_cons_of_mem _ hh)
        · intro a ha hfa
          rcases List.mem_cons.mp ha with rfl | ha2
          · obtain ⟨b0, hb0⟩ : ∃ b0, best = some b0 := by
              cases best with
              | none => exact absurd rfl h2.1
              | some b0 => exact ⟨b0, rfl⟩
            have h4 := hminb b0 hb0
            rcases hacc b0 hb0 with ⟨-, hdiff, -⟩
            have h5 := h2.2
            omega
          · exact hminl a ha2 hfa
    · rw [if_neg h1] at hgo
      rcases ih best diff bp hacc hgo with ⟨hf, hmem, hminb, hminl⟩
      refine ⟨hf, ?_, hminb, ?_⟩
      · rcases hmem with hh | hh
        · exact Or.inl hh
        · exact Or.inr (List.mem_cons_of_mem _ hh)
      · intro a ha hfa
        rcases List.mem_cons.mp ha with rfl | ha2
        · omega
        · exact hminl a ha2 hfa

theorem seglist_search_none_iff (h : Heap) (i s : Nat) :
    seglist_search h i s = none ↔ ∀ a ∈ h.buckets i, sizeAt h a < s := by
  unfold seglist_search
  rw [seglist_search_go_none_iff]
  simp

theorem seglist_search_some (h : Heap) (i s bp : Nat)
    (hgo : seglist_search h i s = some bp) :
    bp ∈ h.buckets i ∧ s ≤ sizeAt h bp ∧
      ∀ a ∈ h.buckets i, s ≤ sizeAt h a → sizeAt h bp - s ≤ sizeAt h a - s := by
  have hk := seglist_search_go_some h s (h.buckets i) none 0 bp (by rintro b hb; cases hb) hgo
  rcases hk with ⟨hf, hmem, -, hminl⟩
  rcases hmem with hh | hh
  · cases hh
  · exact ⟨hh, hf, hminl⟩

theorem find_fit_go_none_iff (h : Heap) (asize : Nat) :
    ∀ (n c : Nat), find_fit_go h asize (List.range' c n) = none ↔
      ∀ i, c ≤ i → i < c + n → seglist_search h i asize = none := by
  intro n
  induction n with
  | zero =>
    intro c
    constructor
    · intro _ i h1 h2; omega
    · intro _; rfl
  | succ n ih =>
    intro c
    rw [List.range'_succ]
    simp only [find_fit_go]
    cases hs : seglist_search h c asize with
    | some bq =>
      simp only [hs]
      constructor
      · intro hc; cases hc
      · intro hall
        rw [hall c (Nat.le_refl c) (by omega)] at hs
        cases hs
    | none =>
      simp only [hs]
      rw [ih (c + 1)]
      constructor
      · intro hall i h1 h2
        rcases Nat.eq_or_lt_of_le h1 with rfl | hlt
        · exact hs
        · exact hall i hlt (by omega)
      · intro hall i h1 h2
        exact hall i (by omega) (by omega)

theorem find_fit_go_some (h : Heap) (asize : Nat) :
    ∀ (n c bp : Nat), find_fit_go h asize (List.range' c n) = some bp →
      ∃ i, c ≤ i ∧ i < c + n ∧ seglist_search h i asize = some bp ∧
        ∀ j, c ≤ j → j < i → seglist_search h j asize = none := by
  intro n
  induction n with
  | zero =>
    intro c bp hc
    cases hc
  | succ n ih =>
    intro c bp hgo
    rw [List.range'_succ] at hgo
    simp only [find_fit_go] at hgo
    cases hs : seglist_search h c asize with
    | some bq =>
      rw [hs] at hgo
      simp only at hgo
      cases hgo
      refine ⟨c, Nat.le_refl c, by omega, hs, ?_⟩
      intro j h1 h2
      omega
    | none =>
      rw [hs] at hgo
      simp only at hgo
      rcases ih (c + 1) bp hgo with ⟨i, h1, h2, h3, h4⟩
      refine ⟨i, by omega, by omega, h3, ?_⟩
      intro j hj1 hj2
      rcases Nat.eq_or_lt_of_le hj1 with rfl | hlt
      · exact hs
      · exact h4 j hlt hj2

/-- C4: `find_fit` returns null exactly when no bucket from `class(asize)` up
    contains a fit; otherwise it returns a minimal-slack fit from the
    lowest-indexed bucket that contains any fit (buckets below it are
    fit-free, so larger buckets were never consulted once one yielded). -/
theorem C4_find_fit_best_fit (h : Heap) (asize : Nat) :
    (find_fit h asize = none ↔
      ∀ i, get_segclass_ind asize ≤ i → i < 12 → ¬ BucketHasFit h i asize) ∧
    (∀ bp, find_fit h asize = some bp → SpecFindFit h asize bp) := by
  have hc : get_segclass_ind asize ≤ 11 := get_segclass_ind_le asize
  constructor
  · unfold find_fit
    rw [find_fit_go_none_iff]
    constructor
    · intro hall i h1 h2
      rintro ⟨a, ha, hfa⟩
      have hn := hall i h1 (by omega)
      rw [seglist_search_none_iff] at hn
      have := hn a ha
      omega
    · intro hall i h1 h2
      rw [seglist_search_none_iff]
      intro a ha
      by_contra hcon
      exact hall i h1 (by omega) ⟨a, ha, by omega⟩
  · intro bp hgo
    unfold find_fit at hgo
    rcases find_fit_go_some h asize _ _ bp hgo with ⟨i, h1, h2, h3, h4⟩
    rcases seglist_search_some h i asize bp h3 with ⟨hmem, hf, hmin⟩
    refine ⟨i, h1, by omega, hmem, hf, hmin, ?_⟩
    intro j hj1 hj2
    rintro ⟨a, ha, hfa⟩
    have hn := h4 j hj1 hj2
    rw [seglist_search_none_iff] at hn
    have := hn a ha
    omega

/-- Witness for C4: on the freshly initialized heap, `find_fit 48` finds the
    512-byte block at 128. -/
theorem C4_find_fit_best_fit_witness : SpecFindFit h0 48 128 :=
  (C4_find_fit_best_fit h0 48).2 128 (by decide)

/-- Witness for C7 on the concrete two-block heap. -/
theorem C7_place_nosplit_next_header_witness :
    idxOf hSmall 128 = some 0 ∧ hSmall.blocks[0]? = some ⟨50, fun _ => 0⟩ ∧
      hSmall.blocks[0 + 1]? = some ⟨17, fun _ => 0⟩ ∧
      csub (GET_SIZE (Blk.hdr ⟨50, fun _ => 0⟩)) 48 < 2 * 16 ∧
      ∃ nb2, (place hSmall 128 48).blocks[0 + 1]? = some nb2 ∧
        GET_SIZE nb2.hdr = GET_SIZE (Blk.hdr ⟨17, fun _ => 0⟩) ∧
        GET_ALLOC nb2.hdr = GET_ALLOC (Blk.hdr ⟨17, fun _ => 0⟩) ∧
        PREV_ALLOC nb2.hdr = 2 := by
  have h1 : idxOf hSmall 128 = some 0 := rfl
  have h2 : hSmall.blocks[0]? = some ⟨50, fun _ => 0⟩ := rfl
  have h3 : hSmall.blocks[0 + 1]? = some ⟨17, fun _ => 0⟩ := rfl
  have h4 : csub (GET_SIZE (Blk.hdr ⟨50, fun _ => 0⟩)) 48 < 2 * 16 := by decide
  exact ⟨h1, h2, h3, h4, C7_place_nosplit_next_header hSmall 128 48 0 _ _ h1 h2 h3 h4⟩

/-!
## Word-arithmetic facts
-/

theorem W_pos : 0 < W := by decide

theorem csub_eq_sub {a b : Nat} (hb : b ≤ a) (ha : a < W) : csub a b = a - b := by
  unfold csub
  rw [show a + W - b = W + (a - b) by omega, Nat.add_mod_left]
  exact Nat.mod_eq_of_lt (by omega)

theorem align_spec {x : Nat} (hx : x + 15 < W) : align x = 16 * ((x + 15) / 16) := by
  unfold align
  rw [show x + 16 - 1 = x + 15 by omega, Nat.mod_eq_of_lt hx]

theorem align_mod16 (x : Nat) : align x % 16 = 0 := by
  unfold align
  omega

theorem align_le_self {x : Nat} (hx : x + 15 < W) : x ≤ align x := by
  rw [align_spec hx]
  omega

theorem align_eq_self {x : Nat} (h16 : x % 16 = 0) (hx : x < W) : align x = x := by
  have hx15 : x + 15 < W := by
    have : W % 16 = 0 := by decide
    omega
  rw [align_spec hx15]
  omega

theorem align_lt_W {x : Nat} : align x < W := by
  unfold align
  have h1 : (x + 16 - 1) % W < W := Nat.mod_lt _ W_pos
  have : W % 16 = 0 := by decide
  omega

/-!
## Bit-codec kit: decoding canonically packed headers
-/

theorem mask_eq_shift : W - 8 = (2 ^ 61 - 1) <<< 3 := by decide

theorem testBit_mask_iff (i : Nat) : (W - 8).testBit i = true ↔ 3 ≤ i ∧ i < 64 := by
  rw [mask_eq_shift, Nat.testBit_shiftLeft, Nat.testBit_two_pow_sub_one]
  simp only [Bool.and_eq_true, decide_eq_true_eq, ge_iff_le]
  omega

theorem testBit_low_of_mod8 (s : Nat) (hs : s % 8 = 0) (i : Nat) (hi : i < 3) :
    s.testBit i = false := by
  rw [Nat.testBit_to_div_mod, decide_eq_false_iff_not]
  interval_cases i <;> omega

theorem size_and_mask {s : Nat} (hs : s % 8 = 0) (hsW : s < W) : s &&& (W - 8) = s := by
  apply Nat.eq_of_testBit_eq
  intro i
  rw [Nat.testBit_and]
  by_cases h3 : i < 3
  · rw [testBit_low_of_mod8 s hs i h3]
    simp
  · by_cases h64 : i < 64
    · rw [(testBit_mask_iff i).mpr ⟨by omega, h64⟩]
      simp
    · have hsb : s.testBit i = false := by
        apply Nat.testBit_lt_two_pow
        calc s < W := hsW
          _ = 2 ^ 64 := rfl
          _ ≤ 2 ^ i := Nat.pow_le_pow_right (by norm_num) (by omega)
      rw [hsb]
      simp

theorem small_and_mask {c : Nat} (hc : c < 8) : c &&& (W - 8) = 0 := by
  apply Nat.eq_of_testBit_eq
  intro i
  rw [Nat.testBit_and]
  cases hb : (W - 8).testBit i with
  | false => simp
  | true =>
    have h34 := (testBit_mask_iff i).mp hb
    have hcb : c.testBit i = false := by
      apply Nat.testBit_lt_two_pow
      calc c < 8 := hc
        _ = 2 ^ 3 := rfl
        _ ≤ 2 ^ i := Nat.pow_le_pow_right (by norm_num) (by omega)
    rw [hcb]
    simp

theorem GET_SIZE_pack {s c : Nat} (hs : s % 8 = 0) (hsW : s < W) (hc : c < 8) :
    GET_SIZE (s ||| c) = s := by
  unfold GET_SIZE
  rw [Nat.and_distrib_right, size_and_mask hs hsW, small_and_mask hc, Nat.or_zero]

theorem GET_ALLOC_pack {s c : Nat} (hs : s % 8 = 0) :
    GET_ALLOC (s ||| c) = c &&& 1 := by
  unfold GET_ALLOC
  rw [Nat.and_distrib_right]
  have h1 : s &&& 1 = 0 := by
    rw [Nat.and_one_is_mod]
    omega
  rw [h1, Nat.zero_or]

theorem PREV_ALLOC_pack {s c : Nat} (hs : s % 8 = 0) :
    PREV_ALLOC (s ||| c) = c &&& 2 := by
  unfold PREV_ALLOC
  rw [Nat.and_distrib_right]
  have h2 : s &&& 2 = 0 := by
    rw [show (2 : Nat) = 2 ^ 1 from rfl, Nat.and_two_pow,
      testBit_low_of_mod8 s hs 1 (by omega)]
    rfl
  rw [h2, Nat.zero_or]

theorem lor_lt_W {s c : Nat} (hsW : s < W) (hc : c < 8) : s ||| c < W :=
  Nat.or_lt_two_pow hsW (lt_trans hc (by decide))

theorem wfHdr_fields {w : Nat} (hw : WfHdr w) :
    32 ≤ GET_SIZE w ∧ GET_SIZE w % 16 = 0 ∧ GET_SIZE w < W ∧
      (PREV_ALLOC w = 0 ∨ PREV_ALLOC w = 2) ∧ (GET_ALLOC w = 0 ∨ GET_ALLOC w = 1) ∧
      w = GET_SIZE w ||| PREV_ALLOC w ||| GET_ALLOC w ∧ w < W := by
  obtain ⟨s, p, a, h1, h2, h3, h4, h5, rfl⟩ := hw
  have hs8 : s % 8 = 0 := by omega
  have hpa : p ||| a < 8 := by
    rcases h4 with rfl | rfl <;> rcases h5 with rfl | rfl <;> decide
  have hS : GET_SIZE (s ||| p ||| a) = s := by
    rw [Nat.lor_assoc]
    exact GET_SIZE_pack hs8 h3 hpa
  have hA : GET_ALLOC (s ||| p ||| a) = a := by
    rw [Nat.lor_assoc, GET_ALLOC_pack hs8]
    rcases h4 with rfl | rfl <;> rcases h5 with rfl | rfl <;> decide
  have hP : PREV_ALLOC (s ||| p ||| a) = p := by
    rw [Nat.lor_assoc, PREV_ALLOC_pack hs8]
    rcases h4 with rfl | rfl <;> rcases h5 with rfl | rfl <;> decide
  rw [hS, hA, hP]
  refine ⟨h1, h2, h3, h4, h5, rfl, ?_⟩
  rw [Nat.lor_assoc]
  exact lor_lt_W h3 hpa

theorem pack_fields {s p a : Nat} (h2 : s % 16 = 0) (h3 : s < W)
    (h4 : p = 0 ∨ p = 2) (h5 : a = 0 ∨ a = 1) :
    GET_SIZE (s ||| p ||| a) = s ∧ PREV_ALLOC (s ||| p ||| a) = p ∧
      GET_ALLOC (s ||| p ||| a) = a := by
  have hs8 : s % 8 = 0 := by omega
  have hpa : p ||| a < 8 := by
    rcases h4 with rfl | rfl <;> rcases h5 with rfl | rfl <;> decide
  refine ⟨?_, ?_, ?_⟩
  · rw [Nat.lor_assoc]
    exact GET_SIZE_pack hs8 h3 hpa
  · rw [Nat.lor_assoc, PREV_ALLOC_pack hs8]
    rcases h4 with rfl | rfl <;> rcases h5 with rfl | rfl <;> decide
  · rw [Nat.lor_assoc, GET_ALLOC_pack hs8]
    rcases h4 with rfl | rfl <;> rcases h5 with rfl | rfl <;> decide

theorem lor_zero_mid (s a : Nat) : s ||| 0 ||| a = s ||| a := by
  rw [Nat.or_zero]

theorem lor_two_reorder {s p a : Nat} (h4 : p = 0 ∨ p = 2) :
    (s ||| p ||| a) ||| 2 = s ||| 2 ||| a := by
  apply Nat.eq_of_testBit_eq
  intro i
  simp only [Nat.testBit_or]
  rcases h4 with rfl | rfl <;>
    cases s.testBit i <;> cases a.testBit i <;> cases hb : (2 : Nat).testBit i <;>
    simp [Nat.zero_testBit]

/-!
## Sizes, addresses, splices
-/

theorem sumSizes_nil : sumSizes [] = 0 := rfl

theorem sumSizes_cons (b : Blk) (bs : List Blk) :
    sumSizes (b :: bs) = blkSize b + sumSizes bs := by
  simp [sumSizes]

theorem sumSizes_append (xs ys : List Blk) :
    sumSizes (xs ++ ys) = sumSizes xs + sumSizes ys := by
  simp [sumSizes]

theorem sumSizes_mod16 {bs : List Blk} (h : ∀ b ∈ bs, blkSize b % 16 = 0) :
    sumSizes bs % 16 = 0 := by
  induction bs with
  | nil => rfl
  | cons b rest ih =>
    rw [sumSizes_cons]
    have h1 := h b (List.mem_cons_self b rest)
    have h2 := ih fun c hc => h c (List.mem_cons_of_mem _ hc)
    omega

theorem sumSizes_pos {bs : List Blk} (h : ∀ b ∈ bs, 0 < blkSize b) (hne : bs ≠ []) :
    0 < sumSizes bs := by
  cases bs with
  | nil => exact absurd rfl hne
  | cons b rest =>
    rw [sumSizes_cons]
    have := h b (List.mem_cons_self b rest)
    omega

theorem addrAt_mono (h : Heap) (hpos : ∀ b ∈ h.blocks, 0 < blkSize b) {i j : Nat}
    (hij : i < j) (hj : j ≤ h.blocks.length) : addrAt h i < addrAt h j := by
  unfold addrAt
  have htj : h.blocks.take j = h.blocks.take i ++ (h.blocks.drop i).take (j - i) := by
    rw [← List.take_add]
    congr 1
    omega
  rw [htj, sumSizes_append]
  have hne : (h.blocks.drop i).take (j - i) ≠ [] := by
    apply List.ne_nil_of_length_pos
    rw [List.length_take, List.length_drop]
    omega
  have hmem : ∀ b ∈ (h.blocks.drop i).take (j - i), 0 < blkSize b := by
    intro b hb
    exact hpos b (List.drop_subset _ _ (List.take_subset _ _ hb))
  have := sumSizes_pos hmem hne
  omega

theorem idxOfAux_sound {a : Nat} :
    ∀ (bs : List Blk) (base i : Nat), idxOfAux a bs base = some i →
      i < bs.length ∧ base + sumSizes (bs.take i) = a := by
  intro bs
  induction bs with
  | nil => intro base i hx; cases hx
  | cons b rest ih =>
    intro base i hx
    simp only [idxOfAux] at hx
    by_cases hb : base = a
    · rw [if_pos hb] at hx
      cases hx
      exact ⟨by simp, by simp [hb, sumSizes_nil]⟩
    · rw [if_neg hb] at hx
      cases haux : idxOfAux a rest (base + blkSize b) with
      | none => rw [haux] at hx; cases hx
      | some i0 =>
        rw [haux] at hx
        cases hx
        rcases ih (base + blkSize b) i0 haux with ⟨h1, h2⟩
        constructor
        · simp
          omega
        · rw [List.take_succ_cons, sumSizes_cons]
          omega

theorem idxOfAux_complete {a : Nat} :
    ∀ (bs : List Blk) (base i : Nat), i < bs.length →
      base + sumSizes (bs.take i) = a →
      (∀ j, j < i → base + sumSizes (bs.take j) ≠ a) →
      idxOfAux a bs base = some i := by
  intro bs
  induction bs with
  | nil => intro base i hi _ _; simp at hi
  | cons b rest ih =>
    intro base i hi heq hne
    simp only [idxOfAux]
    cases i with
    | zero =>
      rw [if_pos (by simpa using heq)]
    | succ i0 =>
      have hbase : base ≠ a := by
        have := hne 0 (by omega)
        simpa using this
      rw [if_neg hbase]
      have hrec : idxOfAux a rest (base + blkSize b) = some i0 := by
        apply ih
        · simpa using hi
        · rw [List.take_succ_cons, sumSizes_cons] at heq
          omega
        · intro j hj
          have := hne (j + 1) (by omega)
          rw [List.take_succ_cons, sumSizes_cons] at this
          intro hcon
          exact this (by omega)
      rw [hrec]
      rfl

theorem idxOf_sound {h : Heap} {a i : Nat} (hx : idxOf h a = some i) :
    i < h.blocks.length ∧ addrAt h i = a := by
  have := idxOfAux_sound h.blocks heapBase i hx
  exact ⟨this.1, this.2⟩

theorem idxOf_addrAt (h : Heap) (hpos : ∀ b ∈ h.blocks, 0 < blkSize b) {i : Nat}
    (hi : i < h.blocks.length) : idxOf h (addrAt h i) = some i := by
  apply idxOfAux_complete h.blocks heapBase i hi rfl
  intro j hj
  have := addrAt_mono h hpos hj (by omega)
  unfold addrAt at this
  omega

theorem splice_length {bs : List Blk} {i k : Nat} (nw : List Blk) (hik : i + k ≤ bs.length) :
    (splice bs i k nw).length = bs.length + nw.length - k := by
  unfold splice
  simp [List.length_take, List.length_drop]
  omega

theorem splice_get_low {bs : List Blk} {i k j : Nat} {nw : List Blk}
    (hj : j < i) (hi : i ≤ bs.length) :
    (splice bs i k nw)[j]? = bs[j]? := by
  unfold splice
  have hlt : (bs.take i).length = i := by
    rw [List.length_take]
    omega
  rw [List.getElem?_append_left (by rw [List.length_append, hlt]; omega),
    List.getElem?_append_left (by omega), List.getElem?_take, if_pos hj]

theorem splice_get_mid {bs : List Blk} {i k j : Nat} {nw : List Blk}
    (hj : j < nw.length) (hi : i ≤ bs.length) :
    (splice bs i k nw)[i + j]? = nw[j]? := by
  unfold splice
  have hlt : (bs.take i).length = i := by
    rw [List.length_take]
    omega
  rw [List.getElem?_append_left (by rw [List.length_append, hlt]; omega),
    List.getElem?_append_right (by omega), hlt]
  congr 1
  omega

theorem splice_get_high {bs : List Blk} {i k j : Nat} {nw : List Blk}
    (hi : i ≤ bs.length) :
    (splice bs i k nw)[i + nw.length + j]? = bs[i + k + j]? := by
  unfold splice
  have hlt : (bs.take i).length = i := by
    rw [List.length_take]
    omega
  rw [List.getElem?_append_right (by rw [List.length_append, hlt]; omega),
    List.length_append, hlt, List.getElem?_drop]
  congr 1
  omega

theorem splice_take_low {bs : List Blk} {i k j : Nat} {nw : List Blk}
    (hj : j ≤ i) (hi : i ≤ bs.length) :
    (splice bs i k nw).take j = bs.take j := by
  unfold splice
  have hlt : (bs.take i).length = i := by
    rw [List.length_take]
    omega
  rw [List.take_append_of_le_length (by rw [List.length_append, hlt]; omega),
    List.take_append_of_le_length (by omega),
    List.take_take, Nat.min_eq_left hj]

theorem splice_take_mid {bs : List Blk} {i k m : Nat} {nw : List Blk}
    (hm : m ≤ nw.length) (hi : i ≤ bs.length) :
    (splice bs i k nw).take (i + m) = bs.take i ++ nw.take m := by
  unfold splice
  have hlt : (bs.take i).length = i := by
    rw [List.length_take]
    omega
  rw [List.take_append_of_le_length (by rw [List.length_append, hlt]; omega),
    List.take_append_eq_append_take, hlt,
    List.take_of_length_le (by omega), show i + m - i = m by omega]

theorem splice_take_high {bs : List Blk} {i k j : Nat} {nw : List Blk}
    (hi : i ≤ bs.length) (hij : i + nw.length ≤ j) :
    (splice bs i k nw).take j =
      bs.take i ++ nw ++ (bs.drop (i + k)).take (j - i - nw.length) := by
  unfold splice
  have hlt : (bs.take i).length = i := by
    rw [List.length_take]
    omega
  rw [List.take_append_eq_append_take,
    List.take_of_length_le (by rw [List.length_append, hlt]; omega),
    List.length_append, hlt]
  congr 2
  omega

theorem drop_take_two {bs : List Blk} {i : Nat} {b c : Blk}
    (hb : bs[i]? = some b) (hc : bs[i + 1]? = some c) :
    (bs.drop i).take 2 = [b, c] := by
  rcases List.getElem?_eq_some_iff.mp hb with ⟨hib, hbe⟩
  rcases List.getElem?_eq_some_iff.mp hc with ⟨hic, hce⟩
  rw [List.drop_eq_getElem_cons hib, List.drop_eq_getElem_cons hic]
  simp [hbe, hce]

theorem drop_take_one {bs : List Blk} {i : Nat} {b : Blk}
    (hb : bs[i]? = some b) :
    (bs.drop i).take 1 = [b] := by
  rcases List.getElem?_eq_some_iff.mp hb with ⟨hib, hbe⟩
  rw [List.drop_eq_getElem_cons hib]
  simp [hbe]

theorem drop_take_three {bs : List Blk} {i : Nat} {b c d : Blk}
    (hb : bs[i]? = some b) (hc : bs[i + 1]? = some c) (hd : bs[i + 2]? = some d) :
    (bs.drop i).take 3 = [b, c, d] := by
  rcases List.getElem?_eq_some_iff.mp hb with ⟨hib, hbe⟩
  rcases List.getElem?_eq_some_iff.mp hc with ⟨hic, hce⟩
  rcases List.getElem?_eq_some_iff.mp hd with ⟨hid, hde⟩
  rw [List.drop_eq_getElem_cons hib, List.drop_eq_getElem_cons hic,
    List.drop_eq_getElem_cons hid]
  simp [hbe, hce, hde]

theorem sumSizes_eq_take_add_drop (bs : List Blk) (i : Nat) :
    sumSizes bs = sumSizes (bs.take i) + sumSizes (bs.drop i) := by
  conv_lhs => rw [← List.take_append_drop i bs]
  rw [sumSizes_append]

/-!
## Free-list surgery
-/

theorem removeFirst_of_not_mem {l : List Nat} {bp : Nat} (h : bp ∉ l) :
    removeFirst l bp = l := by
  induction l with
  | nil => rfl
  | cons x rest ih =>
    simp only [removeFirst]
    have hx : ¬ x = bp := by
      rintro rfl
      exact h (List.mem_cons_self x rest)
    rw [if_neg hx, ih fun hmem => h (List.mem_cons_of_mem _ hmem)]

theorem mem_of_mem_removeFirst {l : List Nat} {bp x : Nat}
    (h : x ∈ removeFirst l bp) : x ∈ l := by
  induction l with
  | nil => cases h
  | cons y rest ih =>
    simp only [removeFirst] at h
    by_cases hy : y = bp
    · rw [if_pos hy] at h
      exact List.mem_cons_of_mem _ h
    · rw [if_neg hy] at h
      rcases List.mem_cons.mp h with rfl | h2
      · exact List.mem_cons_self x rest
      · exact List.mem_cons_of_mem _ (ih h2)

theorem removeFirst_nodup {l : List Nat} (h : l.Nodup) (bp : Nat) :
    (removeFirst l bp).Nodup := by
  induction l with
  | nil => exact h
  | cons y rest ih =>
    rcases List.nodup_cons.mp h with ⟨hy, hrest⟩
    simp only [removeFirst]
    by_cases hyb : y = bp
    · rw [if_pos hyb]
      exact hrest
    · rw [if_neg hyb]
      exact List.nodup_cons.mpr ⟨fun hmem => hy (mem_of_mem_removeFirst hmem), ih hrest⟩

theorem not_mem_removeFirst_self {l : List Nat} (h : l.Nodup) (bp : Nat) :
    bp ∉ removeFirst l bp := by
  induction l with
  | nil => simp [removeFirst]
  | cons y rest ih =>
    rcases List.nodup_cons.mp h with ⟨hy, hrest⟩
    simp only [removeFirst]
    by_cases hyb : y = bp
    · rw [if_pos hyb]
      rw [← hyb]
      exact hy
    · rw [if_neg hyb]
      intro hmem
      rcases List.mem_cons.mp hmem with heq | h2
      · exact hyb heq.symm
      · exact ih hrest h2

theorem mem_removeFirst_of_ne {l : List Nat} {bp x : Nat} (hx : x ∈ l) (hne : x ≠ bp) :
    x ∈ removeFirst l bp := by
  induction l with
  | nil => cases hx
  | cons y rest ih =>
    simp only [removeFirst]
    by_cases hyb : y = bp
    · rw [if_pos hyb]
      rcases List.mem_cons.mp hx with rfl | h2
      · exact absurd hyb hne
      · exact h2
    · rw [if_neg hyb]
      rcases List.mem_cons.mp hx with rfl | h2
      · exact List.mem_cons_self x (removeFirst rest bp)
      · exact List.mem_cons_of_mem _ (ih h2)

theorem linkPrev_none_head (bp : Nat) :
    ∀ (l : List Nat), linkPrev l bp = none → bp ∈ l → l.head? = some bp := by
  intro l
  induction l with
  | nil => intro _ hc; cases hc
  | cons x rest ih =>
    intro hp hmem
    by_cases hx : x = bp
    · simp [hx]
    · rcases List.mem_cons.mp hmem with heq | h2
      · exact absurd heq.symm hx
      · cases rest with
        | nil => cases h2
        | cons y t =>
          by_cases hy : y = bp
          · rw [show linkPrev (x :: y :: t) bp = some x by
              simp [linkPrev, hx, hy]] at hp
            cases hp
          · rw [show linkPrev (x :: y :: t) bp = linkPrev (y :: t) bp by
              simp [linkPrev, hx, hy]] at hp
            have := ih hp h2
            simp only [List.head?_cons, Option.some_inj] at this
            exact absurd this hy

theorem linkNext_none_removeFirst (bp : Nat) :
    ∀ (l : List Nat), l.Nodup → bp ∈ l → linkNext l bp = none →
      removeFirst l bp = l.dropLast := by
  intro l
  induction l with
  | nil => intro _ hc; cases hc
  | cons x rest ih =>
    intro hnd hmem hn
    simp only [linkNext] at hn
    by_cases hx : x = bp
    · rw [if_pos hx] at hn
      have hrest : rest = [] := by
        cases rest with
        | nil => rfl
        | cons y t => cases hn
      subst hrest
      simp [removeFirst, hx]
    · rw [if_neg hx] at hn
      rcases List.mem_cons.mp hmem with heq | h2
      · exact absurd heq.symm hx
      · rcases List.nodup_cons.mp hnd with ⟨-, hnd2⟩
        have hrec := ih hnd2 h2 hn
        simp only [removeFirst]
        rw [if_neg hx, hrec]
        cases rest with
        | nil => cases h2
        | cons y t => simp

theorem seglist_delete_eq (h : Heap) (bp size : Nat)
    (hnd : (h.buckets (get_segclass_ind size)).Nodup)
    (hmem : bp ∈ h.buckets (get_segclass_ind size)) :
    seglist_delete h bp size =
      { h with buckets := (Function.update h.buckets (get_segclass_ind size)
          (removeFirst (h.buckets (get_segclass_ind size)) bp)) } := by
  unfold seglist_delete
  cases hn : linkNext (h.buckets (get_segclass_ind size)) bp with
  | none =>
    cases hp : linkPrev (h.buckets (get_segclass_ind size)) bp with
    | none =>
      simp only [hn, hp]
      have hhead := linkPrev_none_head bp _ hp hmem
      obtain ⟨t, ht⟩ : ∃ t, h.buckets (get_segclass_ind size) = bp :: t := by
        cases hl : h.buckets (get_segclass_ind size) with
        | nil => rw [hl] at hhead; cases hhead
        | cons z t =>
          rw [hl] at hhead
          simp only [List.head?_cons, Option.some_inj] at hhead
          exact ⟨t, by rw [hhead]⟩
      have htnil : t = [] := by
        rw [ht] at hn
        simp only [linkNext, if_pos rfl] at hn
        cases t with
        | nil => rfl
        | cons z t2 => cases hn
      rw [ht, htnil]
      simp [removeFirst]
    | some pv =>
      simp only [hn, hp]
      rw [linkNext_none_removeFirst bp _ hnd hmem hn]
  | some nx =>
    cases hp : linkPrev (h.buckets (get_segclass_ind size)) bp with
    | none =>
      simp only [hn, hp]
      have hhead := linkPrev_none_head bp _ hp hmem
      obtain ⟨t, ht⟩ : ∃ t, h.buckets (get_segclass_ind size) = bp :: t := by
        cases hl : h.buckets (get_segclass_ind size) with
        | nil => rw [hl] at hhead; cases hhead
        | cons z t =>
          rw [hl] at hhead
          simp only [List.head?_cons, Option.some_inj] at hhead
          exact ⟨t, by rw [hhead]⟩
      rw [ht]
      simp [removeFirst]
    | some pv =>
      simp only [hn, hp]

/-!
## Consequences of well-formedness
-/

theorem wf_pos {h : Heap} (hW : ∀ b ∈ h.blocks, WfHdr b.hdr) :
    ∀ b ∈ h.blocks, 0 < blkSize b := by
  intro b hb
  have := (wfHdr_fields (hW b hb)).1
  unfold blkSize
  omega

theorem wf_size16 {h : Heap} (hW : ∀ b ∈ h.blocks, WfHdr b.hdr) :
    ∀ b ∈ h.blocks, blkSize b % 16 = 0 := by
  intro b hb
  exact (wfHdr_fields (hW b hb)).2.1

theorem addrAt_mod16 {h : Heap} (hW : ∀ b ∈ h.blocks, WfHdr b.hdr) (i : Nat) :
    addrAt h i % 16 = 0 := by
  unfold addrAt
  have h16 : sumSizes (h.blocks.take i) % 16 = 0 :=
    sumSizes_mod16 fun b hb => wf_size16 hW b (List.take_subset _ _ hb)
  unfold heapBase
  omega

theorem addrAt_length (h : Heap) : addrAt h h.blocks.length = heapEnd h := by
  unfold addrAt heapEnd
  rw [List.take_of_length_le (Nat.le_refl _)]

theorem addrAt_le_heapEnd (h : Heap) (i : Nat) : addrAt h i ≤ heapEnd h := by
  unfold addrAt heapEnd
  have : sumSizes (h.blocks.take i) ≤ sumSizes h.blocks := by
    rw [sumSizes_eq_take_add_drop h.blocks i]
    omega
  omega

theorem addrAt_lt_heapEnd {h : Heap} (hW : ∀ b ∈ h.blocks, WfHdr b.hdr) {i : Nat}
    (hi : i < h.blocks.length) : addrAt h i < heapEnd h := by
  have := addrAt_mono h (wf_pos hW) hi (Nat.le_refl _)
  rw [addrAt_length] at this
  exact this

theorem heapBase_le_addrAt (h : Heap) (i : Nat) : heapBase ≤ addrAt h i := by
  unfold addrAt
  omega

/-- `mm_init` only succeeds with the provider up, and then yields `h0`. -/
theorem mm_init_eq {ok : Bool} {h : Heap} (hh : mm_init ok = some h) :
    ok = true ∧ h = h0 := by
  cases ok with
  | false =>
    rw [show mm_init false = none from rfl] at hh
    cases hh
  | true =>
    refine ⟨rfl, ?_⟩
    have : mm_init true = some h0 := rfl
    rw [this] at hh
    cases hh
    rfl

theorem h0_blocks : h0.blocks = [⟨514, fun _ => 0⟩] := rfl

theorem h0_buckets : h0.buckets = Function.update (fun _ => ([] : List Nat)) 4 [128] := rfl

theorem h0_epi : h0.epiHdr = 1 := rfl

theorem wf_h0 : Wf h0 := by
  refine ⟨?_, ?_, ?_, ?_, ?_, ?_, ?_, ?_, ?_, ?_, ?_, ?_⟩
  · intro b hb
    rw [h0_blocks] at hb
    rcases List.mem_singleton.mp hb with rfl
    exact ⟨512, 2, 0, by omega, by omega, by decide, Or.inr rfl, Or.inl rfl, by decide⟩
  · decide
  · decide
  · decide
  · intro b hb
    rw [h0_blocks] at hb
    cases hb
    decide
  · intro i b c hb hc
    rw [h0_blocks] at hc
    rcases List.getElem?_eq_some_iff.mp hc with ⟨hlt, -⟩
    simp at hlt
  · intro i b hi hb
    rw [h0_blocks] at hb hi
    simp at hi
    subst hi
    cases hb
    decide
  · intro hc
    rw [h0_blocks] at hc
    cases hc
  · intro j a ha
    rw [h0_buckets, Function.update_apply] at ha
    by_cases hj : j = 4
    · rw [if_pos hj] at ha
      rcases List.mem_singleton.mp ha with rfl
      refine ⟨0, ⟨514, fun _ => 0⟩, by decide, by rw [h0_blocks]; rfl, by decide, ?_⟩
      rw [show GET_SIZE 514 = 512 from by decide, hj]
      rfl
    · rw [if_neg hj] at ha
      cases ha
  · intro i b hb hfree
    rw [h0_blocks] at hb
    rcases List.getElem?_eq_some_iff.mp hb with ⟨hlt, hbe⟩
    simp at hlt
    subst hlt
    have hb2 : b = ⟨514, fun _ => 0⟩ := by
      rw [← hbe]
      simp
    rw [hb2]
    decide
  · intro j
    rw [h0_buckets, Function.update_apply]
    by_cases hj : j = 4
    · rw [if_pos hj]
      exact List.nodup_singleton 128
    · rw [if_neg hj]
      exact List.nodup_nil
  · intro i b c hb hc
    rw [h0_blocks] at hc
    rcases List.getElem?_eq_some_iff.mp hc with ⟨hlt, -⟩
    simp at hlt

/-!
## Size-congruent block lists
-/

theorem sumSizes_congr {bs1 bs2 : List Blk} (hsz : bs1.map blkSize = bs2.map blkSize) :
    sumSizes bs1 = sumSizes bs2 := by
  unfold sumSizes
  rw [hsz]

theorem sumSizes_take_congr {bs1 bs2 : List Blk}
    (hsz : bs1.map blkSize = bs2.map blkSize) (j : Nat) :
    sumSizes (bs1.take j) = sumSizes (bs2.take j) := by
  unfold sumSizes
  rw [List.map_take, List.map_take, hsz]

theorem idxOfAux_congr {a : Nat} :
    ∀ {bs1 bs2 : List Blk}, bs1.map blkSize = bs2.map blkSize →
      ∀ base, idxOfAux a bs1 base = idxOfAux a bs2 base := by
  intro bs1
  induction bs1 with
  | nil =>
    intro bs2 hsz base
    cases bs2 with
    | nil => rfl
    | cons c rest2 => cases hsz
  | cons b rest ih =>
    intro bs2 hsz base
    cases bs2 with
    | nil => cases hsz
    | cons c rest2 =>
      simp only [List.map_cons, List.cons.injEq] at hsz
      simp only [idxOfAux]
      rw [hsz.1, ih hsz.2]

theorem map_blkSize_set {bs : List Blk} {i : Nat} {b b2 : Blk} (hb : bs[i]? = some b)
    (hsz : blkSize b2 = blkSize b) : (bs.set i b2).map blkSize = bs.map blkSize := by
  apply List.ext_getElem?
  intro j
  rw [List.getElem?_map, List.getElem?_map]
  by_cases hj : j = i
  · subst hj
    rcases List.getElem?_eq_some_iff.mp hb with ⟨hlt, -⟩
    rw [List.getElem?_set_self hlt, hb]
    simp [hsz]
  · rw [List.getElem?_set_ne fun hc => hj hc.symm]

theorem getElem_set_cases {bs : List Blk} {i : Nat} {b2 : Blk} (hlt : i < bs.length) (j : Nat) :
    (bs.set i b2)[j]? = if j = i then some b2 else bs[j]? := by
  by_cases hj : j = i
  · subst hj
    rw [if_pos rfl, List.getElem?_set_self hlt]
  · rw [if_neg hj, List.getElem?_set_ne fun hc => hj hc.symm]

/-- Replacing one block's payload bytes (header unchanged) preserves every
    well-formedness component. -/
theorem wf_set_data {h : Heap} {i : Nat} {b b2 : Blk} (hW : Wf h) (hb : h.blocks[i]? = some b)
    (hhdr : b2.hdr = b.hdr) : Wf { h with blocks := h.blocks.set i b2 } := by
  have hsz : blkSize b2 = blkSize b := by
    unfold blkSize
    rw [hhdr]
  have hmapeq := map_blkSize_set hb hsz
  have hlt : i < h.blocks.length := (List.getElem?_eq_some_iff.mp hb).1
  have hget := @getElem_set_cases h.blocks i b2 hlt
  have haddr : ∀ j, addrAt { h with blocks := h.blocks.set i b2 } j = addrAt h j := by
    intro j
    show heapBase + sumSizes ((h.blocks.set i b2).take j) = heapBase + sumSizes (h.blocks.take j)
    rw [sumSizes_take_congr hmapeq]
  have hix : ∀ a, idxOf { h with blocks := h.blocks.set i b2 } a = idxOf h a := by
    intro a
    exact idxOfAux_congr hmapeq heapBase
  obtain ⟨hhdrs, hextent, hepisz, hepial, hprev0, hprevS, hprevE, hprevE0, hbmem,
    hbfree, hnodup, hnoadj⟩ := hW
  refine ⟨?_, ?_, hepisz, hepial, ?_, ?_, ?_, ?_, ?_, ?_, hnodup, ?_⟩
  · intro c hc
    rcases List.mem_or_eq_of_mem_set hc with hc2 | rfl
    · exact hhdrs c hc2
    · rw [hhdr]
      exact hhdrs b (List.getElem?_mem hb)
  · show heapBase + sumSizes (h.blocks.set i b2) < W
    rw [sumSizes_congr hmapeq]
    exact hextent
  · intro c hc
    rw [hget 0] at hc
    by_cases h0 : (0 : Nat) = i
    · rw [if_pos h0] at hc
      cases hc
      rw [hhdr]
      exact hprev0 b (h0 ▸ hb)
    · rw [if_neg h0] at hc
      exact hprev0 c hc
  · intro j c d hc hd
    rw [hget j] at hc
    rw [hget (j + 1)] at hd
    by_cases hj : j = i
    · rw [if_pos hj] at hc
      cases hc
      have hd2 : h.blocks[j + 1]? = some d := by
        rwa [if_neg (by omega)] at hd
      rw [hhdr]
      exact hprevS j b d (hj ▸ hb) hd2
    · rw [if_neg hj] at hc
      by_cases hj2 : j + 1 = i
      · rw [if_pos hj2] at hd
        cases hd
        rw [hhdr]
        exact hprevS j c b hc (hj2 ▸ hb)
      · rw [if_neg hj2] at hd
        exact hprevS j c d hc hd
  · intro j c hl hc
    simp only [List.length_set] at hl
    rw [hget j] at hc
    by_cases hj : j = i
    · rw [if_pos hj] at hc
      cases hc
      rw [hhdr]
      exact hprevE j b hl (hj ▸ hb)
    · rw [if_neg hj] at hc
      exact hprevE j c hl hc
  · intro hc
    have h2 : h.blocks.length = 0 := by
      have := congrArg List.length hc
      simpa using this
    exact hprevE0 (List.eq_nil_of_length_eq_zero h2)
  · intro j a ha
    rcases hbmem j a ha with ⟨k, c, hk, hc, hal, hcl⟩
    by_cases hk2 : k = i
    · rw [hk2, hb] at hc
      cases hc
      refine ⟨k, b2, by rw [hix]; exact hk, ?_,
        by rw [hhdr]; exact hal, by rw [hhdr]; exact hcl⟩
      show (h.blocks.set i b2)[k]? = some b2
      rw [hget k, if_pos hk2]
    · refine ⟨k, c, by rw [hix]; exact hk, ?_, hal, hcl⟩
      show (h.blocks.set i b2)[k]? = some c
      rw [hget k, if_neg hk2]
      exact hc
  · intro k c hc hal
    rw [hget k] at hc
    rw [haddr k]
    by_cases hk2 : k = i
    · rw [if_pos hk2] at hc
      cases hc
      rw [hhdr] at hal ⊢
      have := hbfree k b (hk2 ▸ hb) hal
      exact this
    · rw [if_neg hk2] at hc
      exact hbfree k c hc hal
  · intro j c d hc hd
    rw [hget j] at hc
    rw [hget (j + 1)] at hd
    by_cases hj : j = i
    · rw [if_pos hj] at hc
      cases hc
      rw [if_neg (by omega)] at hd
      rw [hhdr]
      exact hnoadj j b d (hj ▸ hb) hd
    · rw [if_neg hj] at hc
      by_cases hj2 : j + 1 = i
      · rw [if_pos hj2] at hd
        cases hd
        rw [hhdr]
        exact hnoadj j c b hc (hj2 ▸ hb)
      · rw [if_neg hj2] at hd
        exact hnoadj j c d hc hd

theorem mm_memcpy_eq {h : Heap} {dst src n di si : Nat} {db sb : Blk}
    (hd : idxOf h dst = some di) (hdb : h.blocks[di]? = some db)
    (hs : idxOf h src = some si) (hsb : h.blocks[si]? = some sb) :
    mm_memcpy h dst src n =
      { h with blocks := (h.blocks.set di
          { db with data := fun j => if j < n then sb.data j else db.data j }) } := by
  unfold mm_memcpy
  rw [hd, hs]
  simp only [hdb, hsb]

theorem mm_memset0_eq {h : Heap} {p n i : Nat} {b : Blk}
    (hx : idxOf h p = some i) (hb : h.blocks[i]? = some b) :
    mm_memset0 h p n =
      { h with blocks := (h.blocks.set i
          { b with data := fun j => if j < n then 0 else b.data j }) } := by
  unfold mm_memset0
  rw [hx]
  simp only [hb]

/-!
## Splicing a single block in place of a segment
-/

theorem splice1_get_self {bs : List Blk} {j k : Nat} {nw : Blk} (hj : j ≤ bs.length) :
    (splice bs j k [nw])[j]? = some nw := by
  have := @splice_get_mid bs j k 0 [nw] (by simp) hj
  simpa using this

theorem splice1_get_high {bs : List Blk} {j k : Nat} {nw : Blk} (t : Nat)
    (hj : j ≤ bs.length) :
    (splice bs j k [nw])[j + 1 + t]? = bs[j + k + t]? := by
  have := @splice_get_high bs j k t [nw] hj
  simpa using this

theorem splice1_sum_take_high {bs : List Blk} {j k m : Nat} {nw : Blk}
    (hjk : j + k ≤ bs.length) (hm : j + 1 ≤ m)
    (hszeq : blkSize nw = sumSizes ((bs.drop j).take k)) :
    sumSizes ((splice bs j k [nw]).take m) = sumSizes (bs.take (m + k - 1)) := by
  rw [splice_take_high (by omega) (by simpa using hm)]
  rw [sumSizes_append, sumSizes_append]
  have h1 : sumSizes [nw] = blkSize nw := by
    simp [sumSizes]
  have h2 : bs.take (m + k - 1) =
      (bs.take (j + k)) ++ (bs.drop (j + k)).take (m + k - 1 - (j + k)) := by
    rw [← List.take_add]
    congr 1
    omega
  have h3 : bs.take (j + k) = bs.take j ++ (bs.drop j).take k := List.take_add ..
  rw [h2, h3, sumSizes_append, sumSizes_append, h1, hszeq]
  have h4 : m + k - 1 - (j + k) = m - j - 1 := by omega
  rw [h4]
  simp

theorem splice1_length {bs : List Blk} {j k : Nat} {nw : Blk} (hjk : j + k ≤ bs.length) :
    (splice bs j k [nw]).length = bs.length + 1 - k := by
  rw [splice_length [nw] hjk]
  simp

/-- Merging a run of `k ≥ 2` adjacent free blocks: replace them by one free
    block carrying the run's total size and the first block's prev-alloc bit,
    with the run's addresses already removed from the buckets (`hmid`) and
    the merged address re-inserted.  The heap invariant is restored; this is
    the common shape of the three merging arms of `coalesce`. -/
theorem merge_wf
    (h hmid h2 : Heap) (j k stot pbit : Nat) (d2 : Nat → Nat)
    (hk2 : 2 ≤ k) (hjk : j + k ≤ h.blocks.length)
    (hhdrs : ∀ b ∈ h.blocks, WfHdr b.hdr)
    (hextent : heapEnd h < W)
    (hepisz : GET_SIZE h.epiHdr = 0) (hepial : GET_ALLOC h.epiHdr = 1)
    (hprev0 : ∀ b, h.blocks[0]? = some b → PREV_ALLOC b.hdr = 2)
    (hprevS : ∀ m b c, h.blocks[m]? = some b → h.blocks[m + 1]? = some c →
      PREV_ALLOC c.hdr = 2 * GET_ALLOC b.hdr)
    (hprevE : ∀ m b, m + 1 = h.blocks.length → h.blocks[m]? = some b →
      PREV_ALLOC h.epiHdr = 2 * GET_ALLOC b.hdr)
    (hbmem : ∀ jj a, a ∈ h.buckets jj → ∃ m b, idxOf h a = some m ∧
      h.blocks[m]? = some b ∧ GET_ALLOC b.hdr = 0 ∧
      get_segclass_ind (GET_SIZE b.hdr) = jj)
    (hbfree : ∀ m b, h.blocks[m]? = some b → GET_ALLOC b.hdr = 0 →
      addrAt h m ∈ h.buckets (get_segclass_ind (GET_SIZE b.hdr)))
    (hnoadjseg : ∀ m b c, h.blocks[m]? = some b → h.blocks[m + 1]? = some c →
      GET_ALLOC b.hdr = 0 → GET_ALLOC c.hdr = 1 ∨ (j ≤ m ∧ m + 1 < j + k))
    (hsegfree : ∀ m, m < k → ∃ bm, h.blocks[j + m]? = some bm ∧ GET_ALLOC bm.hdr = 0)
    (hleft : ∀ c, 1 ≤ j → h.blocks[j - 1]? = some c → GET_ALLOC c.hdr = 1)
    (hright : ∀ c, h.blocks[j + k]? = some c → GET_ALLOC c.hdr = 1)
    (hstot : stot = sumSizes ((h.blocks.drop j).take k))
    (hpbit : ∀ bj, h.blocks[j]? = some bj → pbit = PREV_ALLOC bj.hdr)
    (hsub : ∀ jj x, x ∈ hmid.buckets jj → x ∈ h.buckets jj)
    (hnodup2 : ∀ jj, (hmid.buckets jj).Nodup)
    (hkeep : ∀ jj x, x ∈ h.buckets jj → (∀ m, m < k → x ≠ addrAt h (j + m)) →
      x ∈ hmid.buckets jj)
    (hgone : ∀ jj m, m < k → addrAt h (j + m) ∉ hmid.buckets jj)
    (hP1 : h2.blocks = splice h.blocks j k [⟨PACK stot pbit, d2⟩])
    (hP2 : h2.epiHdr = h.epiHdr)
    (hP3 : h2.buckets = Function.update hmid.buckets (get_segclass_ind stot)
      (addrAt h j :: hmid.buckets (get_segclass_ind stot))) :
    Wf h2 ∧ heapEnd h2 = heapEnd h ∧ idxOf h2 (addrAt h j) = some j ∧
      h2.blocks[j]? = some ⟨PACK stot pbit, d2⟩ ∧
      GET_SIZE (Blk.hdr ⟨PACK stot pbit, d2⟩) = stot ∧
      GET_ALLOC (Blk.hdr ⟨PACK stot pbit, d2⟩) = 0 ∧
      (∀ m c, h.blocks[m]? = some c → GET_ALLOC c.hdr = 1 →
        ∃ m2, idxOf h2 (addrAt h m) = some m2 ∧ h2.blocks[m2]? = some c) := by
  obtain ⟨b0, hb0x, hb0free⟩ := hsegfree 0 (by omega)
  have hb0 : h.blocks[j]? = some b0 := by rwa [Nat.add_zero] at hb0x
  obtain ⟨bl, hblx, hblfree⟩ := hsegfree (k - 1) (by omega)
  have hbl : h.blocks[j + k - 1]? = some bl := by
    rw [show j + k - 1 = j + (k - 1) by omega]
    exact hblx
  have hjlt : j < h.blocks.length := by omega
  have hpb := hpbit b0 hb0
  have hwf0 := wfHdr_fields (hhdrs b0 (List.getElem?_mem hb0))
  have hpbit2 : pbit = 0 ∨ pbit = 2 := by
    rw [hpb]
    exact hwf0.2.2.2.1
  have hsum_all : sumSizes h.blocks =
      sumSizes (h.blocks.take j) + stot + sumSizes (h.blocks.drop (j + k)) := by
    rw [hstot, sumSizes_eq_take_add_drop h.blocks j]
    conv_lhs => rw [show h.blocks.drop j =
      (h.blocks.drop j).take k ++ (h.blocks.drop j).drop k from
        (List.take_append_drop ..).symm]
    rw [sumSizes_append, List.drop_drop]
    omega
  have hsumW : sumSizes h.blocks < W := by
    have := hextent
    unfold heapEnd heapBase at this
    omega
  have hseg_decomp : (h.blocks.drop j).take k = b0 :: (h.blocks.drop (j + 1)).take (k - 1) := by
    rw [List.drop_eq_getElem_cons hjlt]
    rw [show k = (k - 1) + 1 by omega, List.take_succ_cons]
    rcases List.getElem?_eq_some_iff.mp hb0 with ⟨hlt9, hbe⟩
    rw [hbe, show k - 1 + 1 - 1 = k - 1 by omega]
  have hstot32 : 32 ≤ stot := by
    rw [hstot, hseg_decomp, sumSizes_cons]
    have := (wfHdr_fields (hhdrs b0 (List.getElem?_mem hb0))).1
    unfold blkSize
    omega
  have hstot16 : stot % 16 = 0 := by
    rw [hstot]
    exact sumSizes_mod16 fun b hb =>
      wf_size16 hhdrs b (List.drop_subset _ _ (List.take_subset _ _ hb))
  have hstotW : stot < W := by
    omega
  have hnb2hdr : Blk.hdr ⟨PACK stot pbit, d2⟩ = stot ||| pbit ||| 0 := by
    rw [Nat.or_zero]
    rfl
  have hfields := pack_fields (s := stot) (p := pbit) (a := 0) hstot16 hstotW hpbit2 (Or.inl rfl)
  have hsz2 : GET_SIZE (Blk.hdr ⟨PACK stot pbit, d2⟩) = stot := by
    rw [hnb2hdr]
    exact hfields.1
  have hal2 : GET_ALLOC (Blk.hdr ⟨PACK stot pbit, d2⟩) = 0 := by
    rw [hnb2hdr]
    exact hfields.2.2
  have hpr2 : PREV_ALLOC (Blk.hdr ⟨PACK stot pbit, d2⟩) = pbit := by
    rw [hnb2hdr]
    exact hfields.2.1
  have hnb2wf : WfHdr (Blk.hdr ⟨PACK stot pbit, d2⟩) :=
    ⟨stot, pbit, 0, hstot32, hstot16, hstotW, hpbit2, Or.inl rfl, hnb2hdr⟩
  have hszeq : blkSize (⟨PACK stot pbit, d2⟩ : Blk) = sumSizes ((h.blocks.drop j).take k) := by
    unfold blkSize
    rw [hsz2, hstot]
  have hlen2 : h2.blocks.length = h.blocks.length + 1 - k := by
    rw [hP1]
    exact splice1_length hjk
  have hget_low : ∀ {m : Nat}, m < j → h2.blocks[m]? = h.blocks[m]? := by
    intro m hm
    rw [hP1]
    exact splice_get_low hm (by omega)
  have hget_self : h2.blocks[j]? = some ⟨PACK stot pbit, d2⟩ := by
    rw [hP1]
    exact splice1_get_self (by omega)
  have hget_high : ∀ t : Nat, h2.blocks[j + 1 + t]? = h.blocks[j + k + t]? := by
    intro t
    rw [hP1]
    exact splice1_get_high t (by omega)
  have haddr_low : ∀ {m : Nat}, m ≤ j → addrAt h2 m = addrAt h m := by
    intro m hm
    show heapBase + sumSizes (h2.blocks.take m) = heapBase + sumSizes (h.blocks.take m)
    rw [hP1, splice_take_low hm (by omega)]
  have haddr_high : ∀ {m : Nat}, j + 1 ≤ m → addrAt h2 m = addrAt h (m + k - 1) := by
    intro m hm
    show heapBase + sumSizes (h2.blocks.take m) = heapBase + sumSizes (h.blocks.take (m + k - 1))
    rw [hP1, splice1_sum_take_high hjk hm hszeq]
  have hend : heapEnd h2 = heapEnd h := by
    have h1 : addrAt h2 h2.blocks.length = heapEnd h2 := addrAt_length h2
    have h2l : j + 1 ≤ h2.blocks.length := by omega
    have h3 := haddr_high h2l
    rw [h1] at h3
    rw [h3, hlen2, show h.blocks.length + 1 - k + k - 1 = h.blocks.length by omega,
      addrAt_length]
  have hmem2 : ∀ b ∈ h2.blocks, WfHdr b.hdr := by
    intro b hb
    rw [hP1] at hb
    unfold splice at hb
    rcases List.mem_append.mp hb with hb1 | hb1
    · rcases List.mem_append.mp hb1 with hb3 | hb3
      · exact hhdrs b (List.take_subset _ _ hb3)
      · rcases List.mem_singleton.mp hb3 with rfl
        exact hnb2wf
    · exact hhdrs b (List.drop_subset _ _ hb1)
  have hpos2 : ∀ b ∈ h2.blocks, 0 < blkSize b := wf_pos (h := h2) hmem2
  have hidx2 : ∀ {m : Nat}, m < h2.blocks.length → idxOf h2 (addrAt h2 m) = some m := by
    intro m hm
    exact idxOf_addrAt h2 hpos2 hm
  have hposh : ∀ b ∈ h.blocks, 0 < blkSize b := wf_pos hhdrs
  have hseg_notmem : ∀ (jj : Nat) (a : Nat), a ∈ hmid.buckets jj →
      ∀ m, idxOf h a = some m → m < j ∨ j + k ≤ m := by
    intro jj a ha m hm
    rcases idxOf_sound hm with ⟨hmlt, hmaddr⟩
    by_contra hcon
    push_neg at hcon
    have h5 : a = addrAt h (j + (m - j)) := by
      rw [show j + (m - j) = m by omega, hmaddr]
    exact hgone jj (m - j) (by omega) (h5 ▸ ha)
  refine ⟨⟨hmem2, by rw [hend]; exact hextent, by rw [hP2]; exact hepisz,
    by rw [hP2]; exact hepial, ?_, ?_, ?_, ?_, ?_, ?_, ?_, ?_⟩, hend, ?_, hget_self,
    hsz2, hal2, ?_⟩
  · -- prev0
    intro b hb
    by_cases hj0 : j = 0
    · subst hj0
      rw [hget_self] at hb
      cases hb
      rw [hpr2, hpb]
      exact hprev0 b0 hb0
    · rw [hget_low (by omega)] at hb
      exact hprev0 b hb
  · -- prevS
    intro m b c hbm hcm
    rcases Nat.lt_trichotomy (m + 1) j with hmj | hmj | hmj
    · rw [hget_low (by omega)] at hbm
      rw [hget_low hmj] at hcm
      exact hprevS m b c hbm hcm
    · rw [hget_low (by omega)] at hbm
      rw [hmj, hget_self] at hcm
      cases hcm
      rw [hpr2, hpb]
      have := hprevS m b b0 hbm (by rw [hmj]; exact hb0)
      exact this
    · rcases Nat.lt_or_ge j m with hjm | hjm
      · have hbm2 : h.blocks[m + k - 1]? = some b := by
          rw [show m = j + 1 + (m - j - 1) by omega] at hbm
          rw [hget_high] at hbm
          rwa [show j + k + (m - j - 1) = m + k - 1 by omega] at hbm
        have hcm2 : h.blocks[m + k]? = some c := by
          rw [show m + 1 = j + 1 + (m - j) by omega] at hcm
          rw [hget_high] at hcm
          rwa [show j + k + (m - j) = m + k by omega] at hcm
        have := hprevS (m + k - 1) b c hbm2 (by
          rwa [show m + k - 1 + 1 = m + k by omega])
        exact this
      · have hmje : m = j := by omega
        subst hmje
        rw [hget_self] at hbm
        cases hbm
        have hcm2 : h.blocks[m + k]? = some c := by
          rw [show m + 1 = m + 1 + 0 by omega, hget_high] at hcm
          rwa [show m + k + 0 = m + k by omega] at hcm
        have := hprevS (m + k - 1) bl c hbl (by
          rwa [show m + k - 1 + 1 = m + k by omega])
        rw [this, hblfree, hal2]
  · -- prevE
    intro m b hml hbm
    rw [hP2]
    rw [hlen2] at hml
    rcases Nat.lt_trichotomy m j with hmj | hmj | hmj
    · omega
    · subst hmj
      rw [hget_self] at hbm
      cases hbm
      rw [hal2]
      have := hprevE (h.blocks.length - 1) bl (by omega) (by
        rwa [show h.blocks.length - 1 = m + k - 1 by omega])
      rw [this, hblfree]
    · have hbm2 : h.blocks[m + k - 1]? = some b := by
        rw [show m = j + 1 + (m - j - 1) by omega] at hbm
        rw [hget_high] at hbm
        rwa [show j + k + (m - j - 1) = m + k - 1 by omega] at hbm
      exact hprevE (m + k - 1) b (by omega) hbm2
  · -- prevE0
    intro hc
    have := congrArg List.length hc
    rw [hlen2] at this
    simp at this
    omega
  · -- bmem
    intro jj a ha
    rw [hP3, Function.update_apply] at ha
    by_cases hjc : jj = get_segclass_ind stot
    · rw [if_pos hjc] at ha
      rcases List.mem_cons.mp ha with rfl | ha2
      · refine ⟨j, ⟨PACK stot pbit, d2⟩, ?_, hget_self, hal2, by rw [hsz2, hjc]⟩
        rw [← haddr_low (Nat.le_refl j)]
        exact hidx2 (by omega)
      · rw [← hjc] at ha2
        rcases hbmem jj a (hsub jj a ha2) with ⟨m, b, hm, hbm, halb, hclb⟩
        rcases hseg_notmem jj a ha2 m hm with hcase | hcase
        · refine ⟨m, b, ?_, by rw [hget_low hcase]; exact hbm, halb, hclb⟩
          rcases idxOf_sound hm with ⟨-, hmaddr⟩
          rw [← hmaddr, ← haddr_low (m := m) (by omega)]
          exact hidx2 (by omega)
        · rcases idxOf_sound hm with ⟨hmlt, hmaddr⟩
          refine ⟨m - k + 1, b, ?_, ?_⟩
          · rw [← hmaddr, show m = m - k + 1 + k - 1 by omega,
              ← haddr_high (m := m - k + 1) (by omega),
              show m - k + 1 + k - 1 - k + 1 = m - k + 1 by omega]
            exact hidx2 (m := m - k + 1) (by omega)
          · refine ⟨?_, halb, hclb⟩
            rw [show m - k + 1 = j + 1 + (m - k - j) by omega, hget_high,
              show j + k + (m - k - j) = m by omega]
            exact hbm
    · rw [if_neg hjc] at ha
      rcases hbmem jj a (hsub jj a ha) with ⟨m, b, hm, hbm, halb, hclb⟩
      rcases hseg_notmem jj a ha m hm with hcase | hcase
      · refine ⟨m, b, ?_, by rw [hget_low hcase]; exact hbm, halb, hclb⟩
        rcases idxOf_sound hm with ⟨-, hmaddr⟩
        rw [← hmaddr, ← haddr_low (m := m) (by omega)]
        exact hidx2 (by omega)
      · rcases idxOf_sound hm with ⟨hmlt, hmaddr⟩
        refine ⟨m - k + 1, b, ?_, ?_⟩
        · rw [← hmaddr, show m = m - k + 1 + k - 1 by omega,
            ← haddr_high (m := m - k + 1) (by omega),
            show m - k + 1 + k - 1 - k + 1 = m - k + 1 by omega]
          exact hidx2 (m := m - k + 1) (by omega)
        · refine ⟨?_, halb, hclb⟩
          rw [show m - k + 1 = j + 1 + (m - k - j) by omega, hget_high,
            show j + k + (m - k - j) = m by omega]
          exact hbm
  · -- bfree
    intro m b hbm hfr
    rw [hP3, Function.update_apply]
    rcases Nat.lt_trichotomy m j with hmj | hmj | hmj
    · rw [hget_low hmj] at hbm
      have hin := hbfree m b hbm hfr
      have hkp : addrAt h m ∈ hmid.buckets (get_segclass_ind (GET_SIZE b.hdr)) := by
        apply hkeep _ _ hin
        intro mm hmm
        have := addrAt_mono h hposh (show m < j + mm by omega) (by omega)
        omega
      rw [haddr_low (by omega)]
      by_cases hjc : get_segclass_ind (GET_SIZE b.hdr) = get_segclass_ind stot
      · rw [if_pos hjc]
        rw [hjc] at hkp
        exact List.mem_cons_of_mem _ hkp
      · rw [if_neg hjc]
        exact hkp
    · subst hmj
      rw [hget_self] at hbm
      cases hbm
      rw [hsz2, if_pos rfl, haddr_low (Nat.le_refl m)]
      exact List.mem_cons_self _ _
    · have hbm2 : h.blocks[m + k - 1]? = some b := by
        rw [show m = j + 1 + (m - j - 1) by omega] at hbm
        rw [hget_high] at hbm
        rwa [show j + k + (m - j - 1) = m + k - 1 by omega] at hbm
      have hmlt2 : m < h2.blocks.length := by
        rcases List.getElem?_eq_some_iff.mp hbm2 with ⟨hlt2, -⟩
        omega
      have hin := hbfree (m + k - 1) b hbm2 hfr
      have hkp : addrAt h (m + k - 1) ∈ hmid.buckets (get_segclass_ind (GET_SIZE b.hdr)) := by
        apply hkeep _ _ hin
        intro mm hmm
        have := addrAt_mono h hposh (show j + mm < m + k - 1 by omega) (by
          rcases List.getElem?_eq_some_iff.mp hbm2 with ⟨hlt2, -⟩
          omega)
        omega
      rw [haddr_high (by omega)]
      by_cases hjc : get_segclass_ind (GET_SIZE b.hdr) = get_segclass_ind stot
      · rw [if_pos hjc]
        rw [hjc] at hkp
        exact List.mem_cons_of_mem _ hkp
      · rw [if_neg hjc]
        exact hkp
  · -- bnodup
    intro jj
    rw [hP3, Function.update_apply]
    by_cases hjc : jj = get_segclass_ind stot
    · rw [if_pos hjc]
      refine List.nodup_cons.mpr ⟨?_, hnodup2 _⟩
      have := hgone (get_segclass_ind stot) 0 (by omega)
      rwa [Nat.add_zero] at this
    · rw [if_neg hjc]
      exact hnodup2 jj
  · -- noadj
    intro m b c hbm hcm hfr
    rcases Nat.lt_trichotomy (m + 1) j with hmj | hmj | hmj
    · rw [hget_low (by omega)] at hbm
      rw [hget_low hmj] at hcm
      rcases hnoadjseg m b c hbm hcm hfr with hal | hseg
      · exact hal
      · omega
    · rw [hget_low (by omega)] at hbm
      have := hleft b (by omega) (by rwa [show j - 1 = m by omega])
      rw [this] at hfr
      cases hfr
    · rcases Nat.lt_or_ge j m with hjm | hjm
      · have hbm2 : h.blocks[m + k - 1]? = some b := by
          rw [show m = j + 1 + (m - j - 1) by omega] at hbm
          rw [hget_high] at hbm
          rwa [show j + k + (m - j - 1) = m + k - 1 by omega] at hbm
        have hcm2 : h.blocks[m + k]? = some c := by
          rw [show m + 1 = j + 1 + (m - j) by omega] at hcm
          rw [hget_high] at hcm
          rwa [show j + k + (m - j) = m + k by omega] at hcm
        rcases hnoadjseg (m + k - 1) b c hbm2 (by
          rwa [show m + k - 1 + 1 = m + k by omega]) hfr with hal | hseg
        · exact hal
        · omega
      · have hmje : m = j := by omega
        subst hmje
        have hcm2 : h.blocks[m + k]? = some c := by
          rw [show m + 1 = m + 1 + 0 by omega, hget_high] at hcm
          rwa [show m + k + 0 = m + k by omega] at hcm
        exact hright c hcm2
  · -- idxOf of the merged block
    rw [← haddr_low (Nat.le_refl j)]
    exact hidx2 (by omega)
  · -- frame: allocated blocks survive at the same address, unchanged
    intro m c hbm hal
    have hnotseg : m < j ∨ j + k ≤ m := by
      by_contra hcon
      push_neg at hcon
      obtain ⟨bm, hbmx, hbmfree⟩ := hsegfree (m - j) (by omega)
      rw [show j + (m - j) = m by omega] at hbmx
      rw [hbmx] at hbm
      cases hbm
      rw [hal] at hbmfree
      cases hbmfree
    rcases hnotseg with hcase | hcase
    · refine ⟨m, ?_, by rw [hget_low hcase]; exact hbm⟩
      rw [← haddr_low (m := m) (by omega)]
      exact hidx2 (by omega)
    · rcases List.getElem?_eq_some_iff.mp hbm with ⟨hmlt, -⟩
      refine ⟨m - k + 1, ?_, ?_⟩
      · rw [show m = m - k + 1 + k - 1 by omega, ← haddr_high (m := m - k + 1) (by omega)]
        rw [show m - k + 1 + k - 1 - k + 1 = m - k + 1 by omega]
        exact hidx2 (m := m - k + 1) (by omega)
      · rw [show m - k + 1 = j + 1 + (m - k - j) by omega, hget_high,
          show j + k + (m - k - j) = m by omega]
        exact hbm

/-!
## Compositional facts about bucket removals
-/

theorem mem_del_sub {B : Nat → List Nat} {c a jj x : Nat}
    (hx : x ∈ Function.update B c (removeFirst (B c) a) jj) : x ∈ B jj := by
  rw [Function.update_apply] at hx
  by_cases hj : jj = c
  · rw [if_pos hj] at hx
    rw [hj]
    exact mem_of_mem_removeFirst hx
  · rwa [if_neg hj] at hx

theorem nodup_del {B : Nat → List Nat} (hnd : ∀ jj, (B jj).Nodup) (c a : Nat) :
    ∀ jj, (Function.update B c (removeFirst (B c) a) jj).Nodup := by
  intro jj
  rw [Function.update_apply]
  by_cases hj : jj = c
  · rw [if_pos hj]
    exact removeFirst_nodup (hnd c) a
  · rw [if_neg hj]
    exact hnd jj

theorem mem_del_keep {B : Nat → List Nat} {c a jj x : Nat}
    (hx : x ∈ B jj) (hne : x ≠ a) : x ∈ Function.update B c (removeFirst (B c) a) jj := by
  rw [Function.update_apply]
  by_cases hj : jj = c
  · rw [if_pos hj]
    rw [hj] at hx
    exact mem_removeFirst_of_ne hx hne
  · rwa [if_neg hj]

theorem not_mem_del_self {B : Nat → List Nat} {c a : Nat}
    (hnd : ∀ jj, (B jj).Nodup) (honly : ∀ jj, a ∈ B jj → jj = c) :
    ∀ jj, a ∉ Function.update B c (removeFirst (B c) a) jj := by
  intro jj hx
  rw [Function.update_apply] at hx
  by_cases hj : jj = c
  · rw [if_pos hj] at hx
    exact not_mem_removeFirst_self (hnd c) a hx
  · rw [if_neg hj] at hx
    exact hj (honly jj hx)

theorem not_mem_del_of_not_mem {B : Nat → List Nat} {c a x : Nat}
    (hx : ∀ jj, x ∉ B jj) : ∀ jj, x ∉ Function.update B c (removeFirst (B c) a) jj :=
  fun jj hmem => hx jj (mem_del_sub hmem)

theorem addrAt_succ {h : Heap} {i : Nat} {b : Blk} (hb : h.blocks[i]? = some b) :
    addrAt h (i + 1) = addrAt h i + blkSize b := by
  unfold addrAt
  rw [List.take_succ]
  rw [hb]
  rw [sumSizes_append]
  simp [sumSizes]
  omega

/-- A block address lies in a bucket only for its own size class. -/
theorem addr_only_class {h : Heap}
    (hpos : ∀ b ∈ h.blocks, 0 < blkSize b)
    (hbmem : ∀ jj a, a ∈ h.buckets jj → ∃ m b, idxOf h a = some m ∧
      h.blocks[m]? = some b ∧ GET_ALLOC b.hdr = 0 ∧
      get_segclass_ind (GET_SIZE b.hdr) = jj)
    {m : Nat} {bm : Blk} (hbm : h.blocks[m]? = some bm) :
    ∀ jj, addrAt h m ∈ h.buckets jj → jj = get_segclass_ind (GET_SIZE bm.hdr) := by
  intro jj hmem
  rcases hbmem jj _ hmem with ⟨m2, b2, hm2, hb2, -, hcl⟩
  have hx := idxOf_addrAt h hpos (List.getElem?_eq_some_iff.mp hbm).1
  rw [hx] at hm2
  cases hm2
  rw [hbm] at hb2
  cases hb2
  rw [← hcl]

theorem two_sizes_le_sum {h : Heap} {i : Nat} {b nb : Blk}
    (hb : h.blocks[i]? = some b) (hnb : h.blocks[i + 1]? = some nb) :
    blkSize b + blkSize nb ≤ sumSizes h.blocks := by
  rcases List.getElem?_eq_some_iff.mp hb with ⟨hlt, hbe⟩
  rcases List.getElem?_eq_some_iff.mp hnb with ⟨hlt1, hbe1⟩
  have h1 : sumSizes h.blocks = sumSizes (h.blocks.take i) + sumSizes (h.blocks.drop i) :=
    sumSizes_eq_take_add_drop ..
  have h2 : h.blocks.drop i = b :: h.blocks.drop (i + 1) := by
    rw [List.drop_eq_getElem_cons hlt, hbe]
  have h3 : h.blocks.drop (i + 1) = nb :: h.blocks.drop (i + 2) := by
    rw [List.drop_eq_getElem_cons hlt1, hbe1]
  rw [h1, h2, sumSizes_cons, h3, sumSizes_cons]
  omega

theorem three_sizes_le_sum {h : Heap} {i : Nat} {b nb nnb : Blk}
    (hb : h.blocks[i]? = some b) (hnb : h.blocks[i + 1]? = some nb)
    (hnnb : h.blocks[i + 2]? = some nnb) :
    blkSize b + blkSize nb + blkSize nnb ≤ sumSizes h.blocks := by
  rcases List.getElem?_eq_some_iff.mp hb with ⟨hlt, hbe⟩
  rcases List.getElem?_eq_some_iff.mp hnb with ⟨hlt1, hbe1⟩
  rcases List.getElem?_eq_some_iff.mp hnnb with ⟨hlt2, hbe2⟩
  have h1 : sumSizes h.blocks = sumSizes (h.blocks.take i) + sumSizes (h.blocks.drop i) :=
    sumSizes_eq_take_add_drop ..
  have h2 : h.blocks.drop i = b :: h.blocks.drop (i + 1) := by
    rw [List.drop_eq_getElem_cons hlt, hbe]
  have h3 : h.blocks.drop (i + 1) = nb :: h.blocks.drop (i + 2) := by
    rw [List.drop_eq_getElem_cons hlt1, hbe1]
  have h4 : h.blocks.drop (i + 2) = nnb :: h.blocks.drop (i + 3) := by
    rw [List.drop_eq_getElem_cons hlt2, hbe2]
  rw [h1, h2, sumSizes_cons, h3, sumSizes_cons, h4, sumSizes_cons]
  omega

theorem sumSizes_lt_W {h : Heap} (hextent : heapEnd h < W) : sumSizes h.blocks < W := by
  unfold heapEnd heapBase at hextent
  omega

/-- The merge-with-next arm of `coalesce` (prev allocated, next free). -/
theorem coalesce_next_arm (h : Heap) (i : Nat) (b nb : Blk)
    (hW : WfX h i) (hb : h.blocks[i]? = some b) (hfree : GET_ALLOC b.hdr = 0)
    (hnb : h.blocks[i + 1]? = some nb) (hnbfree : GET_ALLOC nb.hdr = 0)
    (hpa : PREV_ALLOC b.hdr = 2) :
    ∀ h2, h2 = seglist_add
        { seglist_delete (seglist_delete h (addrAt h i) (GET_SIZE b.hdr))
            (addrAt h i + GET_SIZE b.hdr) (GET_SIZE nb.hdr) with
          blocks := splice (seglist_delete (seglist_delete h (addrAt h i) (GET_SIZE b.hdr))
            (addrAt h i + GET_SIZE b.hdr) (GET_SIZE nb.hdr)).blocks i 2
            [⟨PACK ((GET_SIZE b.hdr + GET_SIZE nb.hdr) % W) (PREV_ALLOC b.hdr),
              fun j => if j < GET_SIZE b.hdr then b.data j else nb.data (j - GET_SIZE b.hdr)⟩] }
        (addrAt h i) ((GET_SIZE b.hdr + GET_SIZE nb.hdr) % W) →
      Wf h2 ∧ heapEnd h2 = heapEnd h ∧
      (∃ i2 b2, idxOf h2 (addrAt h i) = some i2 ∧ h2.blocks[i2]? = some b2 ∧
        GET_ALLOC b2.hdr = 0 ∧ GET_SIZE b.hdr ≤ GET_SIZE b2.hdr) ∧
      (∀ m c, h.blocks[m]? = some c → GET_ALLOC c.hdr = 1 →
        ∃ m2, idxOf h2 (addrAt h m) = some m2 ∧ h2.blocks[m2]? = some c) := by
  intro h2 hh2
  obtain ⟨hhdrs, hextent, hepisz, hepial, hprev0, hprevS, hprevE, hprevE0, hbmem,
    hbfree, hnodup, hnoadjx⟩ := hW
  have hposh : ∀ c ∈ h.blocks, 0 < blkSize c := wf_pos hhdrs
  have hlt : i < h.blocks.length := (List.getElem?_eq_some_iff.mp hb).1
  have hlt1 : i + 1 < h.blocks.length := (List.getElem?_eq_some_iff.mp hnb).1
  have hwfb := wfHdr_fields (hhdrs b (List.getElem?_mem hb))
  have hwfnb := wfHdr_fields (hhdrs nb (List.getElem?_mem hnb))
  have haddr1 : addrAt h (i + 1) = addrAt h i + GET_SIZE b.hdr := addrAt_succ hb
  have hsumW := sumSizes_lt_W hextent
  have hle2 := two_sizes_le_sum hb hnb
  have hstotv : (GET_SIZE b.hdr + GET_SIZE nb.hdr) % W =
      GET_SIZE b.hdr + GET_SIZE nb.hdr := Nat.mod_eq_of_lt (by
    unfold blkSize at hle2
    omega)
  have hstot : (GET_SIZE b.hdr + GET_SIZE nb.hdr) % W =
      sumSizes ((h.blocks.drop i).take 2) := by
    rw [drop_take_two hb hnb, hstotv]
    simp [sumSizes, blkSize]
  -- the once- and twice-deleted bucket arrays
  have hmemb := hbfree i b hb hfree
  have hd1 : seglist_delete h (addrAt h i) (GET_SIZE b.hdr) =
      { h with buckets := (Function.update h.buckets
          (get_segclass_ind (GET_SIZE b.hdr))
          (removeFirst (h.buckets (get_segclass_ind (GET_SIZE b.hdr))) (addrAt h i))) } :=
    seglist_delete_eq h _ _ (hnodup _) hmemb
  have hanene : addrAt h i ≠ addrAt h (i + 1) := by
    have := addrAt_mono h hposh (Nat.lt_succ_self i) (by omega)
    omega
  have hmemnb2 : addrAt h (i + 1) ∈
      (seglist_delete h (addrAt h i) (GET_SIZE b.hdr)).buckets
        (get_segclass_ind (GET_SIZE nb.hdr)) := by
    rw [hd1]
    exact mem_del_keep (hbfree (i + 1) nb hnb hnbfree) (Ne.symm hanene)
  have hnodup1 : ∀ jj, ((seglist_delete h (addrAt h i) (GET_SIZE b.hdr)).buckets jj).Nodup := by
    rw [hd1]
    exact nodup_del hnodup _ _
  have hd2 : seglist_delete (seglist_delete h (addrAt h i) (GET_SIZE b.hdr))
      (addrAt h (i + 1)) (GET_SIZE nb.hdr) =
      { seglist_delete h (addrAt h i) (GET_SIZE b.hdr) with
        buckets := (Function.update
          (seglist_delete h (addrAt h i) (GET_SIZE b.hdr)).buckets
          (get_segclass_ind (GET_SIZE nb.hdr))
          (removeFirst ((seglist_delete h (addrAt h i) (GET_SIZE b.hdr)).buckets
            (get_segclass_ind (GET_SIZE nb.hdr))) (addrAt h (i + 1)))) } :=
    seglist_delete_eq _ _ _ (hnodup1 _) hmemnb2
  have honlyb := addr_only_class hposh hbmem hb
  have honlynb := addr_only_class hposh hbmem hnb
  -- apply the generic merge lemma
  have hm := merge_wf h
    (seglist_delete (seglist_delete h (addrAt h i) (GET_SIZE b.hdr))
      (addrAt h i + GET_SIZE b.hdr) (GET_SIZE nb.hdr))
    h2 i 2 ((GET_SIZE b.hdr + GET_SIZE nb.hdr) % W) (PREV_ALLOC b.hdr)
    (fun j => if j < GET_SIZE b.hdr then b.data j else nb.data (j - GET_SIZE b.hdr))
    (by omega) (by omega)
    hhdrs hextent hepisz hepial hprev0 hprevS hprevE hbmem hbfree
    ?_ ?_ ?_ ?_ hstot ?_ ?_ ?_ ?_ ?_ ?_ ?_ ?_
  · refine ⟨hm.1, hm.2.1, ⟨i, _, hm.2.2.1, hm.2.2.2.1, hm.2.2.2.2.2.1, ?_⟩,
      hm.2.2.2.2.2.2⟩
    rw [hm.2.2.2.2.1, hstotv]
    omega
  · -- noadjseg
    intro m b' c' hbm hcm hfr
    rcases hnoadjx m b' c' hbm hcm hfr with hal | hmi | hmi
    · exact Or.inl hal
    · exact Or.inr (by omega)
    · -- m + 1 = i: the left neighbour of the run is allocated by the prev bit
      exfalso
      have hbm2 : h.blocks[(m) + 1]? = some b := by rw [hmi]; exact hb
      have := hprevS m b' b hbm hbm2
      rw [hpa] at this
      rcases (wfHdr_fields (hhdrs b' (List.getElem?_mem hbm))).2.2.2.2.1 with h0 | h1
      · omega
      · rw [h1] at hfr
        cases hfr
  · -- segment free
    intro m hm
    interval_cases m
    · exact ⟨b, by rwa [Nat.add_zero], hfree⟩
    · exact ⟨nb, hnb, hnbfree⟩
  · -- left boundary allocated
    intro c h1i hcm
    have hbm2 : h.blocks[(i - 1) + 1]? = some b := by
      rw [show i - 1 + 1 = i by omega]
      exact hb
    have := hprevS (i - 1) c b hcm hbm2
    rw [hpa] at this
    rcases (wfHdr_fields (hhdrs c (List.getElem?_mem hcm))).2.2.2.2.1 with h0 | h1
    · omega
    · exact h1
  · -- right boundary allocated
    intro c hcm
    rcases hnoadjx (i + 1) nb c hnb hcm hnbfree with hal | hmi | hmi
    · exact hal
    · omega
    · omega
  · -- pbit
    intro bj hbj
    rw [hb] at hbj
    cases hbj
    rfl
  · -- hsub
    intro jj x hx
    rw [← haddr1, hd2] at hx
    have hx1 := mem_del_sub hx
    rw [hd1] at hx1
    exact mem_del_sub hx1
  · -- hnodup2
    intro jj
    rw [← haddr1, hd2]
    exact nodup_del hnodup1 _ _ jj
  · -- hkeep
    intro jj x hx hne
    rw [← haddr1, hd2]
    apply mem_del_keep
    · rw [hd1]
      apply mem_del_keep hx
      have := hne 0 (by omega)
      rwa [Nat.add_zero] at this
    · exact hne 1 (by omega)
  · -- hgone
    intro jj m hm
    rw [← haddr1, hd2]
    interval_cases m
    · rw [Nat.add_zero]
      apply not_mem_del_of_not_mem
      rw [hd1]
      exact not_mem_del_self hnodup honlyb
    · apply not_mem_del_self hnodup1
      intro jj2 hmem2
      rw [hd1] at hmem2
      exact honlynb jj2 (mem_del_sub hmem2)
  · -- hP1
    rw [hh2, ← haddr1]
    rfl
  · -- hP2
    rw [hh2]
    rfl
  · -- hP3
    rw [hh2, ← haddr1]
    rfl

/-- The merge-with-previous arm of `coalesce` (prev free, next allocated). -/
theorem coalesce_prev_arm (h : Heap) (i : Nat) (b pb : Blk)
    (hW : WfX h i) (hb : h.blocks[i]? = some b) (hfree : GET_ALLOC b.hdr = 0)
    (h1i : 1 ≤ i) (hpb : h.blocks[i - 1]? = some pb)
    (hnal : ∀ c, h.blocks[i + 1]? = some c → GET_ALLOC c.hdr = 1)
    (hpa : PREV_ALLOC b.hdr = 0) :
    ∀ h2, h2 = seglist_add
        { seglist_delete (seglist_delete h (addrAt h i) (GET_SIZE b.hdr))
            (csub (addrAt h i) (GET_SIZE pb.hdr)) (GET_SIZE pb.hdr) with
          blocks := splice (seglist_delete (seglist_delete h (addrAt h i) (GET_SIZE b.hdr))
            (csub (addrAt h i) (GET_SIZE pb.hdr)) (GET_SIZE pb.hdr)).blocks (i - 1) 2
            [⟨PACK ((GET_SIZE b.hdr + GET_SIZE pb.hdr) % W) (PREV_ALLOC pb.hdr),
              fun j => if j < GET_SIZE pb.hdr then pb.data j else b.data (j - GET_SIZE pb.hdr)⟩] }
        (csub (addrAt h i) (GET_SIZE pb.hdr)) ((GET_SIZE b.hdr + GET_SIZE pb.hdr) % W) →
      Wf h2 ∧ heapEnd h2 = heapEnd h ∧
      (∃ i2 b2, idxOf h2 (csub (addrAt h i) (GET_SIZE pb.hdr)) = some i2 ∧
        h2.blocks[i2]? = some b2 ∧
        GET_ALLOC b2.hdr = 0 ∧ GET_SIZE b.hdr ≤ GET_SIZE b2.hdr) ∧
      (∀ m c, h.blocks[m]? = some c → GET_ALLOC c.hdr = 1 →
        ∃ m2, idxOf h2 (addrAt h m) = some m2 ∧ h2.blocks[m2]? = some c) := by
  intro h2 hh2
  obtain ⟨hhdrs, hextent, hepisz, hepial, hprev0, hprevS, hprevE, hprevE0, hbmem,
    hbfree, hnodup, hnoadjx⟩ := hW
  have hposh : ∀ c ∈ h.blocks, 0 < blkSize c := wf_pos hhdrs
  have hlt : i < h.blocks.length := (List.getElem?_eq_some_iff.mp hb).1
  have hwfb := wfHdr_fields (hhdrs b (List.getElem?_mem hb))
  have hwfpb := wfHdr_fields (hhdrs pb (List.getElem?_mem hpb))
  have hbx : h.blocks[(i - 1) + 1]? = some b := by
    rw [show i - 1 + 1 = i by omega]
    exact hb
  have hpbfree : GET_ALLOC pb.hdr = 0 := by
    have := hprevS (i - 1) pb b hpb hbx
    rw [hpa] at this
    rcases hwfpb.2.2.2.2.1 with h0 | h1 <;> omega
  have haddrp : addrAt h i = addrAt h (i - 1) + GET_SIZE pb.hdr := by
    have := addrAt_succ hpb
    rw [show i - 1 + 1 = i by omega] at this
    exact this
  have hiW : addrAt h i < W := by
    have := addrAt_le_heapEnd h i
    omega
  have hpbp : csub (addrAt h i) (GET_SIZE pb.hdr) = addrAt h (i - 1) := by
    rw [csub_eq_sub (by omega) hiW]
    omega
  have hsumW := sumSizes_lt_W hextent
  have hle2 := two_sizes_le_sum hpb hbx
  have hstotv : (GET_SIZE b.hdr + GET_SIZE pb.hdr) % W =
      GET_SIZE b.hdr + GET_SIZE pb.hdr := Nat.mod_eq_of_lt (by
    unfold blkSize at hle2
    omega)
  have hstot : (GET_SIZE b.hdr + GET_SIZE pb.hdr) % W =
      sumSizes ((h.blocks.drop (i - 1)).take 2) := by
    rw [drop_take_two hpb hbx, hstotv]
    simp [sumSizes, blkSize]
    omega
  -- the once- and twice-deleted bucket arrays
  have hmemb := hbfree i b hb hfree
  have hd1 : seglist_delete h (addrAt h i) (GET_SIZE b.hdr) =
      { h with buckets := (Function.update h.buckets
          (get_segclass_ind (GET_SIZE b.hdr))
          (removeFirst (h.buckets (get_segclass_ind (GET_SIZE b.hdr))) (addrAt h i))) } :=
    seglist_delete_eq h _ _ (hnodup _) hmemb
  have hanene : addrAt h (i - 1) ≠ addrAt h i := by
    have := addrAt_mono h hposh (show i - 1 < i by omega) (by omega)
    omega
  have hmempb2 : addrAt h (i - 1) ∈
      (seglist_delete h (addrAt h i) (GET_SIZE b.hdr)).buckets
        (get_segclass_ind (GET_SIZE pb.hdr)) := by
    rw [hd1]
    exact mem_del_keep (hbfree (i - 1) pb hpb hpbfree) hanene
  have hnodup1 : ∀ jj, ((seglist_delete h (addrAt h i) (GET_SIZE b.hdr)).buckets jj).Nodup := by
    rw [hd1]
    exact nodup_del hnodup _ _
  have hd2 : seglist_delete (seglist_delete h (addrAt h i) (GET_SIZE b.hdr))
      (addrAt h (i - 1)) (GET_SIZE pb.hdr) =
      { seglist_delete h (addrAt h i) (GET_SIZE b.hdr) with
        buckets := (Function.update
          (seglist_delete h (addrAt h i) (GET_SIZE b.hdr)).buckets
          (get_segclass_ind (GET_SIZE pb.hdr))
          (removeFirst ((seglist_delete h (addrAt h i) (GET_SIZE b.hdr)).buckets
            (get_segclass_ind (GET_SIZE pb.hdr))) (addrAt h (i - 1)))) } :=
    seglist_delete_eq _ _ _ (hnodup1 _) hmempb2
  have honlyb := addr_only_class hposh hbmem hb
  have honlypb := addr_only_class hposh hbmem hpb
  -- apply the generic merge lemma
  have hm := merge_wf h
    (seglist_delete (seglist_delete h (addrAt h i) (GET_SIZE b.hdr))
      (csub (addrAt h i) (GET_SIZE pb.hdr)) (GET_SIZE pb.hdr))
    h2 (i - 1) 2 ((GET_SIZE b.hdr + GET_SIZE pb.hdr) % W) (PREV_ALLOC pb.hdr)
    (fun j => if j < GET_SIZE pb.hdr then pb.data j else b.data (j - GET_SIZE pb.hdr))
    (by omega) (by omega)
    hhdrs hextent hepisz hepial hprev0 hprevS hprevE hbmem hbfree
    ?_ ?_ ?_ ?_ hstot ?_ ?_ ?_ ?_ ?_ ?_ ?_ ?_
  · refine ⟨hm.1, hm.2.1, ⟨i - 1, _, ?_, hm.2.2.2.1, hm.2.2.2.2.2.1, ?_⟩,
      hm.2.2.2.2.2.2⟩
    · rw [hpbp]
      exact hm.2.2.1
    · rw [hm.2.2.2.2.1, hstotv]
      omega
  · -- noadjseg
    intro m b' c' hbm hcm hfr
    rcases hnoadjx m b' c' hbm hcm hfr with hal | hmi | hmi
    · exact Or.inl hal
    · -- m = i: the next block is allocated
      exact Or.inl (hnal c' (by rw [← hmi]; exact hcm))
    · exact Or.inr (by omega)
  · -- segment free
    intro m hm
    interval_cases m
    · exact ⟨pb, by rwa [Nat.add_zero], hpbfree⟩
    · exact ⟨b, hbx, hfree⟩
  · -- left boundary allocated
    intro c h1i1 hcm
    have hpbx : h.blocks[(i - 1 - 1) + 1]? = some pb := by
      rw [show i - 1 - 1 + 1 = i - 1 by omega]
      exact hpb
    rcases (wfHdr_fields (hhdrs c (List.getElem?_mem hcm))).2.2.2.2.1 with hc0 | hc1
    · exfalso
      rcases hnoadjx (i - 1 - 1) c pb hcm hpbx hc0 with hal | hmi | hmi
      · rw [hal] at hpbfree
        cases hpbfree
      · omega
      · omega
    · exact hc1
  · -- right boundary allocated
    intro c hcm
    apply hnal
    rw [show i - 1 + 2 = i + 1 by omega] at hcm
    exact hcm
  · -- pbit
    intro bj hbj
    rw [hpb] at hbj
    cases hbj
    rfl
  · -- hsub
    intro jj x hx
    rw [hpbp, hd2] at hx
    have hx1 := mem_del_sub hx
    rw [hd1] at hx1
    exact mem_del_sub hx1
  · -- hnodup2
    intro jj
    rw [hpbp, hd2]
    exact nodup_del hnodup1 _ _ jj
  · -- hkeep
    intro jj x hx hne
    rw [hpbp, hd2]
    apply mem_del_keep
    · rw [hd1]
      apply mem_del_keep hx
      have := hne 1 (by omega)
      rwa [show i - 1 + 1 = i by omega] at this
    · have := hne 0 (by omega)
      rwa [Nat.add_zero] at this
  · -- hgone
    intro jj m hm
    rw [hpbp, hd2]
    interval_cases m
    · rw [Nat.add_zero]
      apply not_mem_del_self hnodup1
      intro jj2 hmem2
      rw [hd1] at hmem2
      exact honlypb jj2 (mem_del_sub hmem2)
    · rw [show i - 1 + 1 = i by omega]
      apply not_mem_del_of_not_mem
      rw [hd1]
      exact not_mem_del_self hnodup honlyb
  · -- hP1
    rw [hh2]
    rfl
  · -- hP2
    rw [hh2]
    rfl
  · -- hP3
    rw [hh2, hpbp]
    rfl

/-- The merge-with-both arm of `coalesce` (prev free, next free). -/
theorem coalesce_both_arm (h : Heap) (i : Nat) (b pb nb : Blk)
    (hW : WfX h i) (hb : h.blocks[i]? = some b) (hfree : GET_ALLOC b.hdr = 0)
    (h1i : 1 ≤ i) (hpb : h.blocks[i - 1]? = some pb)
    (hnb : h.blocks[i + 1]? = some nb) (hnbfree : GET_ALLOC nb.hdr = 0)
    (hpa : PREV_ALLOC b.hdr = 0) :
    ∀ h2, h2 = seglist_add
        { seglist_delete (seglist_delete (seglist_delete h (addrAt h i) (GET_SIZE b.hdr))
            (csub (addrAt h i) (GET_SIZE pb.hdr)) (GET_SIZE pb.hdr))
            (addrAt h i + GET_SIZE b.hdr) (GET_SIZE nb.hdr) with
          blocks := splice (seglist_delete (seglist_delete (seglist_delete h (addrAt h i)
              (GET_SIZE b.hdr)) (csub (addrAt h i) (GET_SIZE pb.hdr)) (GET_SIZE pb.hdr))
              (addrAt h i + GET_SIZE b.hdr) (GET_SIZE nb.hdr)).blocks (i - 1) 3
            [⟨PACK ((GET_SIZE b.hdr + GET_SIZE pb.hdr + GET_SIZE nb.hdr) % W)
                (PREV_ALLOC pb.hdr),
              fun j =>
                if j < GET_SIZE pb.hdr then pb.data j
                else if j < GET_SIZE pb.hdr + GET_SIZE b.hdr then b.data (j - GET_SIZE pb.hdr)
                else nb.data (j - GET_SIZE pb.hdr - GET_SIZE b.hdr)⟩] }
        (csub (addrAt h i) (GET_SIZE pb.hdr))
        ((GET_SIZE b.hdr + GET_SIZE pb.hdr + GET_SIZE nb.hdr) % W) →
      Wf h2 ∧ heapEnd h2 = heapEnd h ∧
      (∃ i2 b2, idxOf h2 (csub (addrAt h i) (GET_SIZE pb.hdr)) = some i2 ∧
        h2.blocks[i2]? = some b2 ∧
        GET_ALLOC b2.hdr = 0 ∧ GET_SIZE b.hdr ≤ GET_SIZE b2.hdr) ∧
      (∀ m c, h.blocks[m]? = some c → GET_ALLOC c.hdr = 1 →
        ∃ m2, idxOf h2 (addrAt h m) = some m2 ∧ h2.blocks[m2]? = some c) := by
  intro h2 hh2
  obtain ⟨hhdrs, hextent, hepisz, hepial, hprev0, hprevS, hprevE, hprevE0, hbmem,
    hbfree, hnodup, hnoadjx⟩ := hW
  have hposh : ∀ c ∈ h.blocks, 0 < blkSize c := wf_pos hhdrs
  have hlt : i < h.blocks.length := (List.getElem?_eq_some_iff.mp hb).1
  have hlt1 : i + 1 < h.blocks.length := (List.getElem?_eq_some_iff.mp hnb).1
  have hwfb := wfHdr_fields (hhdrs b (List.getElem?_mem hb))
  have hwfpb := wfHdr_fields (hhdrs pb (List.getElem?_mem hpb))
  have hwfnb := wfHdr_fields (hhdrs nb (List.getElem?_mem hnb))
  have hbx : h.blocks[(i - 1) + 1]? = some b := by
    rw [show i - 1 + 1 = i by omega]
    exact hb
  have hnbx : h.blocks[(i - 1) + 2]? = some nb := by
    rw [show i - 1 + 2 = i + 1 by omega]
    exact hnb
  have hpbfree : GET_ALLOC pb.hdr = 0 := by
    have := hprevS (i - 1) pb b hpb hbx
    rw [hpa] at this
    rcases hwfpb.2.2.2.2.1 with h0 | h1 <;> omega
  have haddrp : addrAt h i = addrAt h (i - 1) + GET_SIZE pb.hdr := by
    have := addrAt_succ hpb
    rw [show i - 1 + 1 = i by omega] at this
    exact this
  have haddr1 : addrAt h (i + 1) = addrAt h i + GET_SIZE b.hdr := addrAt_succ hb
  have hiW : addrAt h i < W := by
    have := addrAt_le_heapEnd h i
    omega
  have hpbp : csub (addrAt h i) (GET_SIZE pb.hdr) = addrAt h (i - 1) := by
    rw [csub_eq_sub (by omega) hiW]
    omega
  have hsumW := sumSizes_lt_W hextent
  have hle3 := three_sizes_le_sum hpb hbx hnbx
  have hstotv : (GET_SIZE b.hdr + GET_SIZE pb.hdr + GET_SIZE nb.hdr) % W =
      GET_SIZE b.hdr + GET_SIZE pb.hdr + GET_SIZE nb.hdr := Nat.mod_eq_of_lt (by
    unfold blkSize at hle3
    omega)
  have hstot : (GET_SIZE b.hdr + GET_SIZE pb.hdr + GET_SIZE nb.hdr) % W =
      sumSizes ((h.blocks.drop (i - 1)).take 3) := by
    rw [drop_take_three hpb hbx hnbx, hstotv]
    simp [sumSizes, blkSize]
    omega
  -- address distinctness
  have hne_pi : addrAt h (i - 1) ≠ addrAt h i := by
    have := addrAt_mono h hposh (show i - 1 < i by omega) (by omega)
    omega
  have hne_in : addrAt h i ≠ addrAt h (i + 1) := by
    have := addrAt_mono h hposh (Nat.lt_succ_self i) (by omega)
    omega
  have hne_pn : addrAt h (i - 1) ≠ addrAt h (i + 1) := by
    have := addrAt_mono h hposh (show i - 1 < i + 1 by omega) (by omega)
    omega
  -- the successively deleted bucket arrays
  have hmemb := hbfree i b hb hfree
  have hd1 : seglist_delete h (addrAt h i) (GET_SIZE b.hdr) =
      { h with buckets := (Function.update h.buckets
          (get_segclass_ind (GET_SIZE b.hdr))
          (removeFirst (h.buckets (get_segclass_ind (GET_SIZE b.hdr))) (addrAt h i))) } :=
    seglist_delete_eq h _ _ (hnodup _) hmemb
  have hmempb2 : addrAt h (i - 1) ∈
      (seglist_delete h (addrAt h i) (GET_SIZE b.hdr)).buckets
        (get_segclass_ind (GET_SIZE pb.hdr)) := by
    rw [hd1]
    exact mem_del_keep (hbfree (i - 1) pb hpb hpbfree) hne_pi
  have hnodup1 : ∀ jj, ((seglist_delete h (addrAt h i) (GET_SIZE b.hdr)).buckets jj).Nodup := by
    rw [hd1]
    exact nodup_del hnodup _ _
  have hd2 : seglist_delete (seglist_delete h (addrAt h i) (GET_SIZE b.hdr))
      (addrAt h (i - 1)) (GET_SIZE pb.hdr) =
      { seglist_delete h (addrAt h i) (GET_SIZE b.hdr) with
        buckets := (Function.update
          (seglist_delete h (addrAt h i) (GET_SIZE b.hdr)).buckets
          (get_segclass_ind (GET_SIZE pb.hdr))
          (removeFirst ((seglist_delete h (addrAt h i) (GET_SIZE b.hdr)).buckets
            (get_segclass_ind (GET_SIZE pb.hdr))) (addrAt h (i - 1)))) } :=
    seglist_delete_eq _ _ _ (hnodup1 _) hmempb2
  have hmemnb3 : addrAt h (i + 1) ∈
      (seglist_delete (seglist_delete h (addrAt h i) (GET_SIZE b.hdr))
        (addrAt h (i - 1)) (GET_SIZE pb.hdr)).buckets
        (get_segclass_ind (GET_SIZE nb.hdr)) := by
    rw [hd2, hd1]
    exact mem_del_keep (mem_del_keep (hbfree (i + 1) nb hnb hnbfree)
      (Ne.symm hne_in)) (Ne.symm hne_pn)
  have hnodup2x : ∀ jj, ((seglist_delete (seglist_delete h (addrAt h i) (GET_SIZE b.hdr))
      (addrAt h (i - 1)) (GET_SIZE pb.hdr)).buckets jj).Nodup := by
    rw [hd2]
    exact nodup_del hnodup1 _ _
  have hd3 : seglist_delete (seglist_delete (seglist_delete h (addrAt h i) (GET_SIZE b.hdr))
      (addrAt h (i - 1)) (GET_SIZE pb.hdr)) (addrAt h (i + 1)) (GET_SIZE nb.hdr) =
      { seglist_delete (seglist_delete h (addrAt h i) (GET_SIZE b.hdr))
          (addrAt h (i - 1)) (GET_SIZE pb.hdr) with
        buckets := (Function.update
          (seglist_delete (seglist_delete h (addrAt h i) (GET_SIZE b.hdr))
            (addrAt h (i - 1)) (GET_SIZE pb.hdr)).buckets
          (get_segclass_ind (GET_SIZE nb.hdr))
          (removeFirst ((seglist_delete (seglist_delete h (addrAt h i) (GET_SIZE b.hdr))
            (addrAt h (i - 1)) (GET_SIZE pb.hdr)).buckets
            (get_segclass_ind (GET_SIZE nb.hdr))) (addrAt h (i + 1)))) } :=
    seglist_delete_eq _ _ _ (hnodup2x _) hmemnb3
  have honlyb := addr_only_class hposh hbmem hb
  have honlypb := addr_only_class hposh hbmem hpb
  have honlynb := addr_only_class hposh hbmem hnb
  -- apply the generic merge lemma
  have hm := merge_wf h
    (seglist_delete (seglist_delete (seglist_delete h (addrAt h i) (GET_SIZE b.hdr))
      (csub (addrAt h i) (GET_SIZE pb.hdr)) (GET_SIZE pb.hdr))
      (addrAt h i + GET_SIZE b.hdr) (GET_SIZE nb.hdr))
    h2 (i - 1) 3 ((GET_SIZE b.hdr + GET_SIZE pb.hdr + GET_SIZE nb.hdr) % W)
    (PREV_ALLOC pb.hdr)
    (fun j =>
      if j < GET_SIZE pb.hdr then pb.data j
      else if j < GET_SIZE pb.hdr + GET_SIZE b.hdr then b.data (j - GET_SIZE pb.hdr)
      else nb.data (j - GET_SIZE pb.hdr - GET_SIZE b.hdr))
    (by omega) (by omega)
    hhdrs hextent hepisz hepial hprev0 hprevS hprevE hbmem hbfree
    ?_ ?_ ?_ ?_ hstot ?_ ?_ ?_ ?_ ?_ ?_ ?_ ?_
  · refine ⟨hm.1, hm.2.1, ⟨i - 1, _, ?_, hm.2.2.2.1, hm.2.2.2.2.2.1, ?_⟩,
      hm.2.2.2.2.2.2⟩
    · rw [hpbp]
      exact hm.2.2.1
    · rw [hm.2.2.2.2.1, hstotv]
      omega
  · -- noadjseg
    intro m b' c' hbm hcm hfr
    rcases hnoadjx m b' c' hbm hcm hfr with hal | hmi | hmi
    · exact Or.inl hal
    · exact Or.inr (by omega)
    · exact Or.inr (by omega)
  · -- segment free
    intro m hm
    interval_cases m
    · exact ⟨pb, by rwa [Nat.add_zero], hpbfree⟩
    · exact ⟨b, hbx, hfree⟩
    · exact ⟨nb, hnbx, hnbfree⟩
  · -- left boundary allocated
    intro c h1i1 hcm
    have hpbx : h.blocks[(i - 1 - 1) + 1]? = some pb := by
      rw [show i - 1 - 1 + 1 = i - 1 by omega]
      exact hpb
    rcases (wfHdr_fields (hhdrs c (List.getElem?_mem hcm))).2.2.2.2.1 with hc0 | hc1
    · exfalso
      rcases hnoadjx (i - 1 - 1) c pb hcm hpbx hc0 with hal | hmi | hmi
      · rw [hal] at hpbfree
        cases hpbfree
      · omega
      · omega
    · exact hc1
  · -- right boundary allocated
    intro c hcm
    rw [show i - 1 + 3 = i + 1 + 1 by omega] at hcm
    rcases hnoadjx (i + 1) nb c hnb hcm hnbfree with hal | hmi | hmi
    · exact hal
    · omega
    · omega
  · -- pbit
    intro bj hbj
    rw [hpb] at hbj
    cases hbj
    rfl
  · -- hsub
    intro jj x hx
    rw [hpbp] at hx
    rw [← haddr1, hd3] at hx
    have hx2 := mem_del_sub hx
    rw [hd2] at hx2
    have hx1 := mem_del_sub hx2
    rw [hd1] at hx1
    exact mem_del_sub hx1
  · -- hnodup2
    intro jj
    rw [hpbp, ← haddr1, hd3]
    exact nodup_del hnodup2x _ _ jj
  · -- hkeep
    intro jj x hx hne
    rw [hpbp, ← haddr1, hd3]
    apply mem_del_keep
    · rw [hd2]
      apply mem_del_keep
      · rw [hd1]
        apply mem_del_keep hx
        have := hne 1 (by omega)
        rwa [show i - 1 + 1 = i by omega] at this
      · have := hne 0 (by omega)
        rwa [Nat.add_zero] at this
    · have := hne 2 (by omega)
      rwa [show i - 1 + 2 = i + 1 by omega] at this
  · -- hgone
    intro jj m hm
    rw [hpbp, ← haddr1, hd3]
    interval_cases m
    · rw [Nat.add_zero]
      apply not_mem_del_of_not_mem
      rw [hd2]
      apply not_mem_del_self hnodup1
      intro jj2 hmem2
      rw [hd1] at hmem2
      exact honlypb jj2 (mem_del_sub hmem2)
    · rw [show i - 1 + 1 = i by omega]
      apply not_mem_del_of_not_mem
      rw [hd2]
      apply not_mem_del_of_not_mem
      rw [hd1]
      exact not_mem_del_self hnodup honlyb
    · rw [show i - 1 + 2 = i + 1 by omega]
      apply not_mem_del_self hnodup2x
      intro jj2 hmem2
      rw [hd2] at hmem2
      have hmem1 := mem_del_sub hmem2
      rw [hd1] at hmem1
      exact honlynb jj2 (mem_del_sub hmem1)
  · -- hP1
    rw [hh2, hpbp, ← haddr1]
    rfl
  · -- hP2
    rw [hh2]
    rfl
  · -- hP3
    rw [hh2, hpbp]
    rfl

/-- The no-merge arm of `coalesce` (both neighbours allocated): the heap is
    already well formed. -/
theorem coalesce_triv_arm (h : Heap) (i : Nat) (b : Blk)
    (hW : WfX h i) (hb : h.blocks[i]? = some b) (hfree : GET_ALLOC b.hdr = 0)
    (hprevok : ∀ c, 1 ≤ i → h.blocks[i - 1]? = some c → GET_ALLOC c.hdr = 1)
    (hnextok : ∀ c, h.blocks[i + 1]? = some c → GET_ALLOC c.hdr = 1) :
    Wf h ∧ heapEnd h = heapEnd h ∧
    (∃ i2 b2, idxOf h (addrAt h i) = some i2 ∧ h.blocks[i2]? = some b2 ∧
      GET_ALLOC b2.hdr = 0 ∧ GET_SIZE b.hdr ≤ GET_SIZE b2.hdr) ∧
    (∀ m c, h.blocks[m]? = some c → GET_ALLOC c.hdr = 1 →
      ∃ m2, idxOf h (addrAt h m) = some m2 ∧ h.blocks[m2]? = some c) := by
  have hposh : ∀ c ∈ h.blocks, 0 < blkSize c := wf_pos hW.hdrs
  have hlt : i < h.blocks.length := (List.getElem?_eq_some_iff.mp hb).1
  refine ⟨⟨hW.hdrs, hW.extent, hW.episz, hW.epial, hW.prev0, hW.prevS, hW.prevE,
      hW.prevE0, hW.bmem, hW.bfree, hW.bnodup, ?_⟩, rfl,
    ⟨i, b, idxOf_addrAt h hposh hlt, hb, hfree, Nat.le_refl _⟩, ?_⟩
  · intro m b' c' hbm hcm hfr
    rcases hW.noadjx m b' c' hbm hcm hfr with hal | hmi | hmi
    · exact hal
    · exact hnextok c' (by rw [← hmi]; exact hcm)
    · exfalso
      have hbm2 : h.blocks[i - 1]? = some b' := by
        rw [show i - 1 = m by omega]
        exact hbm
      have := hprevok b' (by omega) hbm2
      rw [this] at hfr
      cases hfr
  · intro m c hbm hal
    have hmlt : m < h.blocks.length := (List.getElem?_eq_some_iff.mp hbm).1
    exact ⟨m, idxOf_addrAt h hposh hmlt, hbm⟩

/-- `coalesce` at a free block of an otherwise well-formed heap restores full
    well-formedness, preserves the extent, returns (the address of) a free
    block at least as large as the input block, and moves no allocated
    block. -/
theorem coalesce_wf {h : Heap} {i : Nat} {b : Blk}
    (hW : WfX h i) (hb : h.blocks[i]? = some b) (hfree : GET_ALLOC b.hdr = 0) :
    Wf (coalesce h (addrAt h i)).1 ∧
    heapEnd (coalesce h (addrAt h i)).1 = heapEnd h ∧
    (∃ i2 b2, idxOf (coalesce h (addrAt h i)).1 (coalesce h (addrAt h i)).2 = some i2 ∧
      (coalesce h (addrAt h i)).1.blocks[i2]? = some b2 ∧ GET_ALLOC b2.hdr = 0 ∧
      GET_SIZE b.hdr ≤ GET_SIZE b2.hdr) ∧
    (∀ m c, h.blocks[m]? = some c → GET_ALLOC c.hdr = 1 →
      ∃ m2, idxOf (coalesce h (addrAt h i)).1 (addrAt h m) = some m2 ∧
        (coalesce h (addrAt h i)).1.blocks[m2]? = some c) := by
  have hposh : ∀ c ∈ h.blocks, 0 < blkSize c := wf_pos hW.hdrs
  have hlt : i < h.blocks.length := (List.getElem?_eq_some_iff.mp hb).1
  have hidx : idxOf h (addrAt h i) = some i := idxOf_addrAt h hposh hlt
  have hwfb := wfHdr_fields (hW.hdrs b (List.getElem?_mem hb))
  have hprevok2 : PREV_ALLOC b.hdr = 2 →
      ∀ c, 1 ≤ i → h.blocks[i - 1]? = some c → GET_ALLOC c.hdr = 1 := by
    intro hpa c h1i hcm
    have hbm2 : h.blocks[(i - 1) + 1]? = some b := by
      rw [show i - 1 + 1 = i by omega]
      exact hb
    have := hW.prevS (i - 1) c b hcm hbm2
    rw [hpa] at this
    rcases (wfHdr_fields (hW.hdrs c (List.getElem?_mem hcm))).2.2.2.2.1 with h0 | h1
    · omega
    · exact h1
  have hine0 : PREV_ALLOC b.hdr = 0 → i ≠ 0 := by
    intro hpa hi0
    have := hW.prev0 b (by rw [← hi0]; exact hb)
    omega
  unfold coalesce
  simp only [hidx, hb]
  rcases hnbq : h.blocks[i + 1]? with _ | nb
  · -- the block is last: the "next" header is the epilogue, alloc = 1
    simp only [hnbq]
    have hnal : ∀ c, h.blocks[i + 1]? = some c → GET_ALLOC c.hdr = 1 := by
      intro c hc
      rw [hnbq] at hc
      cases hc
    rcases hwfb.2.2.2.1 with hpa | hpa
    · -- prev free: merge with the previous block
      rw [if_neg (by rw [hpa]; simp), if_neg (by rw [hpa]; simp),
        if_pos ⟨hpa, by rw [hW.epial]; simp⟩, if_neg (hine0 hpa)]
      have h1i : 1 ≤ i := Nat.one_le_iff_ne_zero.mpr (hine0 hpa)
      have hplt : i - 1 < h.blocks.length := by omega
      have hpbq : h.blocks[i - 1]? = some h.blocks[i - 1] :=
        List.getElem?_eq_getElem hplt
      simp only [hpbq]
      exact coalesce_prev_arm h i b (h.blocks[i - 1]) hW hb hfree h1i hpbq hnal hpa _ rfl
    · -- prev allocated: nothing to merge
      rw [if_pos ⟨by rw [hpa]; simp, by rw [hW.epial]; simp⟩]
      exact coalesce_triv_arm h i b hW hb hfree (hprevok2 hpa) hnal
  · -- a real next block exists
    simp only [hnbq]
    have hwfnb := wfHdr_fields (hW.hdrs nb (List.getElem?_mem hnbq))
    rcases hwfb.2.2.2.1 with hpa | hpa <;>
      rcases hwfnb.2.2.2.2.1 with hna | hna
    · -- prev free, next free: merge with both
      rw [if_neg (by rw [hpa]; simp), if_neg (by rw [hpa]; simp),
        if_neg (by rw [hna]; simp), if_neg (hine0 hpa)]
      have h1i : 1 ≤ i := Nat.one_le_iff_ne_zero.mpr (hine0 hpa)
      have hplt : i - 1 < h.blocks.length := by omega
      have hpbq : h.blocks[i - 1]? = some h.blocks[i - 1] :=
        List.getElem?_eq_getElem hplt
      simp only [hpbq]
      exact coalesce_both_arm h i b (h.blocks[i - 1]) nb hW hb hfree h1i hpbq hnbq hna
        hpa _ rfl
    · -- prev free, next allocated: merge with the previous block
      rw [if_neg (by rw [hpa]; simp), if_neg (by rw [hpa]; simp),
        if_pos ⟨hpa, by rw [hna]; simp⟩, if_neg (hine0 hpa)]
      have hnal : ∀ c, h.blocks[i + 1]? = some c → GET_ALLOC c.hdr = 1 := by
        intro c hc
        rw [hnbq] at hc
        cases hc
        exact hna
      have h1i : 1 ≤ i := Nat.one_le_iff_ne_zero.mpr (hine0 hpa)
      have hplt : i - 1 < h.blocks.length := by omega
      have hpbq : h.blocks[i - 1]? = some h.blocks[i - 1] :=
        List.getElem?_eq_getElem hplt
      simp only [hpbq]
      exact coalesce_prev_arm h i b (h.blocks[i - 1]) hW hb hfree h1i hpbq hnal hpa _ rfl
    · -- prev allocated, next free: merge with the next block
      rw [if_neg (by rw [hna]; simp), if_pos ⟨by rw [hpa]; simp, hna⟩]
      exact coalesce_next_arm h i b nb hW hb hfree hnbq hna hpa _ rfl
    · -- both allocated: nothing to merge
      rw [if_pos ⟨by rw [hpa]; simp, by rw [hna]; simp⟩]
      have hnal : ∀ c, h.blocks[i + 1]? = some c → GET_ALLOC c.hdr = 1 := by
        intro c hc
        rw [hnbq] at hc
        cases hc
        exact hna
      exact coalesce_triv_arm h i b hW hb hfree (hprevok2 hpa) hnal

theorem allocPreserved_trans {h1 h2 h3 : Heap} (hA : AllocPreserved h1 h2)
    (hB : AllocPreserved h2 h3) : AllocPreserved h1 h3 := by
  intro m c hbm hal
  obtain ⟨m2, c2, hidx2, hb2, hsz2, hal2, hdat2⟩ := hA m c hbm hal
  obtain ⟨m3, c3, hidx3, hb3, hsz3, hal3, hdat3⟩ := hB m2 c2 hb2 hal2
  rcases idxOf_sound hidx2 with ⟨-, haddr2⟩
  refine ⟨m3, c3, ?_, hb3, by rw [hsz3, hsz2], hal3, by rw [hdat3, hdat2]⟩
  rwa [haddr2] at hidx3

theorem allocPreserved_of_frame {h h2 : Heap}
    (hF : ∀ m c, h.blocks[m]? = some c → GET_ALLOC c.hdr = 1 →
      ∃ m2, idxOf h2 (addrAt h m) = some m2 ∧ h2.blocks[m2]? = some c) :
    AllocPreserved h h2 := by
  intro m c hbm hal
  obtain ⟨m2, hi, hbx⟩ := hF m c hbm hal
  exact ⟨m2, c, hi, hbx, rfl, hal, rfl⟩

/-- The splitting arm of `place` (remainder at least `2*DSIZE`): the front
    becomes an allocated block of `asize` bytes, the rest a free block that
    replaces the original in its (new) size class. -/
theorem place_split_arm (h : Heap) (i : Nat) (b : Blk) (asize : Nat)
    (hW : Wf h) (hb : h.blocks[i]? = some b) (hfree : GET_ALLOC b.hdr = 0)
    (ha32 : 32 ≤ asize) (ha16 : asize % 16 = 0) (hfit : asize ≤ GET_SIZE b.hdr)
    (hrem32 : 32 ≤ GET_SIZE b.hdr - asize) :
    ∀ h2, h2 = seglist_add
        { seglist_delete h (addrAt h i) (GET_SIZE b.hdr) with
          blocks := splice (seglist_delete h (addrAt h i) (GET_SIZE b.hdr)).blocks i 1
            [⟨PACK asize (PACK (PREV_ALLOC b.hdr) 1), b.data⟩,
             ⟨PACK (GET_SIZE b.hdr - asize) 2, fun j => b.data (asize + j)⟩] }
        (addrAt h i + asize) (GET_SIZE b.hdr - asize) →
      Wf h2 ∧ heapEnd h2 = heapEnd h ∧
      (∃ c2, idxOf h2 (addrAt h i) = some i ∧ h2.blocks[i]? = some c2 ∧
        GET_ALLOC c2.hdr = 1 ∧ asize ≤ GET_SIZE c2.hdr ∧ c2.data = b.data) ∧
      AllocPreserved h h2 := by
  intro h2 hh2
  have hlt : i < h.blocks.length := (List.getElem?_eq_some_iff.mp hb).1
  have hwfb := wfHdr_fields (hW.hdrs b (List.getElem?_mem hb))
  have hposh : ∀ c ∈ h.blocks, 0 < blkSize c := wf_pos hW.hdrs
  have hp := hwfb.2.2.2.1
  have haW : asize < W := by omega
  have hrem16 : (GET_SIZE b.hdr - asize) % 16 = 0 := by omega
  have hremW : GET_SIZE b.hdr - asize < W := by omega
  have hP1 : h2.blocks = splice h.blocks i 1
      [⟨PACK asize (PACK (PREV_ALLOC b.hdr) 1), b.data⟩,
       ⟨PACK (GET_SIZE b.hdr - asize) 2, fun j => b.data (asize + j)⟩] := by
    rw [hh2]
    rfl
  have hP2 : h2.epiHdr = h.epiHdr := by
    rw [hh2]
    rfl
  have hP3 : h2.buckets = Function.update
      ((seglist_delete h (addrAt h i) (GET_SIZE b.hdr)).buckets)
      (get_segclass_ind (GET_SIZE b.hdr - asize))
      ((addrAt h i + asize) ::
        (seglist_delete h (addrAt h i) (GET_SIZE b.hdr)).buckets
          (get_segclass_ind (GET_SIZE b.hdr - asize))) := by
    rw [hh2]
    rfl
  -- header facts for the two new blocks
  have hhd : Blk.hdr ⟨PACK asize (PACK (PREV_ALLOC b.hdr) 1), b.data⟩ =
      asize ||| PREV_ALLOC b.hdr ||| 1 := by
    show PACK asize (PACK (PREV_ALLOC b.hdr) 1) = _
    unfold PACK
    exact (Nat.lor_assoc ..).symm
  have htl : Blk.hdr ⟨PACK (GET_SIZE b.hdr - asize) 2, fun j => b.data (asize + j)⟩ =
      (GET_SIZE b.hdr - asize) ||| 2 ||| 0 := by
    show PACK (GET_SIZE b.hdr - asize) 2 = _
    unfold PACK
    rw [Nat.or_zero]
  have hfld_hd := pack_fields (s := asize) (p := PREV_ALLOC b.hdr) (a := 1)
    ha16 haW hp (Or.inr rfl)
  have hfld_tl := pack_fields (s := GET_SIZE b.hdr - asize) (p := 2) (a := 0)
    hrem16 hremW (Or.inr rfl) (Or.inl rfl)
  have hwf_hd : WfHdr (Blk.hdr ⟨PACK asize (PACK (PREV_ALLOC b.hdr) 1), b.data⟩) :=
    ⟨asize, PREV_ALLOC b.hdr, 1, ha32, ha16, haW, hp, Or.inr rfl, hhd⟩
  have hwf_tl : WfHdr (Blk.hdr
      ⟨PACK (GET_SIZE b.hdr - asize) 2, fun j => b.data (asize + j)⟩) :=
    ⟨GET_SIZE b.hdr - asize, 2, 0, hrem32, hrem16, hremW, Or.inr rfl, Or.inl rfl, htl⟩
  have hsz_hd : GET_SIZE (Blk.hdr ⟨PACK asize (PACK (PREV_ALLOC b.hdr) 1), b.data⟩) =
      asize := by
    rw [hhd]
    exact hfld_hd.1
  have hal_hd : GET_ALLOC (Blk.hdr ⟨PACK asize (PACK (PREV_ALLOC b.hdr) 1), b.data⟩) =
      1 := by
    rw [hhd]
    exact hfld_hd.2.2
  have hpr_hd : PREV_ALLOC (Blk.hdr ⟨PACK asize (PACK (PREV_ALLOC b.hdr) 1), b.data⟩) =
      PREV_ALLOC b.hdr := by
    rw [hhd]
    exact hfld_hd.2.1
  have hsz_tl : GET_SIZE (Blk.hdr
      ⟨PACK (GET_SIZE b.hdr - asize) 2, fun j => b.data (asize + j)⟩) =
      GET_SIZE b.hdr - asize := by
    rw [htl]
    exact hfld_tl.1
  have hal_tl : GET_ALLOC (Blk.hdr
      ⟨PACK (GET_SIZE b.hdr - asize) 2, fun j => b.data (asize + j)⟩) = 0 := by
    rw [htl]
    exact hfld_tl.2.2
  have hpr_tl : PREV_ALLOC (Blk.hdr
      ⟨PACK (GET_SIZE b.hdr - asize) 2, fun j => b.data (asize + j)⟩) = 2 := by
    rw [htl]
    exact hfld_tl.2.1
  have hbsz_hd : blkSize (⟨PACK asize (PACK (PREV_ALLOC b.hdr) 1), b.data⟩ : Blk) =
      asize := hsz_hd
  have hbsz_tl : blkSize
      (⟨PACK (GET_SIZE b.hdr - asize) 2, fun j => b.data (asize + j)⟩ : Blk) =
      GET_SIZE b.hdr - asize := hsz_tl
  -- access and address maps of the spliced block list
  have hlen2 : h2.blocks.length = h.blocks.length + 1 := by
    rw [hP1, splice_length _ (by omega)]
    simp
  have hget_low : ∀ {m : Nat}, m < i → h2.blocks[m]? = h.blocks[m]? := by
    intro m hm
    rw [hP1]
    exact splice_get_low hm (by omega)
  have hget_hd : h2.blocks[i]? =
      some ⟨PACK asize (PACK (PREV_ALLOC b.hdr) 1), b.data⟩ := by
    rw [hP1]
    have := @splice_get_mid h.blocks i 1 0
      [⟨PACK asize (PACK (PREV_ALLOC b.hdr) 1), b.data⟩,
        ⟨PACK (GET_SIZE b.hdr - asize) 2, fun j => b.data (asize + j)⟩]
      (by simp) (by omega)
    simpa using this
  have hget_tl : h2.blocks[i + 1]? =
      some ⟨PACK (GET_SIZE b.hdr - asize) 2, fun j => b.data (asize + j)⟩ := by
    rw [hP1]
    have := @splice_get_mid h.blocks i 1 1
      [⟨PACK asize (PACK (PREV_ALLOC b.hdr) 1), b.data⟩,
        ⟨PACK (GET_SIZE b.hdr - asize) 2, fun j => b.data (asize + j)⟩]
      (by simp) (by omega)
    simpa using this
  have hget_high : ∀ t : Nat, h2.blocks[i + 2 + t]? = h.blocks[i + 1 + t]? := by
    intro t
    rw [hP1]
    have := @splice_get_high h.blocks i 1 t
      [⟨PACK asize (PACK (PREV_ALLOC b.hdr) 1), b.data⟩,
        ⟨PACK (GET_SIZE b.hdr - asize) 2, fun j => b.data (asize + j)⟩]
      (by omega)
    simpa using this
  have haddr_low : ∀ {m : Nat}, m ≤ i → addrAt h2 m = addrAt h m := by
    intro m hm
    show heapBase + sumSizes (h2.blocks.take m) = heapBase + sumSizes (h.blocks.take m)
    rw [hP1, splice_take_low hm (by omega)]
  have htake1 : (splice h.blocks i 1
      [⟨PACK asize (PACK (PREV_ALLOC b.hdr) 1), b.data⟩,
       ⟨PACK (GET_SIZE b.hdr - asize) 2, fun j => b.data (asize + j)⟩]).take (i + 1) =
      h.blocks.take i ++ [⟨PACK asize (PACK (PREV_ALLOC b.hdr) 1), b.data⟩] := by
    have := @splice_take_mid h.blocks i 1 1
      [⟨PACK asize (PACK (PREV_ALLOC b.hdr) 1), b.data⟩,
        ⟨PACK (GET_SIZE b.hdr - asize) 2, fun j => b.data (asize + j)⟩]
      (by simp) (by omega)
    simpa using this
  have haddr_tl : addrAt h2 (i + 1) = addrAt h i + asize := by
    show heapBase + sumSizes (h2.blocks.take (i + 1)) =
      heapBase + sumSizes (h.blocks.take i) + asize
    rw [hP1, htake1, sumSizes_append]
    have : sumSizes [(⟨PACK asize (PACK (PREV_ALLOC b.hdr) 1), b.data⟩ : Blk)] =
        asize := by
      simp [sumSizes, hbsz_hd]
    omega
  have haddr_high : ∀ {m : Nat}, i + 2 ≤ m → addrAt h2 m = addrAt h (m - 1) := by
    intro m hm
    show heapBase + sumSizes (h2.blocks.take m) =
      heapBase + sumSizes (h.blocks.take (m - 1))
    rw [hP1, splice_take_high (by omega) (by simpa using hm)]
    have hdec : h.blocks.take (m - 1) =
        h.blocks.take i ++ b :: (h.blocks.drop (i + 1)).take (m - 2 - i) := by
      rw [show m - 1 = i + (m - 1 - i) by omega, List.take_add]
      congr 1
      rw [List.drop_eq_getElem_cons hlt,
        show m - 1 - i = (m - 2 - i) + 1 by omega, List.take_succ_cons]
      congr 1
      exact (List.getElem?_eq_some_iff.mp hb).2
    rw [hdec, show m - i - [(⟨PACK asize (PACK (PREV_ALLOC b.hdr) 1), b.data⟩ : Blk),
        ⟨PACK (GET_SIZE b.hdr - asize) 2, fun j => b.data (asize + j)⟩].length =
        m - 2 - i by simp; omega]
    simp only [sumSizes_append, sumSizes_cons, sumSizes_nil]
    have hsb : blkSize b = GET_SIZE b.hdr := rfl
    omega
  have hend : heapEnd h2 = heapEnd h := by
    have hx : addrAt h2 (h.blocks.length + 1) = addrAt h (h.blocks.length + 1 - 1) :=
      haddr_high (by omega)
    rw [show h.blocks.length + 1 - 1 = h.blocks.length by omega, addrAt_length,
      show h.blocks.length + 1 = h2.blocks.length from hlen2.symm, addrAt_length] at hx
    exact hx
  have hmem2 : ∀ c ∈ h2.blocks, WfHdr c.hdr := by
    intro c hc
    rw [hP1] at hc
    unfold splice at hc
    rcases List.mem_append.mp hc with hc1 | hc1
    · rcases List.mem_append.mp hc1 with hc3 | hc3
      · exact hW.hdrs c (List.take_subset _ _ hc3)
      · rcases List.mem_cons.mp hc3 with rfl | hc4
        · exact hwf_hd
        · rcases List.mem_singleton.mp hc4 with rfl
          exact hwf_tl
    · exact hW.hdrs c (List.drop_subset _ _ hc1)
  have hpos2 : ∀ c ∈ h2.blocks, 0 < blkSize c := wf_pos (h := h2) hmem2
  have hidx2 : ∀ {m : Nat}, m < h2.blocks.length → idxOf h2 (addrAt h2 m) = some m := by
    intro m hm
    exact idxOf_addrAt h2 hpos2 hm
  -- the deleted bucket array
  have hmemb := hW.bfree i b hb hfree
  have hd1 : seglist_delete h (addrAt h i) (GET_SIZE b.hdr) =
      { h with buckets := (Function.update h.buckets
          (get_segclass_ind (GET_SIZE b.hdr))
          (removeFirst (h.buckets (get_segclass_ind (GET_SIZE b.hdr))) (addrAt h i))) } :=
    seglist_delete_eq h _ _ (hW.bnodup _) hmemb
  have honlyb := addr_only_class hposh hW.bmem hb
  have hB1sub : ∀ jj x,
      x ∈ (seglist_delete h (addrAt h i) (GET_SIZE b.hdr)).buckets jj →
        x ∈ h.buckets jj := by
    rw [hd1]
    exact fun jj x => mem_del_sub
  have hB1nodup : ∀ jj,
      ((seglist_delete h (addrAt h i) (GET_SIZE b.hdr)).buckets jj).Nodup := by
    rw [hd1]
    exact nodup_del hW.bnodup _ _
  have hB1keep : ∀ jj x, x ∈ h.buckets jj → x ≠ addrAt h i →
      x ∈ (seglist_delete h (addrAt h i) (GET_SIZE b.hdr)).buckets jj := by
    rw [hd1]
    exact fun jj x hx hne => mem_del_keep hx hne
  have hB1self : ∀ jj,
      addrAt h i ∉ (seglist_delete h (addrAt h i) (GET_SIZE b.hdr)).buckets jj := by
    rw [hd1]
    exact not_mem_del_self hW.bnodup honlyb
  have haddr_succ_i : addrAt h (i + 1) = addrAt h i + GET_SIZE b.hdr := addrAt_succ hb
  -- the fresh free block's address is interior to the old block: in no bucket
  have hmid_fresh : ∀ m, m < h.blocks.length → addrAt h m ≠ addrAt h i + asize := by
    intro m hm hcon
    rcases Nat.lt_trichotomy m i with hmi | hmi | hmi
    · have := addrAt_mono h hposh hmi (by omega)
      omega
    · rw [hmi] at hcon
      omega
    · have h1 : addrAt h (i + 1) ≤ addrAt h m := by
        rcases Nat.eq_or_lt_of_le hmi with rfl | hlt2
        · exact Nat.le_refl _
        · exact Nat.le_of_lt (addrAt_mono h hposh hlt2 (by omega))
      omega
  have hB1toB2 : ∀ jj x,
      x ∈ (seglist_delete h (addrAt h i) (GET_SIZE b.hdr)).buckets jj →
        x ∈ h2.buckets jj := by
    intro jj x hx
    rw [hP3, Function.update_apply]
    by_cases hjc : jj = get_segclass_ind (GET_SIZE b.hdr - asize)
    · rw [if_pos hjc]
      rw [hjc] at hx
      exact List.mem_cons_of_mem _ hx
    · rw [if_neg hjc]
      exact hx
  -- old free-list members that survive the delete map to blocks of h2
  have hB1case : ∀ jj a,
      a ∈ (seglist_delete h (addrAt h i) (GET_SIZE b.hdr)).buckets jj →
        ∃ m2 bm, idxOf h2 a = some m2 ∧ h2.blocks[m2]? = some bm ∧
          GET_ALLOC bm.hdr = 0 ∧ get_segclass_ind (GET_SIZE bm.hdr) = jj := by
    intro jj a ha
    rcases hW.bmem jj a (hB1sub jj a ha) with ⟨m, bm, hm, hbm, halb, hclb⟩
    rcases idxOf_sound hm with ⟨hmlt, hmaddr⟩
    have hane : a ≠ addrAt h i := by
      intro hcon
      rw [hcon] at ha
      exact hB1self jj ha
    have hmne : m ≠ i := by
      intro hcon
      rw [hcon] at hmaddr
      exact hane hmaddr.symm
    rcases Nat.lt_or_ge m i with hmi | hmi
    · refine ⟨m, bm, ?_, by rw [hget_low hmi]; exact hbm, halb, hclb⟩
      rw [← hmaddr, ← haddr_low (by omega)]
      exact hidx2 (by omega)
    · have hmi2 : i < m := by omega
      refine ⟨m + 1, bm, ?_, ?_, halb, hclb⟩
      · rw [← hmaddr, show m = m + 1 - 1 by omega, ← haddr_high (by omega)]
        exact hidx2 (by omega)
      · rw [show m + 1 = i + 2 + (m - 1 - i) by omega, hget_high,
          show i + 1 + (m - 1 - i) = m by omega]
        exact hbm
  refine ⟨⟨hmem2, by rw [hend]; exact hW.extent, by rw [hP2]; exact hW.episz,
    by rw [hP2]; exact hW.epial, ?_, ?_, ?_, ?_, ?_, ?_, ?_, ?_⟩, hend, ?_, ?_⟩
  · -- prev0
    intro c hc
    by_cases hi0 : i = 0
    · subst hi0
      rw [hget_hd] at hc
      cases hc
      rw [hpr_hd]
      exact hW.prev0 b hb
    · rw [hget_low (by omega)] at hc
      exact hW.prev0 c hc
  · -- prevS
    intro m b' c' hbm hcm
    rcases Nat.lt_trichotomy (m + 1) i with hmj | hmj | hmj
    · rw [hget_low (by omega)] at hbm
      rw [hget_low hmj] at hcm
      exact hW.prevS m b' c' hbm hcm
    · rw [hget_low (by omega)] at hbm
      rw [hmj, hget_hd] at hcm
      cases hcm
      rw [hpr_hd]
      exact hW.prevS m b' b hbm (by rw [hmj]; exact hb)
    · rcases Nat.lt_trichotomy m i with hmi | hmi | hmi
      · omega
      · subst hmi
        rw [hget_hd] at hbm
        cases hbm
        rw [hget_tl] at hcm
        cases hcm
        rw [hpr_tl, hal_hd]
      · rcases Nat.eq_or_lt_of_le hmi with hmi1 | hmi1
        · -- m = i + 1: the tail block precedes the old successor of b
          rw [← hmi1, hget_tl] at hbm
          cases hbm
          have hcm2 : h.blocks[i + 1]? = some c' := by
            rw [show m + 1 = i + 2 + 0 by omega, hget_high,
              show i + 1 + 0 = i + 1 by omega] at hcm
            exact hcm
          have := hW.prevS i b c' hb hcm2
          rw [this, hfree, hal_tl]
        · have hbm2 : h.blocks[m - 1]? = some b' := by
            rw [show m = i + 2 + (m - 2 - i) by omega, hget_high,
              show i + 1 + (m - 2 - i) = m - 1 by omega] at hbm
            exact hbm
          have hcm2 : h.blocks[m]? = some c' := by
            rw [show m + 1 = i + 2 + (m - 1 - i) by omega, hget_high,
              show i + 1 + (m - 1 - i) = m by omega] at hcm
            exact hcm
          have := hW.prevS (m - 1) b' c' hbm2 (by
            rwa [show m - 1 + 1 = m by omega])
          exact this
  · -- prevE
    intro m b' hml hbm
    rw [hP2]
    rw [hlen2] at hml
    rcases Nat.eq_or_lt_of_le (show i + 1 ≤ m by omega) with hmi | hmi
    · rw [← hmi, hget_tl] at hbm
      cases hbm
      rw [hal_tl]
      have := hW.prevE i b (by omega) hb
      rw [this, hfree]
    · have hbm2 : h.blocks[m - 1]? = some b' := by
        rw [show m = i + 2 + (m - 2 - i) by omega, hget_high,
          show i + 1 + (m - 2 - i) = m - 1 by omega] at hbm
        exact hbm
      exact hW.prevE (m - 1) b' (by omega) hbm2
  · -- prevE0
    intro hc
    have := congrArg List.length hc
    rw [hlen2] at this
    simp at this
  · -- bmem
    intro jj a ha
    rw [hP3, Function.update_apply] at ha
    by_cases hjc : jj = get_segclass_ind (GET_SIZE b.hdr - asize)
    · rw [if_pos hjc] at ha
      rcases List.mem_cons.mp ha with rfl | ha2
      · refine ⟨i + 1, ⟨PACK (GET_SIZE b.hdr - asize) 2, fun j => b.data (asize + j)⟩,
          ?_, hget_tl, hal_tl, by rw [hsz_tl, hjc]⟩
        rw [← haddr_tl]
        exact hidx2 (by omega)
      · rw [← hjc] at ha2
        exact hB1case jj a ha2
    · rw [if_neg hjc] at ha
      exact hB1case jj a ha
  · -- bfree
    intro n c hbn hfr
    rcases Nat.lt_trichotomy n i with hni | hni | hni
    · rw [hget_low hni] at hbn
      have hin := hW.bfree n c hbn hfr
      have hne : addrAt h n ≠ addrAt h i := by
        have := addrAt_mono h hposh hni (by omega)
        omega
      rw [haddr_low (by omega)]
      exact hB1toB2 _ _ (hB1keep _ _ hin hne)
    · subst hni
      rw [hget_hd] at hbn
      cases hbn
      rw [hal_hd] at hfr
      cases hfr
    · rcases Nat.eq_or_lt_of_le (show i + 1 ≤ n by omega) with hni1 | hni1
      · rw [← hni1, hget_tl] at hbn
        cases hbn
        rw [← hni1, haddr_tl, hsz_tl, hP3, Function.update_apply, if_pos rfl]
        exact List.mem_cons_self _ _
      · have hbn2 : h.blocks[n - 1]? = some c := by
          rw [show n = i + 2 + (n - 2 - i) by omega, hget_high,
            show i + 1 + (n - 2 - i) = n - 1 by omega] at hbn
          exact hbn
        have hin := hW.bfree (n - 1) c hbn2 hfr
        have hne : addrAt h (n - 1) ≠ addrAt h i := by
          have := addrAt_mono h hposh (show i < n - 1 by omega) (by
            rcases List.getElem?_eq_some_iff.mp hbn2 with ⟨hl, -⟩
            omega)
          omega
        rw [haddr_high (by omega)]
        exact hB1toB2 _ _ (hB1keep _ _ hin hne)
  · -- bnodup
    intro jj
    rw [hP3, Function.update_apply]
    by_cases hjc : jj = get_segclass_ind (GET_SIZE b.hdr - asize)
    · rw [if_pos hjc]
      refine List.nodup_cons.mpr ⟨?_, hB1nodup _⟩
      intro hmem
      rcases hW.bmem _ _ (hB1sub _ _ hmem) with ⟨m, bm, hm, hbm, -, -⟩
      rcases idxOf_sound hm with ⟨hmlt, hmaddr⟩
      exact hmid_fresh m hmlt hmaddr
    · rw [if_neg hjc]
      exact hB1nodup jj
  · -- noadj
    intro m b' c' hbm hcm hfr
    rcases Nat.lt_trichotomy (m + 1) i with hmj | hmj | hmj
    · rw [hget_low (by omega)] at hbm
      rw [hget_low hmj] at hcm
      exact hW.noadj m b' c' hbm hcm hfr
    · rw [hmj, hget_hd] at hcm
      cases hcm
      exact hal_hd
    · rcases Nat.lt_trichotomy m i with hmi | hmi | hmi
      · omega
      · subst hmi
        rw [hget_hd] at hbm
        cases hbm
        rw [hal_hd] at hfr
        cases hfr
      · rcases Nat.eq_or_lt_of_le hmi with hmi1 | hmi1
        · have hcm2 : h.blocks[i + 1]? = some c' := by
            rw [show m + 1 = i + 2 + 0 by omega, hget_high,
              show i + 1 + 0 = i + 1 by omega] at hcm
            exact hcm
          exact hW.noadj i b c' hb hcm2 hfree
        · have hbm2 : h.blocks[m - 1]? = some b' := by
            rw [show m = i + 2 + (m - 2 - i) by omega, hget_high,
              show i + 1 + (m - 2 - i) = m - 1 by omega] at hbm
            exact hbm
          have hcm2 : h.blocks[m]? = some c' := by
            rw [show m + 1 = i + 2 + (m - 1 - i) by omega, hget_high,
              show i + 1 + (m - 1 - i) = m by omega] at hcm
            exact hcm
          exact hW.noadj (m - 1) b' c' hbm2 (by rwa [show m - 1 + 1 = m by omega]) hfr
  · -- the committed front block
    refine ⟨⟨PACK asize (PACK (PREV_ALLOC b.hdr) 1), b.data⟩, ?_, hget_hd, hal_hd,
      by rw [hsz_hd], rfl⟩
    rw [← haddr_low (Nat.le_refl i)]
    exact hidx2 (by omega)
  · -- frame
    intro m c hbm hal
    have hmne : m ≠ i := by
      intro hcon
      rw [hcon, hb] at hbm
      cases hbm
      rw [hal] at hfree
      cases hfree
    rcases Nat.lt_or_ge m i with hmi | hmi
    · refine ⟨m, c, ?_, by rw [hget_low hmi]; exact hbm, rfl, hal, rfl⟩
      rw [← haddr_low (by omega)]
      exact hidx2 (by omega)
    · have hmi2 : i < m := by omega
      rcases List.getElem?_eq_some_iff.mp hbm with ⟨hmlt, -⟩
      refine ⟨m + 1, c, ?_, ?_, rfl, hal, rfl⟩
      · rw [show m = m + 1 - 1 by omega, ← haddr_high (by omega)]
        exact hidx2 (by omega)
      · rw [show m + 1 = i + 2 + (m - 1 - i) by omega, hget_high,
          show i + 1 + (m - 1 - i) = m by omega]
        exact hbm

/-- The no-split arm of `place` when a real block follows: rewrite the block's
    header allocated, unlink it, and OR the prev-alloc bit into the next
    header. -/
theorem place_nosplit_mid (h : Heap) (i : Nat) (b nb : Blk) (asize : Nat)
    (hW : Wf h) (hb : h.blocks[i]? = some b) (hfree : GET_ALLOC b.hdr = 0)
    (hfit : asize ≤ GET_SIZE b.hdr) (hnb : h.blocks[i + 1]? = some nb) :
    ∀ h2, h2 = { { seglist_delete h (addrAt h i) (GET_SIZE b.hdr) with
        blocks := (seglist_delete h (addrAt h i) (GET_SIZE b.hdr)).blocks.set i
          ⟨PACK (GET_SIZE b.hdr) (PACK (PREV_ALLOC b.hdr) 1), b.data⟩ } with
      blocks := ((seglist_delete h (addrAt h i) (GET_SIZE b.hdr)).blocks.set i
          ⟨PACK (GET_SIZE b.hdr) (PACK (PREV_ALLOC b.hdr) 1), b.data⟩).set (i + 1)
          ⟨PACK nb.hdr 2, nb.data⟩ } →
      Wf h2 ∧ heapEnd h2 = heapEnd h ∧
      (∃ c2, idxOf h2 (addrAt h i) = some i ∧ h2.blocks[i]? = some c2 ∧
        GET_ALLOC c2.hdr = 1 ∧ asize ≤ GET_SIZE c2.hdr ∧ c2.data = b.data) ∧
      AllocPreserved h h2 := by
  intro h2 hh2
  have hlt : i < h.blocks.length := (List.getElem?_eq_some_iff.mp hb).1
  have hlt1 : i + 1 < h.blocks.length := (List.getElem?_eq_some_iff.mp hnb).1
  have hwfb := wfHdr_fields (hW.hdrs b (List.getElem?_mem hb))
  have hwfnb := wfHdr_fields (hW.hdrs nb (List.getElem?_mem hnb))
  have hposh : ∀ c ∈ h.blocks, 0 < blkSize c := wf_pos hW.hdrs
  have hp := hwfb.2.2.2.1
  have hnballoc : GET_ALLOC nb.hdr = 1 := hW.noadj i b nb hb hnb hfree
  have hP1 : h2.blocks =
      (h.blocks.set i ⟨PACK (GET_SIZE b.hdr) (PACK (PREV_ALLOC b.hdr) 1), b.data⟩).set
        (i + 1) ⟨PACK nb.hdr 2, nb.data⟩ := by
    rw [hh2]
    rfl
  have hP2 : h2.epiHdr = h.epiHdr := by
    rw [hh2]
    rfl
  have hP3 : h2.buckets =
      (seglist_delete h (addrAt h i) (GET_SIZE b.hdr)).buckets := by
    rw [hh2]
  -- header facts
  have hhd : Blk.hdr ⟨PACK (GET_SIZE b.hdr) (PACK (PREV_ALLOC b.hdr) 1), b.data⟩ =
      GET_SIZE b.hdr ||| PREV_ALLOC b.hdr ||| 1 := by
    show PACK (GET_SIZE b.hdr) (PACK (PREV_ALLOC b.hdr) 1) = _
    unfold PACK
    exact (Nat.lor_assoc ..).symm
  have hfld_hd := pack_fields (s := GET_SIZE b.hdr) (p := PREV_ALLOC b.hdr) (a := 1)
    hwfb.2.1 hwfb.2.2.1 hp (Or.inr rfl)
  have hwf_hd : WfHdr (Blk.hdr
      ⟨PACK (GET_SIZE b.hdr) (PACK (PREV_ALLOC b.hdr) 1), b.data⟩) :=
    ⟨GET_SIZE b.hdr, PREV_ALLOC b.hdr, 1, hwfb.1, hwfb.2.1, hwfb.2.2.1, hp,
      Or.inr rfl, hhd⟩
  have hsz_hd : GET_SIZE (Blk.hdr
      ⟨PACK (GET_SIZE b.hdr) (PACK (PREV_ALLOC b.hdr) 1), b.data⟩) = GET_SIZE b.hdr := by
    rw [hhd]
    exact hfld_hd.1
  have hal_hd : GET_ALLOC (Blk.hdr
      ⟨PACK (GET_SIZE b.hdr) (PACK (PREV_ALLOC b.hdr) 1), b.data⟩) = 1 := by
    rw [hhd]
    exact hfld_hd.2.2
  have hpr_hd : PREV_ALLOC (Blk.hdr
      ⟨PACK (GET_SIZE b.hdr) (PACK (PREV_ALLOC b.hdr) 1), b.data⟩) = PREV_ALLOC b.hdr := by
    rw [hhd]
    exact hfld_hd.2.1
  have hnbl : Blk.hdr ⟨PACK nb.hdr 2, nb.data⟩ = nb.hdr ||| 2 := rfl
  have hsz_nb : GET_SIZE (Blk.hdr ⟨PACK nb.hdr 2, nb.data⟩) = GET_SIZE nb.hdr := by
    rw [hnbl]
    exact GET_SIZE_lor_two nb.hdr
  have hal_nb : GET_ALLOC (Blk.hdr ⟨PACK nb.hdr 2, nb.data⟩) = GET_ALLOC nb.hdr := by
    rw [hnbl]
    exact GET_ALLOC_lor_two nb.hdr
  have hpr_nb : PREV_ALLOC (Blk.hdr ⟨PACK nb.hdr 2, nb.data⟩) = 2 := by
    rw [hnbl]
    exact PREV_ALLOC_lor_two nb.hdr
  have hwf_nb : WfHdr (Blk.hdr ⟨PACK nb.hdr 2, nb.data⟩) := by
    rw [hnbl]
    refine ⟨GET_SIZE nb.hdr, 2, GET_ALLOC nb.hdr, hwfnb.1, hwfnb.2.1, hwfnb.2.2.1,
      Or.inr rfl, hwfnb.2.2.2.2.1, ?_⟩
    conv_lhs => rw [hwfnb.2.2.2.2.2.1]
    exact lor_two_reorder hwfnb.2.2.2.1
  -- sizes are unchanged, so addresses and indices are unchanged
  have hszB2 : blkSize (⟨PACK (GET_SIZE b.hdr) (PACK (PREV_ALLOC b.hdr) 1), b.data⟩ :
      Blk) = blkSize b := hsz_hd
  have hszNB2 : blkSize (⟨PACK nb.hdr 2, nb.data⟩ : Blk) = blkSize nb := hsz_nb
  have hinner : (h.blocks.set i
      ⟨PACK (GET_SIZE b.hdr) (PACK (PREV_ALLOC b.hdr) 1), b.data⟩)[i + 1]? = some nb := by
    rw [List.getElem?_set_ne (by omega)]
    exact hnb
  have hmap : h2.blocks.map blkSize = h.blocks.map blkSize := by
    rw [hP1, map_blkSize_set hinner hszNB2, map_blkSize_set hb hszB2]
  have haddr : ∀ j, addrAt h2 j = addrAt h j := by
    intro j
    show heapBase + sumSizes (h2.blocks.take j) = heapBase + sumSizes (h.blocks.take j)
    rw [sumSizes_take_congr hmap]
  have hix : ∀ a, idxOf h2 a = idxOf h a := by
    intro a
    show idxOfAux a h2.blocks heapBase = idxOfAux a h.blocks heapBase
    exact idxOfAux_congr hmap heapBase
  have hlen2 : h2.blocks.length = h.blocks.length := by
    rw [hP1]
    simp
  have hget : ∀ m, h2.blocks[m]? =
      if m = i + 1 then some ⟨PACK nb.hdr 2, nb.data⟩
      else if m = i then some ⟨PACK (GET_SIZE b.hdr) (PACK (PREV_ALLOC b.hdr) 1), b.data⟩
      else h.blocks[m]? := by
    intro m
    rw [hP1, getElem_set_cases (by rw [List.length_set]; omega) m]
    by_cases h1 : m = i + 1
    · rw [if_pos h1, if_pos h1]
    · rw [if_neg h1, if_neg h1, getElem_set_cases hlt m]
  -- bucket facts
  have hmemb := hW.bfree i b hb hfree
  have hd1 : seglist_delete h (addrAt h i) (GET_SIZE b.hdr) =
      { h with buckets := (Function.update h.buckets
          (get_segclass_ind (GET_SIZE b.hdr))
          (removeFirst (h.buckets (get_segclass_ind (GET_SIZE b.hdr))) (addrAt h i))) } :=
    seglist_delete_eq h _ _ (hW.bnodup _) hmemb
  have honlyb := addr_only_class hposh hW.bmem hb
  have hB1sub : ∀ jj x, x ∈ h2.buckets jj → x ∈ h.buckets jj := by
    rw [hP3, hd1]
    exact fun jj x => mem_del_sub
  have hB1nodup : ∀ jj, (h2.buckets jj).Nodup := by
    rw [hP3, hd1]
    exact nodup_del hW.bnodup _ _
  have hB1keep : ∀ jj x, x ∈ h.buckets jj → x ≠ addrAt h i → x ∈ h2.buckets jj := by
    rw [hP3, hd1]
    exact fun jj x hx hne => mem_del_keep hx hne
  have hB1self : ∀ jj, addrAt h i ∉ h2.buckets jj := by
    rw [hP3, hd1]
    exact not_mem_del_self hW.bnodup honlyb
  have hend : heapEnd h2 = heapEnd h := by
    show heapBase + sumSizes h2.blocks = heapBase + sumSizes h.blocks
    rw [sumSizes_congr hmap]
  refine ⟨⟨?_, by rw [hend]; exact hW.extent, by rw [hP2]; exact hW.episz,
    by rw [hP2]; exact hW.epial, ?_, ?_, ?_, ?_, ?_, ?_, ?_, ?_⟩, hend, ?_, ?_⟩
  · -- hdrs
    intro c hc
    rw [hP1] at hc
    rcases List.mem_or_eq_of_mem_set hc with hc2 | rfl
    · rcases List.mem_or_eq_of_mem_set hc2 with hc3 | rfl
      · exact hW.hdrs c hc3
      · exact hwf_hd
    · exact hwf_nb
  · -- prev0
    intro c hc
    rw [hget 0] at hc
    rw [if_neg (by omega)] at hc
    by_cases h0 : (0 : Nat) = i
    · rw [if_pos h0] at hc
      cases hc
      rw [hpr_hd]
      exact hW.prev0 b (h0 ▸ hb)
    · rw [if_neg h0] at hc
      exact hW.prev0 c hc
  · -- prevS
    intro m b' c' hbm hcm
    rw [hget m] at hbm
    rw [hget (m + 1)] at hcm
    by_cases hm1 : m = i + 1
    · rw [if_pos hm1] at hbm
      cases hbm
      rw [if_neg (by omega), if_neg (by omega)] at hcm
      have := hW.prevS (i + 1) nb c' hnb (by rw [← hm1]; exact hcm)
      rw [this, hal_nb]
    · rw [if_neg hm1] at hbm
      by_cases hm0 : m = i
      · rw [if_pos hm0] at hbm
        cases hbm
        rw [if_pos (by omega)] at hcm
        cases hcm
        rw [hpr_nb, hal_hd]
      · rw [if_neg hm0] at hbm
        by_cases hm2 : m + 1 = i + 1
        · omega
        · rw [if_neg hm2] at hcm
          by_cases hm3 : m + 1 = i
          · rw [if_pos hm3] at hcm
            cases hcm
            rw [hpr_hd]
            exact hW.prevS m b' b hbm (by rw [hm3]; exact hb)
          · rw [if_neg hm3] at hcm
            exact hW.prevS m b' c' hbm hcm
  · -- prevE
    intro m b' hml hbm
    rw [hP2]
    rw [hlen2] at hml
    rw [hget m] at hbm
    by_cases hm1 : m = i + 1
    · rw [if_pos hm1] at hbm
      cases hbm
      rw [hal_nb]
      exact hW.prevE (i + 1) nb (by omega) hnb
    · rw [if_neg hm1] at hbm
      by_cases hm0 : m = i
      · omega
      · rw [if_neg hm0] at hbm
        exact hW.prevE m b' hml hbm
  · -- prevE0
    intro hc
    have := congrArg List.length hc
    rw [hlen2] at this
    simp only [List.length_nil] at this
    omega
  · -- bmem
    intro jj a ha
    rcases hW.bmem jj a (hB1sub jj a ha) with ⟨m, bm, hm, hbm, halb, hclb⟩
    rcases idxOf_sound hm with ⟨hmlt, hmaddr⟩
    have hane : a ≠ addrAt h i := by
      intro hcon
      rw [hcon] at ha
      exact hB1self jj ha
    have hmne : m ≠ i := by
      intro hcon
      rw [hcon] at hmaddr
      exact hane hmaddr.symm
    have hmne1 : m ≠ i + 1 := by
      intro hcon
      rw [hcon, hnb] at hbm
      cases hbm
      rw [halb] at hnballoc
      cases hnballoc
    refine ⟨m, bm, by rw [hix]; exact hm, ?_, halb, hclb⟩
    rw [hget m, if_neg hmne1, if_neg hmne]
    exact hbm
  · -- bfree
    intro n c hbn hfr
    rw [hget n] at hbn
    by_cases hn1 : n = i + 1
    · rw [if_pos hn1] at hbn
      cases hbn
      rw [hal_nb] at hfr
      rw [hfr] at hnballoc
      cases hnballoc
    · rw [if_neg hn1] at hbn
      by_cases hn0 : n = i
      · rw [if_pos hn0] at hbn
        cases hbn
        rw [hal_hd] at hfr
        cases hfr
      · rw [if_neg hn0] at hbn
        rw [haddr n]
        have hin := hW.bfree n c hbn hfr
        have hnlt := (List.getElem?_eq_some_iff.mp hbn).1
        have hne : addrAt h n ≠ addrAt h i := by
          rcases Nat.lt_or_ge n i with hni | hni
          · have := addrAt_mono h hposh hni (by omega)
            omega
          · have := addrAt_mono h hposh (show i < n by omega) (by omega)
            omega
        exact hB1keep _ _ hin hne
  · -- bnodup
    exact hB1nodup
  · -- noadj
    intro m b' c' hbm hcm hfr
    rw [hget m] at hbm
    rw [hget (m + 1)] at hcm
    by_cases hm1 : m = i + 1
    · rw [if_pos hm1] at hbm
      cases hbm
      rw [hal_nb] at hfr
      rw [hfr] at hnballoc
      cases hnballoc
    · rw [if_neg hm1] at hbm
      by_cases hm0 : m = i
      · rw [if_pos hm0] at hbm
        cases hbm
        rw [hal_hd] at hfr
        cases hfr
      · rw [if_neg hm0] at hbm
        by_cases hm2 : m + 1 = i + 1
        · omega
        · rw [if_neg hm2] at hcm
          by_cases hm3 : m + 1 = i
          · rw [if_pos hm3] at hcm
            cases hcm
            exact hal_hd
          · rw [if_neg hm3] at hcm
            exact hW.noadj m b' c' hbm hcm hfr
  · -- the committed block
    refine ⟨⟨PACK (GET_SIZE b.hdr) (PACK (PREV_ALLOC b.hdr) 1), b.data⟩, ?_, ?_,
      hal_hd, by rw [hsz_hd]; exact hfit, rfl⟩
    · rw [hix]
      exact idxOf_addrAt h hposh hlt
    · rw [hget i, if_neg (by omega), if_pos rfl]
  · -- frame
    intro m c hbm hal
    have hmne : m ≠ i := by
      intro hcon
      rw [hcon, hb] at hbm
      cases hbm
      rw [hal] at hfree
      cases hfree
    by_cases hm1 : m = i + 1
    · subst hm1
      rw [hnb] at hbm
      injection hbm with hx
      refine ⟨i + 1, ⟨PACK nb.hdr 2, nb.data⟩, ?_, ?_, by rw [hsz_nb, hx],
        by rw [hal_nb, hx]; exact hal, by rw [hx]⟩
      · rw [hix]
        exact idxOf_addrAt h hposh hlt1
      · rw [hget (i + 1), if_pos rfl]
    · refine ⟨m, c, ?_, ?_, rfl, hal, rfl⟩
      · rw [hix]
        exact idxOf_addrAt h hposh (List.getElem?_eq_some_iff.mp hbm).1
      · rw [hget m, if_neg hm1, if_neg hmne]
        exact hbm

/-- The no-split arm of `place` when the block is last: rewrite the block's
    header allocated, unlink it, and OR the prev-alloc bit into the epilogue
    header. -/
theorem place_nosplit_end (h : Heap) (i : Nat) (b : Blk) (asize : Nat)
    (hW : Wf h) (hb : h.blocks[i]? = some b) (hfree : GET_ALLOC b.hdr = 0)
    (hfit : asize ≤ GET_SIZE b.hdr) (hnbnone : h.blocks[i + 1]? = none) :
    ∀ h2, h2 = { { seglist_delete h (addrAt h i) (GET_SIZE b.hdr) with
        blocks := (seglist_delete h (addrAt h i) (GET_SIZE b.hdr)).blocks.set i
          ⟨PACK (GET_SIZE b.hdr) (PACK (PREV_ALLOC b.hdr) 1), b.data⟩ } with
      epiHdr := PACK h.epiHdr 2 } →
      Wf h2 ∧ heapEnd h2 = heapEnd h ∧
      (∃ c2, idxOf h2 (addrAt h i) = some i ∧ h2.blocks[i]? = some c2 ∧
        GET_ALLOC c2.hdr = 1 ∧ asize ≤ GET_SIZE c2.hdr ∧ c2.data = b.data) ∧
      AllocPreserved h h2 := by
  intro h2 hh2
  have hlt : i < h.blocks.length := (List.getElem?_eq_some_iff.mp hb).1
  have hlast : h.blocks.length = i + 1 := by
    have := List.getElem?_eq_none_iff.mp hnbnone
    omega
  have hwfb := wfHdr_fields (hW.hdrs b (List.getElem?_mem hb))
  have hposh : ∀ c ∈ h.blocks, 0 < blkSize c := wf_pos hW.hdrs
  have hp := hwfb.2.2.2.1
  have hP1 : h2.blocks =
      h.blocks.set i ⟨PACK (GET_SIZE b.hdr) (PACK (PREV_ALLOC b.hdr) 1), b.data⟩ := by
    rw [hh2]
    rfl
  have hP2 : h2.epiHdr = PACK h.epiHdr 2 := by
    rw [hh2]
  have hP3 : h2.buckets =
      (seglist_delete h (addrAt h i) (GET_SIZE b.hdr)).buckets := by
    rw [hh2]
  -- header facts
  have hhd : Blk.hdr ⟨PACK (GET_SIZE b.hdr) (PACK (PREV_ALLOC b.hdr) 1), b.data⟩ =
      GET_SIZE b.hdr ||| PREV_ALLOC b.hdr ||| 1 := by
    show PACK (GET_SIZE b.hdr) (PACK (PREV_ALLOC b.hdr) 1) = _
    unfold PACK
    exact (Nat.lor_assoc ..).symm
  have hfld_hd := pack_fields (s := GET_SIZE b.hdr) (p := PREV_ALLOC b.hdr) (a := 1)
    hwfb.2.1 hwfb.2.2.1 hp (Or.inr rfl)
  have hwf_hd : WfHdr (Blk.hdr
      ⟨PACK (GET_SIZE b.hdr) (PACK (PREV_ALLOC b.hdr) 1), b.data⟩) :=
    ⟨GET_SIZE b.hdr, PREV_ALLOC b.hdr, 1, hwfb.1, hwfb.2.1, hwfb.2.2.1, hp,
      Or.inr rfl, hhd⟩
  have hsz_hd : GET_SIZE (Blk.hdr
      ⟨PACK (GET_SIZE b.hdr) (PACK (PREV_ALLOC b.hdr) 1), b.data⟩) = GET_SIZE b.hdr := by
    rw [hhd]
    exact hfld_hd.1
  have hal_hd : GET_ALLOC (Blk.hdr
      ⟨PACK (GET_SIZE b.hdr) (PACK (PREV_ALLOC b.hdr) 1), b.data⟩) = 1 := by
    rw [hhd]
    exact hfld_hd.2.2
  have hpr_hd : PREV_ALLOC (Blk.hdr
      ⟨PACK (GET_SIZE b.hdr) (PACK (PREV_ALLOC b.hdr) 1), b.data⟩) = PREV_ALLOC b.hdr := by
    rw [hhd]
    exact hfld_hd.2.1
  have hepi : PACK h.epiHdr 2 = h.epiHdr ||| 2 := rfl
  -- sizes are unchanged
  have hszB2 : blkSize (⟨PACK (GET_SIZE b.hdr) (PACK (PREV_ALLOC b.hdr) 1), b.data⟩ :
      Blk) = blkSize b := hsz_hd
  have hmap : h2.blocks.map blkSize = h.blocks.map blkSize := by
    rw [hP1, map_blkSize_set hb hszB2]
  have haddr : ∀ j, addrAt h2 j = addrAt h j := by
    intro j
    show heapBase + sumSizes (h2.blocks.take j) = heapBase + sumSizes (h.blocks.take j)
    rw [sumSizes_take_congr hmap]
  have hix : ∀ a, idxOf h2 a = idxOf h a := by
    intro a
    show idxOfAux a h2.blocks heapBase = idxOfAux a h.blocks heapBase
    exact idxOfAux_congr hmap heapBase
  have hlen2 : h2.blocks.length = h.blocks.length := by
    rw [hP1]
    simp
  have hget : ∀ m, h2.blocks[m]? =
      if m = i then some ⟨PACK (GET_SIZE b.hdr) (PACK (PREV_ALLOC b.hdr) 1), b.data⟩
      else h.blocks[m]? := by
    intro m
    rw [hP1, getElem_set_cases hlt m]
  -- bucket facts
  have hmemb := hW.bfree i b hb hfree
  have hd1 : seglist_delete h (addrAt h i) (GET_SIZE b.hdr) =
      { h with buckets := (Function.update h.buckets
          (get_segclass_ind (GET_SIZE b.hdr))
          (removeFirst (h.buckets (get_segclass_ind (GET_SIZE b.hdr))) (addrAt h i))) } :=
    seglist_delete_eq h _ _ (hW.bnodup _) hmemb
  have honlyb := addr_only_class hposh hW.bmem hb
  have hB1sub : ∀ jj x, x ∈ h2.buckets jj → x ∈ h.buckets jj := by
    rw [hP3, hd1]
    exact fun jj x => mem_del_sub
  have hB1nodup : ∀ jj, (h2.buckets jj).Nodup := by
    rw [hP3, hd1]
    exact nodup_del hW.bnodup _ _
  have hB1keep : ∀ jj x, x ∈ h.buckets jj → x ≠ addrAt h i → x ∈ h2.buckets jj := by
    rw [hP3, hd1]
    exact fun jj x hx hne => mem_del_keep hx hne
  have hB1self : ∀ jj, addrAt h i ∉ h2.buckets jj := by
    rw [hP3, hd1]
    exact not_mem_del_self hW.bnodup honlyb
  have hend : heapEnd h2 = heapEnd h := by
    show heapBase + sumSizes h2.blocks = heapBase + sumSizes h.blocks
    rw [sumSizes_congr hmap]
  refine ⟨⟨?_, by rw [hend]; exact hW.extent, ?_, ?_, ?_, ?_, ?_, ?_, ?_, ?_, ?_, ?_⟩,
    hend, ?_, ?_⟩
  · -- hdrs
    intro c hc
    rw [hP1] at hc
    rcases List.mem_or_eq_of_mem_set hc with hc2 | rfl
    · exact hW.hdrs c hc2
    · exact hwf_hd
  · -- episz
    rw [hP2, hepi, GET_SIZE_lor_two]
    exact hW.episz
  · -- epial
    rw [hP2, hepi, GET_ALLOC_lor_two]
    exact hW.epial
  · -- prev0
    intro c hc
    rw [hget 0] at hc
    by_cases h0 : (0 : Nat) = i
    · rw [if_pos h0] at hc
      cases hc
      rw [hpr_hd]
      exact hW.prev0 b (h0 ▸ hb)
    · rw [if_neg h0] at hc
      exact hW.prev0 c hc
  · -- prevS
    intro m b' c' hbm hcm
    rw [hget m] at hbm
    rw [hget (m + 1)] at hcm
    by_cases hm0 : m = i
    · rw [if_neg (by omega)] at hcm
      rw [hm0, hnbnone] at hcm
      cases hcm
    · rw [if_neg hm0] at hbm
      by_cases hm3 : m + 1 = i
      · rw [if_pos hm3] at hcm
        cases hcm
        rw [hpr_hd]
        exact hW.prevS m b' b hbm (by rw [hm3]; exact hb)
      · rw [if_neg hm3] at hcm
        exact hW.prevS m b' c' hbm hcm
  · -- prevE
    intro m b' hml hbm
    rw [hP2, hepi, PREV_ALLOC_lor_two]
    rw [hlen2] at hml
    have hm0 : m = i := by omega
    rw [hget m, if_pos hm0] at hbm
    cases hbm
    rw [hal_hd]
  · -- prevE0
    intro hc
    have := congrArg List.length hc
    rw [hlen2] at this
    simp only [List.length_nil] at this
    omega
  · -- bmem
    intro jj a ha
    rcases hW.bmem jj a (hB1sub jj a ha) with ⟨m, bm, hm, hbm, halb, hclb⟩
    rcases idxOf_sound hm with ⟨hmlt, hmaddr⟩
    have hane : a ≠ addrAt h i := by
      intro hcon
      rw [hcon] at ha
      exact hB1self jj ha
    have hmne : m ≠ i := by
      intro hcon
      rw [hcon] at hmaddr
      exact hane hmaddr.symm
    refine ⟨m, bm, by rw [hix]; exact hm, ?_, halb, hclb⟩
    rw [hget m, if_neg hmne]
    exact hbm
  · -- bfree
    intro n c hbn hfr
    rw [hget n] at hbn
    by_cases hn0 : n = i
    · rw [if_pos hn0] at hbn
      cases hbn
      rw [hal_hd] at hfr
      cases hfr
    · rw [if_neg hn0] at hbn
      rw [haddr n]
      have hin := hW.bfree n c hbn hfr
      have hnlt := (List.getElem?_eq_some_iff.mp hbn).1
      have hne : addrAt h n ≠ addrAt h i := by
        rcases Nat.lt_or_ge n i with hni | hni
        · have := addrAt_mono h hposh hni (by omega)
          omega
        · have := addrAt_mono h hposh (show i < n by omega) (by omega)
          omega
      exact hB1keep _ _ hin hne
  · -- bnodup
    exact hB1nodup
  · -- noadj
    intro m b' c' hbm hcm hfr
    rw [hget m] at hbm
    rw [hget (m + 1)] at hcm
    by_cases hm0 : m = i
    · rw [if_neg (by omega)] at hcm
      rw [hm0, hnbnone] at hcm
      cases hcm
    · rw [if_neg hm0] at hbm
      by_cases hm3 : m + 1 = i
      · rw [if_pos hm3] at hcm
        cases hcm
        exact hal_hd
      · rw [if_neg hm3] at hcm
        exact hW.noadj m b' c' hbm hcm hfr
  · -- the committed block
    refine ⟨⟨PACK (GET_SIZE b.hdr) (PACK (PREV_ALLOC b.hdr) 1), b.data⟩, ?_, ?_,
      hal_hd, by rw [hsz_hd]; exact hfit, rfl⟩
    · rw [hix]
      exact idxOf_addrAt h hposh hlt
    · rw [hget i, if_pos rfl]
  · -- frame
    intro m c hbm hal
    have hmne : m ≠ i := by
      intro hcon
      rw [hcon, hb] at hbm
      cases hbm
      rw [hal] at hfree
      cases hfree
    refine ⟨m, c, ?_, ?_, rfl, hal, rfl⟩
    · rw [hix]
      exact idxOf_addrAt h hposh (List.getElem?_eq_some_iff.mp hbm).1
    · rw [hget m, if_neg hmne]
      exact hbm

/-- `place` on a free block of a well-formed heap preserves well-formedness
    and the extent, commits the block (allocated, size at least `asize`, data
    unchanged), and moves no allocated block. -/
theorem place_wf {h : Heap} {i : Nat} {b : Blk} {asize : Nat}
    (hW : Wf h) (hb : h.blocks[i]? = some b) (hfree : GET_ALLOC b.hdr = 0)
    (ha32 : 32 ≤ asize) (ha16 : asize % 16 = 0) (hfit : asize ≤ GET_SIZE b.hdr) :
    Wf (place h (addrAt h i) asize) ∧
    heapEnd (place h (addrAt h i) asize) = heapEnd h ∧
    (∃ c2, idxOf (place h (addrAt h i) asize) (addrAt h i) = some i ∧
      (place h (addrAt h i) asize).blocks[i]? = some c2 ∧
      GET_ALLOC c2.hdr = 1 ∧ asize ≤ GET_SIZE c2.hdr ∧ c2.data = b.data) ∧
    AllocPreserved h (place h (addrAt h i) asize) := by
  have hposh : ∀ c ∈ h.blocks, 0 < blkSize c := wf_pos hW.hdrs
  have hlt : i < h.blocks.length := (List.getElem?_eq_some_iff.mp hb).1
  have hidx : idxOf h (addrAt h i) = some i := idxOf_addrAt h hposh hlt
  have hwfb := wfHdr_fields (hW.hdrs b (List.getElem?_mem hb))
  have hcsub : csub (GET_SIZE b.hdr) asize = GET_SIZE b.hdr - asize :=
    csub_eq_sub hfit hwfb.2.2.1
  unfold place
  simp only [hidx, hb]
  rw [hcsub]
  by_cases hsp : 2 * 16 ≤ GET_SIZE b.hdr - asize
  · rw [if_pos hsp]
    exact place_split_arm h i b asize hW hb hfree ha32 ha16 hfit (by omega) _ rfl
  · rw [if_neg hsp]
    rcases hnbq : h.blocks[i + 1]? with _ | nb
    · have hscrut : ((seglist_delete h (addrAt h i) (GET_SIZE b.hdr)).blocks.set i
          ⟨PACK (GET_SIZE b.hdr) (PACK (PREV_ALLOC b.hdr) 1), b.data⟩)[i + 1]? =
          (none : Option Blk) := by
        rw [List.getElem?_set_ne (by omega)]
        exact hnbq
      simp only [hscrut]
      exact place_nosplit_end h i b asize hW hb hfree hfit hnbq _ rfl
    · have hscrut : ((seglist_delete h (addrAt h i) (GET_SIZE b.hdr)).blocks.set i
          ⟨PACK (GET_SIZE b.hdr) (PACK (PREV_ALLOC b.hdr) 1), b.data⟩)[i + 1]? =
          some nb := by
        rw [List.getElem?_set_ne (by omega)]
        exact hnbq
      simp only [hscrut]
      exact place_nosplit_mid h i b nb asize hW hb hfree hfit hnbq _ rfl

/-- `extend_heap` on a well-formed heap: on success, the heap grows by exactly
    the aligned byte count, stays well formed, the returned address is a free
    block at least that large, and no allocated block moves. -/
theorem extend_heap_wf {h : Heap} {words : Nat} {ok : Bool} {z : Heap × Nat}
    (hW : Wf h) (hs32 : 32 ≤ align (words % W))
    (hz : extend_heap h words ok = some z) :
    Wf z.1 ∧ heapEnd z.1 = heapEnd h + align (words % W) ∧
    (∃ i2 b2, idxOf z.1 z.2 = some i2 ∧ z.1.blocks[i2]? = some b2 ∧
      GET_ALLOC b2.hdr = 0 ∧ align (words % W) ≤ GET_SIZE b2.hdr) ∧
    (∀ m c, h.blocks[m]? = some c → GET_ALLOC c.hdr = 1 →
      ∃ m2, idxOf z.1 (addrAt h m) = some m2 ∧ z.1.blocks[m2]? = some c) := by
  have hs16 := align_mod16 (words % W)
  have hsW : align (words % W) < W := align_lt_W
  have hposh : ∀ c ∈ h.blocks, 0 < blkSize c := wf_pos hW.hdrs
  by_cases hc : (ok = true ∧ heapEnd h + align (words % W) < W)
  · -- provider succeeds
    have hval : extend_heap h words ok = some (coalesce
        { seglist_add { h with blocks := h.blocks ++
            [⟨PACK (align (words % W)) (PREV_ALLOC h.epiHdr), fun _ => 0⟩] }
          (heapEnd h) (align (words % W)) with epiHdr := PACK 0 1 } (heapEnd h)) := by
      unfold extend_heap mem_sbrk
      dsimp only
      rw [if_pos hc]
    rw [hval] at hz
    injection hz with hz2
    subst hz2
    -- the previous epilogue's prev-alloc flag is a legal flag
    have hpe : PREV_ALLOC h.epiHdr = 0 ∨ PREV_ALLOC h.epiHdr = 2 := by
      rcases hlb : h.blocks.length with _ | n
      · right
        exact hW.prevE0 (List.eq_nil_of_length_eq_zero hlb)
      · have hlast : h.blocks[n]? = some h.blocks[n] :=
          List.getElem?_eq_getElem (by omega)
        have := hW.prevE n (h.blocks[n]) (by omega) hlast
        rcases (wfHdr_fields (hW.hdrs _ (List.getElem?_mem hlast))).2.2.2.2.1 with
          h0 | h1
        · rw [this, h0]
          exact Or.inl rfl
        · rw [this, h1]
          exact Or.inr rfl
    -- facts about the fresh block's header
    have hnbhdr : Blk.hdr (⟨PACK (align (words % W)) (PREV_ALLOC h.epiHdr),
        fun _ => 0⟩ : Blk) = align (words % W) ||| PREV_ALLOC h.epiHdr ||| 0 := by
      show PACK (align (words % W)) (PREV_ALLOC h.epiHdr) = _
      unfold PACK
      rw [Nat.or_zero]
    have hfld := pack_fields (s := align (words % W)) (p := PREV_ALLOC h.epiHdr)
      (a := 0) hs16 hsW hpe (Or.inl rfl)
    have hnbwf : WfHdr (Blk.hdr (⟨PACK (align (words % W)) (PREV_ALLOC h.epiHdr),
        fun _ => 0⟩ : Blk)) :=
      ⟨align (words % W), PREV_ALLOC h.epiHdr, 0, hs32, hs16, hsW, hpe, Or.inl rfl,
        hnbhdr⟩
    have hnbsz : GET_SIZE (Blk.hdr (⟨PACK (align (words % W)) (PREV_ALLOC h.epiHdr),
        fun _ => 0⟩ : Blk)) = align (words % W) := by
      rw [hnbhdr]
      exact hfld.1
    have hnbal : GET_ALLOC (Blk.hdr (⟨PACK (align (words % W)) (PREV_ALLOC h.epiHdr),
        fun _ => 0⟩ : Blk)) = 0 := by
      rw [hnbhdr]
      exact hfld.2.2
    have hnbpr : PREV_ALLOC (Blk.hdr (⟨PACK (align (words % W)) (PREV_ALLOC h.epiHdr),
        fun _ => 0⟩ : Blk)) = PREV_ALLOC h.epiHdr := by
      rw [hnbhdr]
      exact hfld.2.1
    -- the extended pre-coalesce heap
    have hxb : ({ seglist_add { h with blocks := h.blocks ++
        [⟨PACK (align (words % W)) (PREV_ALLOC h.epiHdr), fun _ => 0⟩] }
        (heapEnd h) (align (words % W)) with epiHdr := PACK 0 1 } : Heap).blocks =
        h.blocks ++ [⟨PACK (align (words % W)) (PREV_ALLOC h.epiHdr), fun _ => 0⟩] :=
      rfl
    have hxk : ({ seglist_add { h with blocks := h.blocks ++
        [⟨PACK (align (words % W)) (PREV_ALLOC h.epiHdr), fun _ => 0⟩] }
        (heapEnd h) (align (words % W)) with epiHdr := PACK 0 1 } : Heap).buckets =
        Function.update h.buckets (get_segclass_ind (align (words % W)))
          (heapEnd h :: h.buckets (get_segclass_ind (align (words % W)))) := rfl
    generalize hHX : ({ seglist_add { h with blocks := h.blocks ++
        [⟨PACK (align (words % W)) (PREV_ALLOC h.epiHdr), fun _ => 0⟩] }
        (heapEnd h) (align (words % W)) with epiHdr := PACK 0 1 } : Heap) = HX at *
    have hxe : HX.epiHdr = PACK 0 1 := by
      rw [← hHX]
    have hgetx_low : ∀ {m : Nat}, m < h.blocks.length →
        HX.blocks[m]? = h.blocks[m]? := by
      intro m hm
      rw [hxb]
      exact List.getElem?_append_left hm
    have hgetx_nb : HX.blocks[h.blocks.length]? =
        some ⟨PACK (align (words % W)) (PREV_ALLOC h.epiHdr), fun _ => 0⟩ := by
      rw [hxb, List.getElem?_append_right (Nat.le_refl _), Nat.sub_self]
      rfl
    have hlenx : HX.blocks.length = h.blocks.length + 1 := by
      rw [hxb]
      simp
    have haddr_pre : ∀ {m : Nat}, m ≤ h.blocks.length → addrAt HX m = addrAt h m := by
      intro m hm
      show heapBase + sumSizes (HX.blocks.take m) = heapBase + sumSizes (h.blocks.take m)
      rw [hxb, List.take_append_of_le_length hm]
    have haddr_len : addrAt HX h.blocks.length = heapEnd h := by
      rw [haddr_pre (Nat.le_refl _)]
      show heapBase + sumSizes (h.blocks.take h.blocks.length) =
        heapBase + sumSizes h.blocks
      rw [List.take_of_length_le (Nat.le_refl _)]
    have hendx : heapEnd HX = heapEnd h + align (words % W) := by
      show heapBase + sumSizes HX.blocks = heapBase + sumSizes h.blocks + align (words % W)
      rw [hxb, sumSizes_append]
      have : sumSizes [(⟨PACK (align (words % W)) (PREV_ALLOC h.epiHdr),
          fun _ => 0⟩ : Blk)] = align (words % W) := by
        show blkSize _ + sumSizes [] = _
        unfold blkSize
        rw [hnbsz]
        simp [sumSizes]
      rw [this]
      omega
    have hmemx : ∀ c ∈ HX.blocks, WfHdr c.hdr := by
      intro c hcm
      rw [hxb] at hcm
      rcases List.mem_append.mp hcm with hc1 | hc1
      · exact hW.hdrs c hc1
      · rcases List.mem_singleton.mp hc1 with rfl
        exact hnbwf
    have hposx : ∀ c ∈ HX.blocks, 0 < blkSize c := wf_pos (h := HX) hmemx
    -- WfX at the new block's index
    have hWX : WfX HX h.blocks.length := by
      refine ⟨hmemx, by rw [hendx]; omega, by rw [hxe]; decide, by rw [hxe]; decide,
        ?_, ?_, ?_, ?_, ?_, ?_, ?_, ?_⟩
      · -- prev0
        intro c hc0
        rcases hlb : h.blocks.length with _ | n
        · rw [← hlb] at hc0
          rw [hgetx_nb] at hc0
          cases hc0
          rw [hnbpr]
          exact hW.prevE0 (List.eq_nil_of_length_eq_zero hlb)
        · rw [hgetx_low (by omega)] at hc0
          exact hW.prev0 c hc0
      · -- prevS
        intro j b' c' hbm hcm
        have hjlt : j + 1 < HX.blocks.length := (List.getElem?_eq_some_iff.mp hcm).1
        rw [hlenx] at hjlt
        rcases Nat.eq_or_lt_of_le (show j + 1 ≤ h.blocks.length by omega) with hje | hje
        · rw [hje, hgetx_nb] at hcm
          cases hcm
          rw [hnbpr]
          rw [hgetx_low (by omega)] at hbm
          exact hW.prevE j b' hje hbm
        · rw [hgetx_low (by omega)] at hbm
          rw [hgetx_low hje] at hcm
          exact hW.prevS j b' c' hbm hcm
      · -- prevE
        intro j b' hml hbm
        rw [hlenx] at hml
        have hje : j = h.blocks.length := by omega
        rw [hje, hgetx_nb] at hbm
        cases hbm
        rw [hxe, hnbal]
        decide
      · -- prevE0
        intro hcon
        rw [hxb] at hcon
        exact absurd hcon (by simp)
      · -- bmem
        intro jj a ha
        rw [hxk, Function.update_apply] at ha
        by_cases hjc : jj = get_segclass_ind (align (words % W))
        · rw [if_pos hjc] at ha
          rcases List.mem_cons.mp ha with rfl | ha2
          · refine ⟨h.blocks.length,
              ⟨PACK (align (words % W)) (PREV_ALLOC h.epiHdr), fun _ => 0⟩, ?_,
              hgetx_nb, hnbal, by rw [hnbsz, hjc]⟩
            rw [← haddr_len]
            exact idxOf_addrAt HX hposx (by omega)
          · rw [← hjc] at ha2
            rcases hW.bmem jj a ha2 with ⟨m, bm, hm, hbm, halb, hclb⟩
            rcases idxOf_sound hm with ⟨hmlt, hmaddr⟩
            refine ⟨m, bm, ?_, by rw [hgetx_low hmlt]; exact hbm, halb, hclb⟩
            rw [← hmaddr, ← haddr_pre (by omega)]
            exact idxOf_addrAt HX hposx (by omega)
        · rw [if_neg hjc] at ha
          rcases hW.bmem jj a ha with ⟨m, bm, hm, hbm, halb, hclb⟩
          rcases idxOf_sound hm with ⟨hmlt, hmaddr⟩
          refine ⟨m, bm, ?_, by rw [hgetx_low hmlt]; exact hbm, halb, hclb⟩
          rw [← hmaddr, ← haddr_pre (by omega)]
          exact idxOf_addrAt HX hposx (by omega)
      · -- bfree
        intro k bk hbk hfr
        have hklt : k < HX.blocks.length := (List.getElem?_eq_some_iff.mp hbk).1
        rw [hlenx] at hklt
        rw [hxk, Function.update_apply]
        rcases Nat.eq_or_lt_of_le (show k ≤ h.blocks.length by omega) with hke | hke
        · rw [hke, hgetx_nb] at hbk
          cases hbk
          rw [hnbsz, hke, haddr_len, if_pos rfl]
          exact List.mem_cons_self _ _
        · rw [hgetx_low hke] at hbk
          have hin := hW.bfree k bk hbk hfr
          rw [haddr_pre (by omega)]
          by_cases hjc : get_segclass_ind (GET_SIZE bk.hdr) =
              get_segclass_ind (align (words % W))
          · rw [if_pos hjc]
            rw [hjc] at hin
            exact List.mem_cons_of_mem _ hin
          · rw [if_neg hjc]
            exact hin
      · -- bnodup
        intro jj
        rw [hxk, Function.update_apply]
        by_cases hjc : jj = get_segclass_ind (align (words % W))
        · rw [if_pos hjc]
          refine List.nodup_cons.mpr ⟨?_, hW.bnodup _⟩
          intro hmem
          rcases hW.bmem _ _ hmem with ⟨m, bm, hm, hbm, -, -⟩
          rcases idxOf_sound hm with ⟨hmlt, hmaddr⟩
          have := addrAt_lt_heapEnd hW.hdrs hmlt
          omega
        · rw [if_neg hjc]
          exact hW.bnodup jj
      · -- noadjx
        intro j b' c' hbm hcm hfr
        have hjlt : j + 1 < HX.blocks.length := (List.getElem?_eq_some_iff.mp hcm).1
        rw [hlenx] at hjlt
        rcases Nat.eq_or_lt_of_le (show j + 1 ≤ h.blocks.length by omega) with hje | hje
        · exact Or.inr (Or.inr hje)
        · rw [hgetx_low (by omega)] at hbm
          rw [hgetx_low hje] at hcm
          exact Or.inl (hW.noadj j b' c' hbm hcm hfr)
    -- run coalesce on the fresh block
    rw [← haddr_len]
    obtain ⟨w1, w2, ⟨i2, b2, wi, wb, wal, wsz⟩, w4⟩ :=
      coalesce_wf hWX hgetx_nb hnbal
    refine ⟨w1, by rw [w2, hendx, haddr_len],
      ⟨i2, b2, wi, wb, wal, by rw [hnbsz] at wsz; exact wsz⟩, ?_⟩
    intro m c hbm hal
    have hmlt : m < h.blocks.length := (List.getElem?_eq_some_iff.mp hbm).1
    have := w4 m c (by rw [hgetx_low hmlt]; exact hbm) hal
    rwa [haddr_pre (m := m) (by omega)] at this
  · -- provider failure: extend returns none
    exfalso
    have hnone : extend_heap h words ok = none := by
      unfold extend_heap mem_sbrk
      dsimp only
      rw [if_neg hc]
    rw [hnone] at hz
    cases hz

/-- The `free` arm when a real block follows: clear the alloc bit, clear the
    next header's prev-alloc bit, insert into the bucket, coalesce. -/
theorem free_mid_arm (h : Heap) (i : Nat) (b nb : Blk) (p : Nat)
    (hW : Wf h) (hidx : idxOf h p = some i) (hb : h.blocks[i]? = some b)
    (hal : GET_ALLOC b.hdr = 1) (hnb : h.blocks[i + 1]? = some nb) :
    ∀ hf, hf = seglist_add
        { { h with blocks := (h.blocks.set i
              ⟨PACK (GET_SIZE b.hdr) (PREV_ALLOC b.hdr), b.data⟩) } with
          blocks := ((h.blocks.set i
              ⟨PACK (GET_SIZE b.hdr) (PREV_ALLOC b.hdr), b.data⟩).set (i + 1)
            ⟨PACK (GET_SIZE nb.hdr) (GET_ALLOC nb.hdr), nb.data⟩) } p (GET_SIZE b.hdr) →
      Wf (coalesce hf p).1 ∧ heapEnd (coalesce hf p).1 = heapEnd h ∧
      (∀ m c, h.blocks[m]? = some c → GET_ALLOC c.hdr = 1 → addrAt h m ≠ p →
        ∃ m2 c2, idxOf (coalesce hf p).1 (addrAt h m) = some m2 ∧
          (coalesce hf p).1.blocks[m2]? = some c2 ∧
          GET_SIZE c2.hdr = GET_SIZE c.hdr ∧ GET_ALLOC c2.hdr = 1 ∧
          c2.data = c.data) := by
  intro hf hhf
  have hlt : i < h.blocks.length := (List.getElem?_eq_some_iff.mp hb).1
  have hlt1 : i + 1 < h.blocks.length := (List.getElem?_eq_some_iff.mp hnb).1
  have hwfb := wfHdr_fields (hW.hdrs b (List.getElem?_mem hb))
  have hwfnb := wfHdr_fields (hW.hdrs nb (List.getElem?_mem hnb))
  have hposh : ∀ c ∈ h.blocks, 0 < blkSize c := wf_pos hW.hdrs
  have hpaddr : addrAt h i = p := (idxOf_sound hidx).2
  have hP1 : hf.blocks =
      (h.blocks.set i ⟨PACK (GET_SIZE b.hdr) (PREV_ALLOC b.hdr), b.data⟩).set (i + 1)
        ⟨PACK (GET_SIZE nb.hdr) (GET_ALLOC nb.hdr), nb.data⟩ := by
    rw [hhf]
    rfl
  have hP2 : hf.epiHdr = h.epiHdr := by
    rw [hhf]
    rfl
  have hP3 : hf.buckets = Function.update h.buckets
      (get_segclass_ind (GET_SIZE b.hdr))
      (p :: h.buckets (get_segclass_ind (GET_SIZE b.hdr))) := by
    rw [hhf]
    rfl
  -- header facts
  have hB2 : Blk.hdr ⟨PACK (GET_SIZE b.hdr) (PREV_ALLOC b.hdr), b.data⟩ =
      GET_SIZE b.hdr ||| PREV_ALLOC b.hdr ||| 0 := by
    show PACK (GET_SIZE b.hdr) (PREV_ALLOC b.hdr) = _
    unfold PACK
    rw [Nat.or_zero]
  have hfldB2 := pack_fields (s := GET_SIZE b.hdr) (p := PREV_ALLOC b.hdr) (a := 0)
    hwfb.2.1 hwfb.2.2.1 hwfb.2.2.2.1 (Or.inl rfl)
  have hwfB2 : WfHdr (Blk.hdr ⟨PACK (GET_SIZE b.hdr) (PREV_ALLOC b.hdr), b.data⟩) :=
    ⟨GET_SIZE b.hdr, PREV_ALLOC b.hdr, 0, hwfb.1, hwfb.2.1, hwfb.2.2.1,
      hwfb.2.2.2.1, Or.inl rfl, hB2⟩
  have hszB2 : GET_SIZE (Blk.hdr ⟨PACK (GET_SIZE b.hdr) (PREV_ALLOC b.hdr), b.data⟩) =
      GET_SIZE b.hdr := by
    rw [hB2]
    exact hfldB2.1
  have halB2 : GET_ALLOC (Blk.hdr ⟨PACK (GET_SIZE b.hdr) (PREV_ALLOC b.hdr), b.data⟩) =
      0 := by
    rw [hB2]
    exact hfldB2.2.2
  have hprB2 : PREV_ALLOC (Blk.hdr
      ⟨PACK (GET_SIZE b.hdr) (PREV_ALLOC b.hdr), b.data⟩) = PREV_ALLOC b.hdr := by
    rw [hB2]
    exact hfldB2.2.1
  have hNB2 : Blk.hdr ⟨PACK (GET_SIZE nb.hdr) (GET_ALLOC nb.hdr), nb.data⟩ =
      GET_SIZE nb.hdr ||| 0 ||| GET_ALLOC nb.hdr := by
    show PACK (GET_SIZE nb.hdr) (GET_ALLOC nb.hdr) = _
    unfold PACK
    rw [Nat.or_zero]
  have hfldNB2 := pack_fields (s := GET_SIZE nb.hdr) (p := 0) (a := GET_ALLOC nb.hdr)
    hwfnb.2.1 hwfnb.2.2.1 (Or.inl rfl) hwfnb.2.2.2.2.1
  have hwfNB2 : WfHdr (Blk.hdr
      ⟨PACK (GET_SIZE nb.hdr) (GET_ALLOC nb.hdr), nb.data⟩) :=
    ⟨GET_SIZE nb.hdr, 0, GET_ALLOC nb.hdr, hwfnb.1, hwfnb.2.1, hwfnb.2.2.1,
      Or.inl rfl, hwfnb.2.2.2.2.1, hNB2⟩
  have hszNB2 : GET_SIZE (Blk.hdr
      ⟨PACK (GET_SIZE nb.hdr) (GET_ALLOC nb.hdr), nb.data⟩) = GET_SIZE nb.hdr := by
    rw [hNB2]
    exact hfldNB2.1
  have halNB2 : GET_ALLOC (Blk.hdr
      ⟨PACK (GET_SIZE nb.hdr) (GET_ALLOC nb.hdr), nb.data⟩) = GET_ALLOC nb.hdr := by
    rw [hNB2]
    exact hfldNB2.2.2
  have hprNB2 : PREV_ALLOC (Blk.hdr
      ⟨PACK (GET_SIZE nb.hdr) (GET_ALLOC nb.hdr), nb.data⟩) = 0 := by
    rw [hNB2]
    exact hfldNB2.2.1
  -- sizes unchanged: addresses and indices unchanged
  have hbszB2 : blkSize (⟨PACK (GET_SIZE b.hdr) (PREV_ALLOC b.hdr), b.data⟩ : Blk) =
      blkSize b := hszB2
  have hbszNB2 : blkSize (⟨PACK (GET_SIZE nb.hdr) (GET_ALLOC nb.hdr), nb.data⟩ : Blk) =
      blkSize nb := hszNB2
  have hinner : (h.blocks.set i
      ⟨PACK (GET_SIZE b.hdr) (PREV_ALLOC b.hdr), b.data⟩)[i + 1]? = some nb := by
    rw [List.getElem?_set_ne (by omega)]
    exact hnb
  have hmap : hf.blocks.map blkSize = h.blocks.map blkSize := by
    rw [hP1, map_blkSize_set hinner hbszNB2, map_blkSize_set hb hbszB2]
  have haddr : ∀ j, addrAt hf j = addrAt h j := by
    intro j
    show heapBase + sumSizes (hf.blocks.take j) = heapBase + sumSizes (h.blocks.take j)
    rw [sumSizes_take_congr hmap]
  have hix : ∀ a, idxOf hf a = idxOf h a := by
    intro a
    show idxOfAux a hf.blocks heapBase = idxOfAux a h.blocks heapBase
    exact idxOfAux_congr hmap heapBase
  have hlen2 : hf.blocks.length = h.blocks.length := by
    rw [hP1]
    simp
  have hget : ∀ m, hf.blocks[m]? =
      if m = i + 1 then some ⟨PACK (GET_SIZE nb.hdr) (GET_ALLOC nb.hdr), nb.data⟩
      else if m = i then some ⟨PACK (GET_SIZE b.hdr) (PREV_ALLOC b.hdr), b.data⟩
      else h.blocks[m]? := by
    intro m
    rw [hP1, getElem_set_cases (by rw [List.length_set]; omega) m]
    by_cases h1 : m = i + 1
    · rw [if_pos h1, if_pos h1]
    · rw [if_neg h1, if_neg h1, getElem_set_cases hlt m]
  have hend : heapEnd hf = heapEnd h := by
    show heapBase + sumSizes hf.blocks = heapBase + sumSizes h.blocks
    rw [sumSizes_congr hmap]
  -- p is in no bucket of h (its block is allocated)
  have hpnotin : ∀ jj, p ∉ h.buckets jj := by
    intro jj hmem
    rcases hW.bmem jj p hmem with ⟨k, bk, hk, hbk, hfk, -⟩
    rw [hidx] at hk
    injection hk with hk2
    rw [← hk2, hb] at hbk
    injection hbk with hbk2
    rw [← hbk2] at hfk
    rw [hal] at hfk
    cases hfk
  -- the pre-coalesce state satisfies WfX at i
  have hWX : WfX hf i := by
    refine ⟨?_, by rw [hend]; exact hW.extent, by rw [hP2]; exact hW.episz,
      by rw [hP2]; exact hW.epial, ?_, ?_, ?_, ?_, ?_, ?_, ?_, ?_⟩
    · -- hdrs
      intro c hc
      rw [hP1] at hc
      rcases List.mem_or_eq_of_mem_set hc with hc2 | rfl
      · rcases List.mem_or_eq_of_mem_set hc2 with hc3 | rfl
        · exact hW.hdrs c hc3
        · exact hwfB2
      · exact hwfNB2
    · -- prev0
      intro c hc
      rw [hget 0, if_neg (by omega)] at hc
      by_cases h0 : (0 : Nat) = i
      · rw [if_pos h0] at hc
        cases hc
        rw [hprB2]
        exact hW.prev0 b (h0 ▸ hb)
      · rw [if_neg h0] at hc
        exact hW.prev0 c hc
    · -- prevS
      intro m b' c' hbm hcm
      rw [hget m] at hbm
      rw [hget (m + 1)] at hcm
      by_cases hm1 : m = i + 1
      · rw [if_pos hm1] at hbm
        cases hbm
        rw [if_neg (by omega), if_neg (by omega)] at hcm
        have := hW.prevS (i + 1) nb c' hnb (by rw [← hm1]; exact hcm)
        rw [this, halNB2]
      · rw [if_neg hm1] at hbm
        by_cases hm0 : m = i
        · rw [if_pos hm0] at hbm
          cases hbm
          rw [if_pos (by omega)] at hcm
          cases hcm
          rw [hprNB2, halB2]
        · rw [if_neg hm0] at hbm
          by_cases hm2 : m + 1 = i + 1
          · omega
          · rw [if_neg hm2] at hcm
            by_cases hm3 : m + 1 = i
            · rw [if_pos hm3] at hcm
              cases hcm
              rw [hprB2]
              exact hW.prevS m b' b hbm (by rw [hm3]; exact hb)
            · rw [if_neg hm3] at hcm
              exact hW.prevS m b' c' hbm hcm
    · -- prevE
      intro m b' hml hbm
      rw [hP2]
      rw [hlen2] at hml
      rw [hget m] at hbm
      by_cases hm1 : m = i + 1
      · rw [if_pos hm1] at hbm
        cases hbm
        rw [halNB2]
        exact hW.prevE (i + 1) nb (by omega) hnb
      · rw [if_neg hm1] at hbm
        by_cases hm0 : m = i
        · omega
        · rw [if_neg hm0] at hbm
          exact hW.prevE m b' hml hbm
    · -- prevE0
      intro hc
      have := congrArg List.length hc
      rw [hlen2] at this
      simp only [List.length_nil] at this
      omega
    · -- bmem
      intro jj a ha
      rw [hP3, Function.update_apply] at ha
      by_cases hjc : jj = get_segclass_ind (GET_SIZE b.hdr)
      · rw [if_pos hjc] at ha
        rcases List.mem_cons.mp ha with rfl | ha2
        · refine ⟨i, ⟨PACK (GET_SIZE b.hdr) (PREV_ALLOC b.hdr), b.data⟩, ?_, ?_,
            halB2, by rw [hszB2, hjc]⟩
          · rw [hix]
            exact hidx
          · rw [hget i, if_neg (by omega), if_pos rfl]
        · rw [← hjc] at ha2
          rcases hW.bmem jj a ha2 with ⟨m, bm, hm, hbm, halb, hclb⟩
          have hmne : m ≠ i := by
            intro hcon
            rw [hcon, hb] at hbm
            injection hbm with hbm2
            rw [← hbm2, hal] at halb
            cases halb
          by_cases hm1 : m = i + 1
          · refine ⟨i + 1, ⟨PACK (GET_SIZE nb.hdr) (GET_ALLOC nb.hdr), nb.data⟩,
              by rw [hix, ← hm1]; exact hm, by rw [hget (i + 1), if_pos rfl], ?_, ?_⟩
            · rw [halNB2]
              rw [hm1, hnb] at hbm
              injection hbm with hbm2
              rw [← hbm2] at halb
              exact halb
            · rw [hszNB2]
              rw [hm1, hnb] at hbm
              injection hbm with hbm2
              rw [← hbm2] at hclb
              exact hclb
          · refine ⟨m, bm, by rw [hix]; exact hm, ?_, halb, hclb⟩
            rw [hget m, if_neg hm1, if_neg hmne]
            exact hbm
      · rw [if_neg hjc] at ha
        rcases hW.bmem jj a ha with ⟨m, bm, hm, hbm, halb, hclb⟩
        have hmne : m ≠ i := by
          intro hcon
          rw [hcon, hb] at hbm
          injection hbm with hbm2
          rw [← hbm2, hal] at halb
          cases halb
        by_cases hm1 : m = i + 1
        · refine ⟨i + 1, ⟨PACK (GET_SIZE nb.hdr) (GET_ALLOC nb.hdr), nb.data⟩,
            by rw [hix, ← hm1]; exact hm, by rw [hget (i + 1), if_pos rfl], ?_, ?_⟩
          · rw [halNB2]
            rw [hm1, hnb] at hbm
            injection hbm with hbm2
            rw [← hbm2] at halb
            exact halb
          · rw [hszNB2]
            rw [hm1, hnb] at hbm
            injection hbm with hbm2
            rw [← hbm2] at hclb
            exact hclb
        · refine ⟨m, bm, by rw [hix]; exact hm, ?_, halb, hclb⟩
          rw [hget m, if_neg hm1, if_neg hmne]
          exact hbm
    · -- bfree
      intro n c hbn hfr
      rw [hget n] at hbn
      rw [haddr n]
      by_cases hn1 : n = i + 1
      · rw [if_pos hn1] at hbn
        cases hbn
        rw [hszNB2]
        rw [halNB2] at hfr
        have hin := hW.bfree (i + 1) nb hnb hfr
        rw [hP3, Function.update_apply, hn1]
        by_cases hjc : get_segclass_ind (GET_SIZE nb.hdr) =
            get_segclass_ind (GET_SIZE b.hdr)
        · rw [if_pos hjc]
          rw [hjc] at hin
          exact List.mem_cons_of_mem _ hin
        · rw [if_neg hjc]
          exact hin
      · rw [if_neg hn1] at hbn
        by_cases hn0 : n = i
        · rw [if_pos hn0] at hbn
          cases hbn
          rw [hszB2, hn0, hpaddr, hP3, Function.update_apply, if_pos rfl]
          exact List.mem_cons_self _ _
        · rw [if_neg hn0] at hbn
          have hin := hW.bfree n c hbn hfr
          rw [hP3, Function.update_apply]
          by_cases hjc : get_segclass_ind (GET_SIZE c.hdr) =
              get_segclass_ind (GET_SIZE b.hdr)
          · rw [if_pos hjc]
            rw [hjc] at hin
            exact List.mem_cons_of_mem _ hin
          · rw [if_neg hjc]
            exact hin
    · -- bnodup
      intro jj
      rw [hP3, Function.update_apply]
      by_cases hjc : jj = get_segclass_ind (GET_SIZE b.hdr)
      · rw [if_pos hjc]
        exact List.nodup_cons.mpr ⟨hpnotin _, hW.bnodup _⟩
      · rw [if_neg hjc]
        exact hW.bnodup jj
    · -- noadjx
      intro m b' c' hbm hcm hfr
      rw [hget m] at hbm
      rw [hget (m + 1)] at hcm
      by_cases hm1 : m = i + 1
      · rw [if_pos hm1] at hbm
        cases hbm
        rw [if_neg (by omega), if_neg (by omega)] at hcm
        rw [halNB2] at hfr
        exact Or.inl (hW.noadj (i + 1) nb c' hnb (by rw [← hm1]; exact hcm) hfr)
      · rw [if_neg hm1] at hbm
        by_cases hm0 : m = i
        · exact Or.inr (Or.inl hm0)
        · rw [if_neg hm0] at hbm
          by_cases hm3 : m + 1 = i
          · exact Or.inr (Or.inr hm3)
          · by_cases hm2 : m + 1 = i + 1
            · omega
            · rw [if_neg hm2, if_neg hm3] at hcm
              exact Or.inl (hW.noadj m b' c' hbm hcm hfr)
  -- run coalesce on the freed block
  have hbf : hf.blocks[i]? = some ⟨PACK (GET_SIZE b.hdr) (PREV_ALLOC b.hdr), b.data⟩ := by
    rw [hget i, if_neg (by omega), if_pos rfl]
  have hpf : addrAt hf i = p := by
    rw [haddr i]
    exact hpaddr
  obtain ⟨w1, w2, -, w4⟩ := coalesce_wf hWX hbf halB2
  rw [hpf] at w1 w2 w4
  refine ⟨w1, by rw [w2, hend], ?_⟩
  intro m c hbm halc hne
  have hmne : m ≠ i := by
    intro hcon
    rw [← hcon] at hpaddr
    exact hne hpaddr
  by_cases hm1 : m = i + 1
  · subst hm1
    rw [hnb] at hbm
    injection hbm with hx
    have hv := w4 (i + 1) ⟨PACK (GET_SIZE nb.hdr) (GET_ALLOC nb.hdr), nb.data⟩
      (by rw [hget (i + 1), if_pos rfl]) (by rw [halNB2, hx]; exact halc)
    rw [haddr (i + 1)] at hv
    obtain ⟨m2, hv1, hv2⟩ := hv
    exact ⟨m2, ⟨PACK (GET_SIZE nb.hdr) (GET_ALLOC nb.hdr), nb.data⟩, hv1, hv2,
      by rw [hszNB2, hx], by rw [halNB2, hx]; exact halc, by rw [hx]⟩
  · have hv := w4 m c (by rw [hget m, if_neg hm1, if_neg hmne]; exact hbm) halc
    rw [haddr m] at hv
    obtain ⟨m2, hv1, hv2⟩ := hv
    exact ⟨m2, c, hv1, hv2, rfl, halc, rfl⟩

/-- The `free` arm when the block is last: clear the alloc bit, clear the
    epilogue's prev-alloc bit, insert into the bucket, coalesce. -/
theorem free_end_arm (h : Heap) (i : Nat) (b : Blk) (p : Nat)
    (hW : Wf h) (hidx : idxOf h p = some i) (hb : h.blocks[i]? = some b)
    (hal : GET_ALLOC b.hdr = 1) (hnbnone : h.blocks[i + 1]? = none) :
    ∀ hf, hf = seglist_add
        { { h with blocks := (h.blocks.set i
              ⟨PACK (GET_SIZE b.hdr) (PREV_ALLOC b.hdr), b.data⟩) } with
          epiHdr := PACK (GET_SIZE h.epiHdr) (GET_ALLOC h.epiHdr) } p (GET_SIZE b.hdr) →
      Wf (coalesce hf p).1 ∧ heapEnd (coalesce hf p).1 = heapEnd h ∧
      (∀ m c, h.blocks[m]? = some c → GET_ALLOC c.hdr = 1 → addrAt h m ≠ p →
        ∃ m2 c2, idxOf (coalesce hf p).1 (addrAt h m) = some m2 ∧
          (coalesce hf p).1.blocks[m2]? = some c2 ∧
          GET_SIZE c2.hdr = GET_SIZE c.hdr ∧ GET_ALLOC c2.hdr = 1 ∧
          c2.data = c.data) := by
  intro hf hhf
  have hlt : i < h.blocks.length := (List.getElem?_eq_some_iff.mp hb).1
  have hlast : h.blocks.length = i + 1 := by
    have := List.getElem?_eq_none_iff.mp hnbnone
    omega
  have hwfb := wfHdr_fields (hW.hdrs b (List.getElem?_mem hb))
  have hposh : ∀ c ∈ h.blocks, 0 < blkSize c := wf_pos hW.hdrs
  have hpaddr : addrAt h i = p := (idxOf_sound hidx).2
  have hP1 : hf.blocks =
      h.blocks.set i ⟨PACK (GET_SIZE b.hdr) (PREV_ALLOC b.hdr), b.data⟩ := by
    rw [hhf]
    rfl
  have hP2 : hf.epiHdr = PACK (GET_SIZE h.epiHdr) (GET_ALLOC h.epiHdr) := by
    rw [hhf]
    rfl
  have hP3 : hf.buckets = Function.update h.buckets
      (get_segclass_ind (GET_SIZE b.hdr))
      (p :: h.buckets (get_segclass_ind (GET_SIZE b.hdr))) := by
    rw [hhf]
    rfl
  have hE2 : PACK (GET_SIZE h.epiHdr) (GET_ALLOC h.epiHdr) = 1 := by
    rw [hW.episz, hW.epial]
    decide
  -- header facts
  have hB2 : Blk.hdr ⟨PACK (GET_SIZE b.hdr) (PREV_ALLOC b.hdr), b.data⟩ =
      GET_SIZE b.hdr ||| PREV_ALLOC b.hdr ||| 0 := by
    show PACK (GET_SIZE b.hdr) (PREV_ALLOC b.hdr) = _
    unfold PACK
    rw [Nat.or_zero]
  have hfldB2 := pack_fields (s := GET_SIZE b.hdr) (p := PREV_ALLOC b.hdr) (a := 0)
    hwfb.2.1 hwfb.2.2.1 hwfb.2.2.2.1 (Or.inl rfl)
  have hwfB2 : WfHdr (Blk.hdr ⟨PACK (GET_SIZE b.hdr) (PREV_ALLOC b.hdr), b.data⟩) :=
    ⟨GET_SIZE b.hdr, PREV_ALLOC b.hdr, 0, hwfb.1, hwfb.2.1, hwfb.2.2.1,
      hwfb.2.2.2.1, Or.inl rfl, hB2⟩
  have hszB2 : GET_SIZE (Blk.hdr ⟨PACK (GET_SIZE b.hdr) (PREV_ALLOC b.hdr), b.data⟩) =
      GET_SIZE b.hdr := by
    rw [hB2]
    exact hfldB2.1
  have halB2 : GET_ALLOC (Blk.hdr ⟨PACK (GET_SIZE b.hdr) (PREV_ALLOC b.hdr), b.data⟩) =
      0 := by
    rw [hB2]
    exact hfldB2.2.2
  have hprB2 : PREV_ALLOC (Blk.hdr
      ⟨PACK (GET_SIZE b.hdr) (PREV_ALLOC b.hdr), b.data⟩) = PREV_ALLOC b.hdr := by
    rw [hB2]
    exact hfldB2.2.1
  -- sizes unchanged
  have hbszB2 : blkSize (⟨PACK (GET_SIZE b.hdr) (PREV_ALLOC b.hdr), b.data⟩ : Blk) =
      blkSize b := hszB2
  have hmap : hf.blocks.map blkSize = h.blocks.map blkSize := by
    rw [hP1, map_blkSize_set hb hbszB2]
  have haddr : ∀ j, addrAt hf j = addrAt h j := by
    intro j
    show heapBase + sumSizes (hf.blocks.take j) = heapBase + sumSizes (h.blocks.take j)
    rw [sumSizes_take_congr hmap]
  have hix : ∀ a, idxOf hf a = idxOf h a := by
    intro a
    show idxOfAux a hf.blocks heapBase = idxOfAux a h.blocks heapBase
    exact idxOfAux_congr hmap heapBase
  have hlen2 : hf.blocks.length = h.blocks.length := by
    rw [hP1]
    simp
  have hget : ∀ m, hf.blocks[m]? =
      if m = i then some ⟨PACK (GET_SIZE b.hdr) (PREV_ALLOC b.hdr), b.data⟩
      else h.blocks[m]? := by
    intro m
    rw [hP1, getElem_set_cases hlt m]
  have hend : heapEnd hf = heapEnd h := by
    show heapBase + sumSizes hf.blocks = heapBase + sumSizes h.blocks
    rw [sumSizes_congr hmap]
  have hpnotin : ∀ jj, p ∉ h.buckets jj := by
    intro jj hmem
    rcases hW.bmem jj p hmem with ⟨k, bk, hk, hbk, hfk, -⟩
    rw [hidx] at hk
    injection hk with hk2
    rw [← hk2, hb] at hbk
    injection hbk with hbk2
    rw [← hbk2] at hfk
    rw [hal] at hfk
    cases hfk
  have hWX : WfX hf i := by
    refine ⟨?_, by rw [hend]; exact hW.extent, ?_, ?_, ?_, ?_, ?_, ?_, ?_, ?_, ?_, ?_⟩
    · -- hdrs
      intro c hc
      rw [hP1] at hc
      rcases List.mem_or_eq_of_mem_set hc with hc2 | rfl
      · exact hW.hdrs c hc2
      · exact hwfB2
    · -- episz
      rw [hP2, hE2]
      decide
    · -- epial
      rw [hP2, hE2]
      decide
    · -- prev0
      intro c hc
      rw [hget 0] at hc
      by_cases h0 : (0 : Nat) = i
      · rw [if_pos h0] at hc
        cases hc
        rw [hprB2]
        exact hW.prev0 b (h0 ▸ hb)
      · rw [if_neg h0] at hc
        exact hW.prev0 c hc
    · -- prevS
      intro m b' c' hbm hcm
      rw [hget m] at hbm
      rw [hget (m + 1)] at hcm
      by_cases hm0 : m = i
      · rw [if_neg (by omega)] at hcm
        rw [hm0, hnbnone] at hcm
        cases hcm
      · rw [if_neg hm0] at hbm
        by_cases hm3 : m + 1 = i
        · rw [if_pos hm3] at hcm
          cases hcm
          rw [hprB2]
          exact hW.prevS m b' b hbm (by rw [hm3]; exact hb)
        · rw [if_neg hm3] at hcm
          exact hW.prevS m b' c' hbm hcm
    · -- prevE
      intro m b' hml hbm
      rw [hP2, hE2]
      rw [hlen2] at hml
      have hm0 : m = i := by omega
      rw [hget m, if_pos hm0] at hbm
      cases hbm
      rw [halB2]
      decide
    · -- prevE0
      intro hc
      have := congrArg List.length hc
      rw [hlen2] at this
      simp only [List.length_nil] at this
      omega
    · -- bmem
      intro jj a ha
      rw [hP3, Function.update_apply] at ha
      by_cases hjc : jj = get_segclass_ind (GET_SIZE b.hdr)
      · rw [if_pos hjc] at ha
        rcases List.mem_cons.mp ha with rfl | ha2
        · refine ⟨i, ⟨PACK (GET_SIZE b.hdr) (PREV_ALLOC b.hdr), b.data⟩, ?_, ?_,
            halB2, by rw [hszB2, hjc]⟩
          · rw [hix]
            exact hidx
          · rw [hget i, if_pos rfl]
        · rw [← hjc] at ha2
          rcases hW.bmem jj a ha2 with ⟨m, bm, hm, hbm, halb, hclb⟩
          have hmne : m ≠ i := by
            intro hcon
            rw [hcon, hb] at hbm
            injection hbm with hbm2
            rw [← hbm2, hal] at halb
            cases halb
          refine ⟨m, bm, by rw [hix]; exact hm, ?_, halb, hclb⟩
          rw [hget m, if_neg hmne]
          exact hbm
      · rw [if_neg hjc] at ha
        rcases hW.bmem jj a ha with ⟨m, bm, hm, hbm, halb, hclb⟩
        have hmne : m ≠ i := by
          intro hcon
          rw [hcon, hb] at hbm
          injection hbm with hbm2
          rw [← hbm2, hal] at halb
          cases halb
        refine ⟨m, bm, by rw [hix]; exact hm, ?_, halb, hclb⟩
        rw [hget m, if_neg hmne]
        exact hbm
    · -- bfree
      intro n c hbn hfr
      rw [hget n] at hbn
      rw [haddr n]
      by_cases hn0 : n = i
      · rw [if_pos hn0] at hbn
        cases hbn
        rw [hszB2, hn0, hpaddr, hP3, Function.update_apply, if_pos rfl]
        exact List.mem_cons_self _ _
      · rw [if_neg hn0] at hbn
        have hin := hW.bfree n c hbn hfr
        rw [hP3, Function.update_apply]
        by_cases hjc : get_segclass_ind (GET_SIZE c.hdr) =
            get_segclass_ind (GET_SIZE b.hdr)
        · rw [if_pos hjc]
          rw [hjc] at hin
          exact List.mem_cons_of_mem _ hin
        · rw [if_neg hjc]
          exact hin
    · -- bnodup
      intro jj
      rw [hP3, Function.update_apply]
      by_cases hjc : jj = get_segclass_ind (GET_SIZE b.hdr)
      · rw [if_pos hjc]
        exact List.nodup_cons.mpr ⟨hpnotin _, hW.bnodup _⟩
      · rw [if_neg hjc]
        exact hW.bnodup jj
    · -- noadjx
      intro m b' c' hbm hcm hfr
      rw [hget m] at hbm
      rw [hget (m + 1)] at hcm
      by_cases hm0 : m = i
      · exact Or.inr (Or.inl hm0)
      · rw [if_neg hm0] at hbm
        by_cases hm3 : m + 1 = i
        · exact Or.inr (Or.inr hm3)
        · rw [if_neg hm3] at hcm
          exact Or.inl (hW.noadj m b' c' hbm hcm hfr)
  -- run coalesce on the freed block
  have hbf : hf.blocks[i]? = some ⟨PACK (GET_SIZE b.hdr) (PREV_ALLOC b.hdr), b.data⟩ := by
    rw [hget i, if_pos rfl]
  have hpf : addrAt hf i = p := by
    rw [haddr i]
    exact hpaddr
  obtain ⟨w1, w2, -, w4⟩ := coalesce_wf hWX hbf halB2
  rw [hpf] at w1 w2 w4
  refine ⟨w1, by rw [w2, hend], ?_⟩
  intro m c hbm halc hne
  have hmne : m ≠ i := by
    intro hcon
    rw [← hcon] at hpaddr
    exact hne hpaddr
  have hv := w4 m c (by rw [hget m, if_neg hmne]; exact hbm) halc
  rw [haddr m] at hv
  obtain ⟨m2, hv1, hv2⟩ := hv
  exact ⟨m2, c, hv1, hv2, rfl, halc, rfl⟩

/-- `free` on a legal argument preserves well-formedness and the extent, and
    every other allocated block survives at the same address with the same
    size and payload. -/
theorem free_wf {h : Heap} {p : Nat} (hW : Wf h) (hV : ValidFreeArg h p) :
    Wf (mm_free h p) ∧ heapEnd (mm_free h p) = heapEnd h ∧
    (∀ m c, h.blocks[m]? = some c → GET_ALLOC c.hdr = 1 → addrAt h m ≠ p →
      ∃ m2 c2, idxOf (mm_free h p) (addrAt h m) = some m2 ∧
        (mm_free h p).blocks[m2]? = some c2 ∧
        GET_SIZE c2.hdr = GET_SIZE c.hdr ∧ GET_ALLOC c2.hdr = 1 ∧
        c2.data = c.data) := by
  have hposh : ∀ c ∈ h.blocks, 0 < blkSize c := wf_pos hW.hdrs
  rcases hV with hp0 | ⟨i, b, hidx, hb, hal⟩
  · -- free(null) is a no-op
    subst hp0
    have hfe : mm_free h 0 = h := by
      unfold mm_free
      rw [if_pos rfl]
    rw [hfe]
    refine ⟨hW, rfl, ?_⟩
    intro m c hbm halc hne
    exact ⟨m, c, idxOf_addrAt h hposh (List.getElem?_eq_some_iff.mp hbm).1, hbm,
      rfl, halc, rfl⟩
  · have hpaddr : addrAt h i = p := (idxOf_sound hidx).2
    have hp0 : p ≠ 0 := by
      have := heapBase_le_addrAt h i
      unfold heapBase at this
      omega
    unfold mm_free
    rw [if_neg hp0, hidx]
    simp only [hb]
    rcases hnbq : h.blocks[i + 1]? with _ | nb
    · have hscrut : ((h.blocks.set i
          ⟨PACK (GET_SIZE b.hdr) (PREV_ALLOC b.hdr), b.data⟩))[i + 1]? =
          (none : Option Blk) := by
        rw [List.getElem?_set_ne (by omega)]
        exact hnbq
      simp only [hscrut]
      exact free_end_arm h i b p hW hidx hb hal hnbq _ rfl
    · have hscrut : ((h.blocks.set i
          ⟨PACK (GET_SIZE b.hdr) (PREV_ALLOC b.hdr), b.data⟩))[i + 1]? =
          some nb := by
        rw [List.getElem?_set_ne (by omega)]
        exact hnbq
      simp only [hscrut]
      exact free_mid_arm h i b nb p hW hidx hb hal hnbq _ rfl

theorem sizeAt_eq {h : Heap} {a i : Nat} {b : Blk}
    (hidx : idxOf h a = some i) (hb : h.blocks[i]? = some b) :
    sizeAt h a = GET_SIZE b.hdr := by
  unfold sizeAt hdrAt?
  rw [hidx]
  simp [hb]

/-- `malloc` (for request sizes within the 64-bit model's exact range)
    preserves well-formedness, moves no allocated block, and any returned
    pointer is a fresh allocated block with at least `size + 16` bytes. -/
theorem malloc_wf {h : Heap} {size0 : Nat} {ok : Bool}
    (hW : Wf h) (hs : size0 ≤ 2 ^ 63) :
    Wf (mm_malloc h size0 ok).1 ∧
    AllocPreserved h (mm_malloc h size0 ok).1 ∧
    (∀ p, (mm_malloc h size0 ok).2 = some p →
      ∃ ip bp2, idxOf (mm_malloc h size0 ok).1 p = some ip ∧
        (mm_malloc h size0 ok).1.blocks[ip]? = some bp2 ∧
        GET_ALLOC bp2.hdr = 1 ∧ size0 + 16 ≤ GET_SIZE bp2.hdr ∧
        (∀ m c, h.blocks[m]? = some c → GET_ALLOC c.hdr = 1 → addrAt h m ≠ p)) := by
  have hposh : ∀ c ∈ h.blocks, 0 < blkSize c := wf_pos hW.hdrs
  have hWbig : (2 : Nat) ^ 63 + 64 < W := by decide
  have hsz : size0 % W = size0 := Nat.mod_eq_of_lt (by omega)
  have hidfr : AllocPreserved h h := by
    intro m c hbm hal
    exact ⟨m, c, idxOf_addrAt h hposh (List.getElem?_eq_some_iff.mp hbm).1, hbm,
      rfl, hal, rfl⟩
  unfold mm_malloc
  simp only [hsz]
  by_cases hs0 : size0 = 0
  · rw [if_pos hs0]
    refine ⟨hW, hidfr, ?_⟩
    intro p hp
    cases hp
  · rw [if_neg hs0]
    have ha : (size0 + 16) % W = size0 + 16 := Nat.mod_eq_of_lt (by omega)
    have ha15 : size0 + 16 + 15 < W := by omega
    have haself : size0 + 16 ≤ align ((size0 + 16) % W) := by
      rw [ha]
      exact align_le_self ha15
    have ha16 := align_mod16 ((size0 + 16) % W)
    have ha32 : 32 ≤ align ((size0 + 16) % W) := by omega
    have haW : align ((size0 + 16) % W) < W := align_lt_W
    rcases hff : find_fit h (align ((size0 + 16) % W)) with _ | bp
    · -- no fit: extend the heap
      simp only [hff]
      rcases hee : extend_heap h (align ((size0 + 16) % W)) ok with _ | z
      · simp only [hee]
        refine ⟨hW, hidfr, ?_⟩
        intro p hp
        cases hp
      · simp only [hee]
        have hamod : align ((size0 + 16) % W) % W = align ((size0 + 16) % W) :=
          Nat.mod_eq_of_lt haW
        have haa : align (align ((size0 + 16) % W) % W) = align ((size0 + 16) % W) := by
          rw [hamod]
          exact align_eq_self ha16 haW
        have hext := extend_heap_wf hW (by rw [haa]; exact ha32) hee
        rw [haa] at hext
        obtain ⟨wWf, wEnd, ⟨i2, b2, wi, wb, wal, wsz⟩, wFr⟩ := hext
        rcases idxOf_sound wi with ⟨hi2lt, hi2addr⟩
        have hpl := place_wf (h := z.1) (i := i2) wWf wb wal ha32 ha16 wsz
        rw [hi2addr] at hpl
        obtain ⟨pWf, pEnd, ⟨c2, pi, pb, pal, psz, pdat⟩, pFr⟩ := hpl
        refine ⟨pWf, ?_, ?_⟩
        · exact allocPreserved_trans (allocPreserved_of_frame wFr) pFr
        · intro p hp
          injection hp with hp2
          subst hp2
          refine ⟨i2, c2, pi, pb, pal, by omega, ?_⟩
          intro m c hbm hal hcon
          obtain ⟨m2, hv1, hv2⟩ := wFr m c hbm hal
          rw [hcon, wi] at hv1
          injection hv1 with hv1e
          rw [← hv1e] at hv2
          rw [wb] at hv2
          injection hv2 with hv2e
          rw [← hv2e] at hal
          omega
    · -- a fit was found: place it
      simp only [hff]
      obtain ⟨cls, -, -, hsearch, -⟩ := find_fit_go_some h
        (align ((size0 + 16) % W)) _ _ bp hff
      obtain ⟨hmem, hsfit, -⟩ := seglist_search_some h cls _ bp hsearch
      obtain ⟨i, b, hidx, hb, hfree, -⟩ := hW.bmem cls bp hmem
      rcases idxOf_sound hidx with ⟨hilt, hiaddr⟩
      have hfit : align ((size0 + 16) % W) ≤ GET_SIZE b.hdr := by
        rw [sizeAt_eq hidx hb] at hsfit
        exact hsfit
      have hpl := place_wf (h := h) (i := i) hW hb hfree ha32 ha16 hfit
      rw [hiaddr] at hpl
      obtain ⟨pWf, pEnd, ⟨c2, pi, pb, pal, psz, pdat⟩, pFr⟩ := hpl
      refine ⟨pWf, pFr, ?_⟩
      intro p hp
      injection hp with hp2
      subst hp2
      refine ⟨i, c2, pi, pb, pal, by omega, ?_⟩
      intro m c hbm hal hcon
      have hmidx : idxOf h (addrAt h m) = some m :=
        idxOf_addrAt h hposh (List.getElem?_eq_some_iff.mp hbm).1
      rw [hcon, hidx] at hmidx
      injection hmidx with hme
      rw [← hme] at hbm
      rw [hb] at hbm
      injection hbm with hbe
      rw [← hbe] at hal
      omega

theorem idxOf_zero (h : Heap) : idxOf h 0 = none := by
  rcases hq : idxOf h 0 with _ | k
  · rfl
  · exfalso
    have := (idxOf_sound hq).2
    have h2 := heapBase_le_addrAt h k
    unfold heapBase at h2
    omega

theorem align_le_2_63 {x : Nat} (hx : x ≤ 2 ^ 63) : align x ≤ 2 ^ 63 := by
  have hW15 : x + 15 < W := by
    have : (2 : Nat) ^ 63 + 15 < W := by decide
    omega
  have h1 := align_spec hW15
  have h2 : (x + 15) / 16 * 16 ≤ x + 15 := Nat.div_mul_le_self (x + 15) 16
  have h3 := align_mod16 x
  omega

/-- `realloc` on a legal old pointer (request within the model's exact range):
    the result heap is well formed; a returned pointer is a live allocated
    block whose payload agrees with the old block's payload on the copied
    prefix. -/
theorem realloc_wf {h : Heap} {oldptr size0 : Nat} {ok : Bool}
    {z : Heap × Option Nat}
    (hW : Wf h) (hV : ValidFreeArg h oldptr) (hs : size0 ≤ 2 ^ 63)
    (hz : mm_realloc h oldptr size0 ok = some z) :
    Wf z.1 ∧
    (∀ q, z.2 = some q →
      ∃ iq bq, idxOf z.1 q = some iq ∧ z.1.blocks[iq]? = some bq ∧
        GET_ALLOC bq.hdr = 1 ∧
        (∀ i b, idxOf h oldptr = some i → h.blocks[i]? = some b →
          ∀ j, j < size0 → j < GET_SIZE b.hdr → bq.data j = b.data j)) := by
  have hposh : ∀ c ∈ h.blocks, 0 < blkSize c := wf_pos hW.hdrs
  have hWbig : (2 : Nat) ^ 63 + 64 < W := by decide
  have hsz : size0 % W = size0 := Nat.mod_eq_of_lt (by omega)
  rcases hV with hp0 | ⟨i, b, hidx, hb, hal⟩
  · -- a null old pointer: the header read fails, realloc returns none
    exfalso
    subst hp0
    have hnone : hdrAt? h 0 = none := by
      unfold hdrAt?
      rw [idxOf_zero]
      rfl
    have : mm_realloc h 0 size0 ok = none := by
      unfold mm_realloc
      rw [hnone]
    rw [this] at hz
    cases hz
  · have hoaddr : addrAt h i = oldptr := (idxOf_sound hidx).2
    have hop0 : oldptr ≠ 0 := by
      have := heapBase_le_addrAt h i
      unfold heapBase at this
      omega
    have hhdr : hdrAt? h oldptr = some b.hdr := by
      unfold hdrAt?
      rw [hidx]
      simp [hb]
    unfold mm_realloc at hz
    rw [hhdr] at hz
    dsimp only at hz
    rw [if_neg hop0] at hz
    simp only [hsz] at hz
    by_cases hs0 : size0 = 0
    · -- resize to zero: free and return null
      rw [if_pos hs0] at hz
      injection hz with hze
      obtain ⟨fWf, -, -⟩ := free_wf hW (Or.inr ⟨i, b, hidx, hb, hal⟩)
      refine ⟨?_, ?_⟩
      · rw [← hze]
        exact fWf
      · intro q hq
        rw [← hze] at hq
        cases hq
    · rw [if_neg hs0] at hz
      have halign : align size0 ≤ 2 ^ 63 := align_le_2_63 hs
      obtain ⟨mWf, mFr, mRet⟩ := @malloc_wf h (align size0) ok hW halign
      rcases hr2 : (mm_malloc h (align size0) ok).2 with _ | ptr
      · -- allocation failed: heap returned from malloc, null result
        rw [hr2] at hz
        dsimp only at hz
        injection hz with hze
        refine ⟨?_, ?_⟩
        · rw [← hze]
          exact mWf
        · intro q hq
          rw [← hze] at hq
          cases hq
      · -- allocation succeeded: copy, free the old block, return the new one
        rw [hr2] at hz
        dsimp only at hz
        injection hz with hze
        obtain ⟨ip, bp2, mi, mb, mal, msz, mfresh⟩ := mRet ptr hr2
        obtain ⟨m2, c2, oidx, ob, osz, oal, odat⟩ := mFr i b hb hal
        rw [hoaddr] at oidx
        have hfresh : oldptr ≠ ptr := by
          intro hcon
          exact mfresh i b hb hal (by rw [hoaddr, hcon])
        have hm2ip : m2 ≠ ip := by
          intro hcon
          have h1 := (idxOf_sound oidx).2
          have h2 := (idxOf_sound mi).2
          rw [hcon, h2] at h1
          exact hfresh h1.symm
        -- the copy step
        have hcpy := mm_memcpy_eq (h := (mm_malloc h (align size0) ok).1)
          (n := if size0 < GET_SIZE b.hdr then size0 else GET_SIZE b.hdr)
          mi mb oidx ob
        have hiplt : ip < (mm_malloc h (align size0) ok).1.blocks.length :=
          (List.getElem?_eq_some_iff.mp mb).1
        have hcWf : Wf (mm_memcpy (mm_malloc h (align size0) ok).1 ptr oldptr
            (if size0 < GET_SIZE b.hdr then size0 else GET_SIZE b.hdr)) := by
          rw [hcpy]
          exact wf_set_data mWf mb rfl
        have hcmap : (mm_memcpy (mm_malloc h (align size0) ok).1 ptr oldptr
            (if size0 < GET_SIZE b.hdr then size0 else GET_SIZE b.hdr)).blocks.map
              blkSize = (mm_malloc h (align size0) ok).1.blocks.map blkSize := by
          rw [hcpy]
          exact map_blkSize_set mb rfl
        have hcix : ∀ a, idxOf (mm_memcpy (mm_malloc h (align size0) ok).1 ptr oldptr
            (if size0 < GET_SIZE b.hdr then size0 else GET_SIZE b.hdr)) a =
            idxOf (mm_malloc h (align size0) ok).1 a := by
          intro a
          show idxOfAux a _ heapBase = idxOfAux a _ heapBase
          exact idxOfAux_congr hcmap heapBase
        have hcget := @getElem_set_cases (mm_malloc h (align size0) ok).1.blocks ip
          { bp2 with data := fun j =>
            (if j < (if size0 < GET_SIZE b.hdr then size0 else GET_SIZE b.hdr) then
              c2.data j else bp2.data j) } hiplt
        have hcaddr : ∀ j, addrAt (mm_memcpy (mm_malloc h (align size0) ok).1 ptr
            oldptr (if size0 < GET_SIZE b.hdr then size0 else GET_SIZE b.hdr)) j =
            addrAt (mm_malloc h (align size0) ok).1 j := by
          intro j
          show heapBase + sumSizes _ = heapBase + sumSizes _
          rw [sumSizes_take_congr hcmap]
        -- the old block is a legal free argument of the copied heap
        have hVm : ValidFreeArg (mm_memcpy (mm_malloc h (align size0) ok).1 ptr oldptr
            (if size0 < GET_SIZE b.hdr then size0 else GET_SIZE b.hdr)) oldptr := by
          refine Or.inr ⟨m2, c2, by rw [hcix]; exact oidx, ?_, oal⟩
          rw [hcpy]
          show ((mm_malloc h (align size0) ok).1.blocks.set ip _)[m2]? = some c2
          rw [getElem_set_cases hiplt m2, if_neg hm2ip]
          exact ob
        obtain ⟨fWf, -, fFr⟩ := free_wf hcWf hVm
        refine ⟨?_, ?_⟩
        · rw [← hze]
          exact fWf
        · intro q hq
          rw [← hze] at hq
          injection hq with hq2
          subst hq2
          -- the new block inside the copied heap
          have hcb : (mm_memcpy (mm_malloc h (align size0) ok).1 ptr oldptr
              (if size0 < GET_SIZE b.hdr then size0 else GET_SIZE b.hdr)).blocks[ip]? =
              some { bp2 with data := fun j =>
                (if j < (if size0 < GET_SIZE b.hdr then size0 else GET_SIZE b.hdr) then
                  c2.data j else bp2.data j) } := by
            rw [hcpy]
            show ((mm_malloc h (align size0) ok).1.blocks.set ip _)[ip]? = _
            rw [getElem_set_cases hiplt ip, if_pos rfl]
          have hptr_addr : addrAt (mm_memcpy (mm_malloc h (align size0) ok).1 ptr
              oldptr (if size0 < GET_SIZE b.hdr then size0 else GET_SIZE b.hdr)) ip =
              ptr := by
            rw [hcaddr ip]
            exact (idxOf_sound mi).2
          have hv := fFr ip _ hcb mal (by rw [hptr_addr]; exact hfresh.symm)
          rw [hptr_addr] at hv
          obtain ⟨iq, bq, fi, fb, fsz, fal, fdat⟩ := hv
          refine ⟨iq, bq, by rw [← hze]; exact fi, by rw [← hze]; exact fb, fal, ?_⟩
          intro i' b' hidx' hb' j hj1 hj2
          rw [hidx] at hidx'
          injection hidx' with hie
          rw [← hie, hb] at hb'
          injection hb' with hbe
          rw [← hbe] at hj2
          have hdq : bq.data j = (if j <
              (if size0 < GET_SIZE b.hdr then size0 else GET_SIZE b.hdr) then
                c2.data j else bp2.data j) := by
            rw [fdat]
          rw [hdq, if_pos (by split_ifs <;> omega), ← hbe]
          exact congrFun odat j

/-- `calloc` (with the wrapped byte count within the model's exact range)
    preserves well-formedness; a returned pointer is an allocated block of
    capacity at least the wrapped byte count, zero-filled that far. -/
theorem calloc_wf {h : Heap} {nmemb size0 : Nat} {ok : Bool}
    (hW : Wf h) (ht : ((size0 % W) * (nmemb % W)) % W ≤ 2 ^ 63) :
    Wf (mm_calloc h nmemb size0 ok).1 ∧
    (∀ p, (mm_calloc h nmemb size0 ok).2 = some p →
      ∃ ip bp2, idxOf (mm_calloc h nmemb size0 ok).1 p = some ip ∧
        (mm_calloc h nmemb size0 ok).1.blocks[ip]? = some bp2 ∧
        GET_ALLOC bp2.hdr = 1 ∧
        ((size0 % W) * (nmemb % W)) % W + 16 ≤ GET_SIZE bp2.hdr ∧
        ∀ j, j < ((size0 % W) * (nmemb % W)) % W → bp2.data j = 0) := by
  obtain ⟨mWf, mFr, mRet⟩ :=
    @malloc_wf h (((size0 % W) * (nmemb % W)) % W) ok hW ht
  unfold mm_calloc
  dsimp only
  rcases hr2 : (mm_malloc h (((size0 % W) * (nmemb % W)) % W) ok).2 with _ | p
  · simp only [hr2]
    refine ⟨mWf, ?_⟩
    intro p hp
    cases hp
  · simp only [hr2]
    obtain ⟨ip, bp2, mi, mb, mal, msz, mfresh⟩ := mRet p hr2
    have hiplt : ip < (mm_malloc h (((size0 % W) * (nmemb % W)) % W) ok).1.blocks.length :=
      (List.getElem?_eq_some_iff.mp mb).1
    have hset := mm_memset0_eq (n := ((size0 % W) * (nmemb % W)) % W) mi mb
    have hmap : (mm_memset0 (mm_malloc h (((size0 % W) * (nmemb % W)) % W) ok).1 p
        (((size0 % W) * (nmemb % W)) % W)).blocks.map blkSize =
        (mm_malloc h (((size0 % W) * (nmemb % W)) % W) ok).1.blocks.map blkSize := by
      rw [hset]
      exact map_blkSize_set mb rfl
  -- well-formedness and the block at the returned pointer
    refine ⟨by rw [hset]; exact wf_set_data mWf mb rfl, ?_⟩
    intro q hq
    injection hq with hq2
    subst hq2
    refine ⟨ip, { bp2 with data := fun j =>
      (if j < ((size0 % W) * (nmemb % W)) % W then 0 else bp2.data j) }, ?_, ?_,
      mal, msz, ?_⟩
    · have : idxOf (mm_memset0 (mm_malloc h (((size0 % W) * (nmemb % W)) % W) ok).1 p
          (((size0 % W) * (nmemb % W)) % W)) p =
          idxOf (mm_malloc h (((size0 % W) * (nmemb % W)) % W) ok).1 p := by
        show idxOfAux p _ heapBase = idxOfAux p _ heapBase
        exact idxOfAux_congr hmap heapBase
      rw [this]
      exact mi
    · rw [hset]
      show ((mm_malloc h (((size0 % W) * (nmemb % W)) % W) ok).1.blocks.set ip _)[ip]? = _
      rw [getElem_set_cases hiplt ip, if_pos rfl]
    · intro j hj
      exact if_pos hj

/-- Every heap reachable by legal use of the public surface is well formed. -/
theorem reach_wf {h : Heap} (hR : Reachable h) : Wf h := by
  induction hR with
  | init ok h hinit =>
    obtain ⟨-, rfl⟩ := mm_init_eq hinit
    exact wf_h0
  | malloc h size ok hr hs ih => exact (malloc_wf ih hs).1
  | free h p hr hv ih => exact (free_wf ih hv).1
  | realloc h old size ok z hr hv hs hz ih => exact (realloc_wf ih hv hs hz).1
  | calloc h nmemb size ok hr ht ih => exact (calloc_wf ih ht).1

/-- C3: starting from a successfully initialized heap, after every public
    operation completes, no two free blocks are adjacent in address order:
    every free block is followed by an allocated block or the epilogue. -/
theorem C3_no_adjacent_free (h : Heap) (hR : Reachable h) : NoAdjFree h :=
  (reach_wf hR).noadj

theorem C3_no_adjacent_free_witness : NoAdjFree h0 :=
  C3_no_adjacent_free h0 (Reachable.init true h0 rfl)

/-- C5: on any heap reachable from a successful init, every non-null payload
    address returned by allocate, resize, or zero_init (under legal use
    within the model's exact 64-bit range) is a multiple of 16. -/
theorem C5_returned_addresses_aligned (h : Heap) (hR : Reachable h) :
    (∀ size ok p, size ≤ 2 ^ 63 → (mm_malloc h size ok).2 = some p →
      p % 16 = 0) ∧
    (∀ old size ok z p, ValidFreeArg h old → size ≤ 2 ^ 63 →
      mm_realloc h old size ok = some z → z.2 = some p → p % 16 = 0) ∧
    (∀ nmemb size ok p, ((size % W) * (nmemb % W)) % W ≤ 2 ^ 63 →
      (mm_calloc h nmemb size ok).2 = some p → p % 16 = 0) := by
  have hW := reach_wf hR
  refine ⟨?_, ?_, ?_⟩
  · intro size ok p hs hp
    obtain ⟨mWf, -, mRet⟩ := @malloc_wf h size ok hW hs
    obtain ⟨ip, bp2, mi, -, -, -, -⟩ := mRet p hp
    rw [← (idxOf_sound mi).2]
    exact addrAt_mod16 mWf.hdrs ip
  · intro old size ok z p hv hs hz hp
    obtain ⟨rWf, rRet⟩ := realloc_wf hW hv hs hz
    obtain ⟨iq, bq, fi, -, -, -⟩ := rRet p hp
    rw [← (idxOf_sound fi).2]
    exact addrAt_mod16 rWf.hdrs iq
  · intro nmemb size ok p ht hp
    obtain ⟨cWf, cRet⟩ := @calloc_wf h nmemb size ok hW ht
    obtain ⟨ip, bp2, ci, -, -, -, -⟩ := cRet p hp
    rw [← (idxOf_sound ci).2]
    exact addrAt_mod16 cWf.hdrs ip

theorem C5_returned_addresses_aligned_witness :
    (∀ size ok p, size ≤ 2 ^ 63 → (mm_malloc h0 size ok).2 = some p →
      p % 16 = 0) ∧
    (∀ old size ok z p, ValidFreeArg h0 old → size ≤ 2 ^ 63 →
      mm_realloc h0 old size ok = some z → z.2 = some p → p % 16 = 0) ∧
    (∀ nmemb size ok p, ((size % W) * (nmemb % W)) % W ≤ 2 ^ 63 →
      (mm_calloc h0 nmemb size ok).2 = some p → p % 16 = 0) :=
  C5_returned_addresses_aligned h0 (Reachable.init true h0 rfl)

/-- C8: on any reachable heap, resizing a live allocated block `oldptr` of
    header `b.hdr` to a positive size (within the model's exact range), if a
    non-null address `q` is returned then bytes `[0, min(new_size, old
    payload capacity))` of `q`'s payload equal the old payload's bytes. -/
theorem C8_resize_preserves_content (h : Heap) (hR : Reachable h)
    (oldptr size : Nat) (ok : Bool) (z : Heap × Option Nat) (i : Nat) (b : Blk)
    (q : Nat)
    (hidx : idxOf h oldptr = some i) (hb : h.blocks[i]? = some b)
    (hal : GET_ALLOC b.hdr = 1)
    (_hpos : 0 < size) (hs : size ≤ 2 ^ 63)
    (hz : mm_realloc h oldptr size ok = some z) (hq : z.2 = some q) :
    ∃ iq bq, idxOf z.1 q = some iq ∧ z.1.blocks[iq]? = some bq ∧
      ∀ j, j < min size (GET_SIZE b.hdr - 16) → bq.data j = b.data j := by
  have hW := reach_wf hR
  obtain ⟨-, rRet⟩ := realloc_wf hW (Or.inr ⟨i, b, hidx, hb, hal⟩) hs hz
  obtain ⟨iq, bq, fi, fb, -, hcopy⟩ := rRet q hq
  refine ⟨iq, bq, fi, fb, ?_⟩
  intro j hj
  exact hcopy i b hidx hb j (by omega) (by omega)

theorem C8_resize_preserves_content_witness :
    (0 : Nat) < 24 ∧
    (∃ iq bq, idxOf ((mm_realloc (mm_malloc h0 24 true).1 128 24 true).getD
        (initHeap, none)).1 176 = some iq ∧
      ((mm_realloc (mm_malloc h0 24 true).1 128 24 true).getD
        (initHeap, none)).1.blocks[iq]? = some bq ∧
      ∀ j, j < min 24 (GET_SIZE (Blk.hdr ⟨51, fun _ => 0⟩) - 16) →
        bq.data j = Blk.data ⟨51, fun _ => 0⟩ j) :=
  ⟨by decide, C8_resize_preserves_content (mm_malloc h0 24 true).1
    (Reachable.malloc h0 24 true (Reachable.init true h0 rfl) (by decide))
    128 24 true ((mm_realloc (mm_malloc h0 24 true).1 128 24 true).getD
      (initHeap, none)) 0 ⟨51, fun _ => 0⟩ 176
    rfl rfl rfl (by decide) (by decide) rfl rfl⟩

/-- C9 counterexample: `zero_init(2^63 + 1, 2)` succeeds and returns a block
    of only 32 bytes although the mathematical product `(2^63 + 1) * 2 =
    2^64 + 2` bytes was requested — the multiplication wraps modulo 2^64. -/
theorem C9_counterexample :
    (mm_calloc h0 (2 ^ 63 + 1) 2 true).2 = some 128 ∧
    GET_SIZE (((mm_calloc h0 (2 ^ 63 + 1) 2 true).1.blocks.getD 0
      ⟨0, fun _ => 0⟩).hdr) < (2 ^ 63 + 1) * 2 := by
  constructor
  · rfl
  · have hc : GET_SIZE (((mm_calloc h0 (2 ^ 63 + 1) 2 true).1.blocks.getD 0
        ⟨0, fun _ => 0⟩).hdr) = 32 := rfl
    rw [hc]
    decide

/-- C9 (amended): `zero_init(n, s)` requests `n·s` reduced modulo `2^64`; for
    the wrapped byte count `t = (s mod 2^64)·(n mod 2^64) mod 2^64` (within
    the model's exact range), on success the returned block has payload
    capacity at least `t` and its first `t` bytes are zero-filled — not the
    mathematical product `n·s`. -/
theorem C9_calloc_wrapped_capacity (h : Heap) (hR : Reachable h)
    (nmemb size : Nat) (ok : Bool) (p : Nat)
    (ht : ((size % W) * (nmemb % W)) % W ≤ 2 ^ 63)
    (hp : (mm_calloc h nmemb size ok).2 = some p) :
    ∃ ip bp2, idxOf (mm_calloc h nmemb size ok).1 p = some ip ∧
      (mm_calloc h nmemb size ok).1.blocks[ip]? = some bp2 ∧
      ((size % W) * (nmemb % W)) % W + 16 ≤ GET_SIZE bp2.hdr ∧
      ∀ j, j < ((size % W) * (nmemb % W)) % W → bp2.data j = 0 := by
  obtain ⟨-, cRet⟩ := @calloc_wf h nmemb size ok (reach_wf hR) ht
  obtain ⟨ip, bp2, ci, cb, -, csz, cz⟩ := cRet p hp
  exact ⟨ip, bp2, ci, cb, csz, cz⟩

theorem C9_calloc_wrapped_capacity_witness :
    ((8 % W) * (3 % W)) % W ≤ 2 ^ 63 ∧
    (∃ ip bp2, idxOf (mm_calloc h0 3 8 true).1 128 = some ip ∧
      (mm_calloc h0 3 8 true).1.blocks[ip]? = some bp2 ∧
      ((8 % W) * (3 % W)) % W + 16 ≤ GET_SIZE bp2.hdr ∧
      ∀ j, j < ((8 % W) * (3 % W)) % W → bp2.data j = 0) :=
  ⟨by decide, C9_calloc_wrapped_capacity h0 (Reachable.init true h0 rfl)
    3 8 true 128 (by decide) rfl⟩

end MM
